import Mathlib

/-!
# LibJS `VM`, `Gfx::Color` and `RSAPrivateKey`

A shallow embedding of the parts of `Libraries/LibJS/Runtime/VM.h` that manage
the execution context stack, the saved stacks, the two job queues, the intern
caches, the loaded-module cache and the roots, of the serialization and the
parsers of `Libraries/LibGfx/Color.cpp`, and of the DER export of
`Libraries/LibCrypto/PK/RSA.h`, followed by the properties proved about them.

Conventions of the embedding:

* an `AK::Vector` is a `List` whose last element is the vector's last element
  (`append` adds at the end, `take_last` removes from the end);
* a function that can hit a failed `VERIFY` returns `Option`; `none` is the
  failed assertion (the process aborts), `some` is a normal return;
* `ThrowCompletionOr<T>` is `Except Completion T`;
* a `StringView` is a `List Char`, a double is a rational number, and the helpers
  of `AK` that are not among the sources are the fields of the record `Gfx.AK`.
-/

namespace JS

/-! ## Data model -/

/-- Identity of a realm (`Realm*`). -/
abbrev Realm := Nat

/-- The error classes `throw_completion<T>` is instantiated with. -/
inductive ErrorClass where
  | Error
  | InternalError
  | RangeError
  | ReferenceError
  | SyntaxError
  | TypeError
  deriving DecidableEq, Repr

/-- An `ErrorType`: `VM.h` only uses its `message()`. -/
structure ErrorType where
  message : String
  deriving DecidableEq, Repr

/-- Modelled from the spec: `ErrorTypes.h` is not among the sources; this is the
dedicated "call stack exceeded" error type named by
`ErrorType::CallStackSizeExceeded`. -/
def ErrorType.CallStackSizeExceeded : ErrorType :=
  ⟨"Call stack size limit exceeded"⟩

/-- A language value, as far as the VM operations below produce or hold one: the
error object that `throw_completion` creates, a pointer to another heap object, and
values that are no pointer (`undefined`, and `other` for numbers and the like). -/
inductive Value where
  | undefined
  | error_object (cls : ErrorClass) (realm : Realm) (message : String)
  | other (payload : Nat)
  | object (id : Nat)
  deriving DecidableEq, Repr

/-- The components of an `ExecutionContext` that `VM.h` reads: the function, the
realm, the lexical and the variable environment (pointers, possibly null), the
`this` value (optional), the arguments and the strict-mode flag. -/
structure ExecutionContext where
  realm : Realm
  function : Option Nat
  is_strict_mode : Bool
  lexical_environment : Option Nat := none
  variable_environment : Option Nat := none
  this_value : Option Value := none
  arguments : List Value := []
  deriving DecidableEq, Repr

/-- The tag of a `Completion`. -/
inductive CompletionType where
  | Normal
  | Break
  | Continue
  | Return
  | Throw
  deriving DecidableEq, Repr

/-- A `Completion` record: a tag and a value. -/
structure Completion where
  type : CompletionType
  value : Value
  deriving DecidableEq, Repr

/-- Modelled from the spec: `Completion.h` is not among the sources;
`JS::throw_completion(value)` is the completion tagged `Throw` carrying `value`. -/
def throw_completion_value (v : Value) : Completion :=
  ⟨CompletionType.Throw, v⟩

/-- A promise job: `GC::Function<ThrowCompletionOr<Value>()>`. Running the job
yields `result` and makes the job call `enqueue_promise_job` on each of
`enqueues`, in order. -/
inductive Job where
  | mk (id : Nat) (result : Completion) (enqueues : List Job)

/-- A `StoredModule` entry of the loaded-module cache. -/
structure StoredModule where
  referrer : Nat
  filename : String
  type : String
  module : Nat
  has_once_started_linking : Bool
  deriving DecidableEq, Repr

/-- The build configuration that selects the stack low-water mark. -/
structure Build where
  AK_OS_MACOS : Bool
  HAS_ADDRESS_SANITIZER : Bool
  deriving DecidableEq, Repr

/-- The state of a `VM` that the operations below read or write.
`stack_size_free` is the current reading of `m_stack_info.size_free()`. -/
structure VM where
  m_execution_context_stack : List ExecutionContext
  m_saved_execution_context_stacks : List (List ExecutionContext)
  stack_size_free : Nat
  m_promise_jobs : List Job
  m_finalization_registry_cleanup_jobs : List Nat
  m_loaded_modules : List StoredModule

/-- One kibibyte. -/
def KiB : Nat := 1024

/-! ## `AK::Vector` operations -/

/-- The method `Vector::append`: adds at the end. -/
def Vector.append {α : Type} (v : List α) (x : α) : List α :=
  v ++ [x]

/-- Modelled from the spec: `AK/Vector.h` is not among the sources.
`Vector::take_last` asserts that the vector is not empty ("popping an empty
stack is a reported precondition violation") and otherwise removes and returns
the last element. -/
def Vector.take_last {α : Type} (v : List α) : Option (α × List α) :=
  match v.getLast? with
  | none => none
  | some x => some (x, v.dropLast)

/-- Modelled from the spec: `AK/Vector.h` is not among the sources.
`Vector::take_first` asserts that the vector is not empty and otherwise removes
and returns the first element. -/
def Vector.take_first {α : Type} (v : List α) : Option (α × List α) :=
  match v with
  | [] => none
  | x :: rest => some (x, rest)

/-! ## Execution context stack -/

/-- The predicate `VM::did_reach_stack_space_limit`. -/
def did_reach_stack_space_limit (b : Build) (vm : VM) : Bool :=
  if b.AK_OS_MACOS && b.HAS_ADDRESS_SANITIZER then
    decide (vm.stack_size_free < 96 * KiB)
  else
    decide (vm.stack_size_free < 32 * KiB)

/-- The accessor `VM::running_execution_context`: `VERIFY(!m_execution_context_stack.is_empty())`,
then the last element. -/
def running_execution_context (vm : VM) : Option ExecutionContext :=
  if vm.m_execution_context_stack.isEmpty then none
  else vm.m_execution_context_stack.getLast?

/-- The accessor `VM::current_realm`: the realm of the running execution context. -/
def current_realm (vm : VM) : Option Realm :=
  (running_execution_context vm).map (fun c => c.realm)

/-- The template `VM::throw_completion<T>(String)`: creates a `T` in the current realm and
wraps it in a throw completion. -/
def throw_completion (vm : VM) (T : ErrorClass) (message : String) : Option Completion :=
  match current_realm vm with
  | none => none
  | some realm => some (throw_completion_value (Value.error_object T realm message))

/-- The overload `VM::throw_completion<T>(ErrorType)`: the message is `type.message()`. -/
def throw_completion_of_type (vm : VM) (T : ErrorClass) (type : ErrorType) : Option Completion :=
  throw_completion vm T type.message

/-- The checked overload `VM::push_execution_context(ExecutionContext&, CheckStackSpaceLimitTag)`. -/
def push_execution_context_checked (b : Build) (vm : VM) (context : ExecutionContext) :
    Option (Except Completion Unit × VM) :=
  if did_reach_stack_space_limit b vm then
    match throw_completion_of_type vm ErrorClass.InternalError ErrorType.CallStackSizeExceeded with
    | none => none
    | some completion => some (Except.error completion, vm)
  else
    some (Except.ok (),
      { vm with m_execution_context_stack := Vector.append vm.m_execution_context_stack context })

/-- The unchecked overload `VM::push_execution_context(ExecutionContext&)`. -/
def push_execution_context (vm : VM) (context : ExecutionContext) : VM :=
  { vm with m_execution_context_stack := Vector.append vm.m_execution_context_stack context }

/-- The method `VM::pop_execution_context`: `take_last` on the stack, result discarded. -/
def pop_execution_context (vm : VM) : Option VM :=
  match Vector.take_last vm.m_execution_context_stack with
  | none => none
  | some (_, rest) => some { vm with m_execution_context_stack := rest }

/-- Modelled from the spec: the bodies of `save_execution_context_stack`,
`clear_execution_context_stack` and `restore_execution_context_stack` are not
among the sources (`VM.h` only declares them). `save()` "moves the entire
current stack aside onto a stack-of-stacks and leaves the active stack empty". -/
def save_execution_context_stack (vm : VM) : VM :=
  { vm with
    m_saved_execution_context_stacks :=
      Vector.append vm.m_saved_execution_context_stacks vm.m_execution_context_stack
    m_execution_context_stack := [] }

/-- Modelled from the spec: the body is not among the sources. `clear()`
"discards the active stack without saving". -/
def clear_execution_context_stack (vm : VM) : VM :=
  { vm with m_execution_context_stack := [] }

/-- Modelled from the spec: the body is not among the sources. `restore()`
"pops the most recent saved stack back into place"; with nothing saved the pop
fails its precondition. -/
def restore_execution_context_stack (vm : VM) : Option VM :=
  match Vector.take_last vm.m_saved_execution_context_stacks with
  | none => none
  | some (saved, rest) =>
    some { vm with
      m_execution_context_stack := saved
      m_saved_execution_context_stacks := rest }

/-! ## Sequences of stack operations -/

/-- A call of `push_execution_context(c)` or of `pop_execution_context()`. -/
inductive StackOp where
  | push (c : ExecutionContext)
  | pop
  deriving DecidableEq, Repr

/-- Performs one call. -/
def StackOp.apply (vm : VM) : StackOp → Option VM
  | StackOp.push c => some (push_execution_context vm c)
  | StackOp.pop => pop_execution_context vm

/-- Performs the calls in order; stops with `none` at the first failed `VERIFY`. -/
def run_stack_ops : List StackOp → VM → Option VM
  | [], vm => some vm
  | op :: ops, vm =>
    match op.apply vm with
    | none => none
    | some vm1 => run_stack_ops ops vm1

/-- Number of pushes in a sequence of calls. -/
def count_pushes : List StackOp → Nat
  | [] => 0
  | StackOp.push _ :: ops => count_pushes ops + 1
  | StackOp.pop :: ops => count_pushes ops

/-- Number of pops in a sequence of calls. -/
def count_pops : List StackOp → Nat
  | [] => 0
  | StackOp.push _ :: ops => count_pops ops
  | StackOp.pop :: ops => count_pops ops + 1

/-- For each stack content in turn: push its contexts on the active stack, then
`save_execution_context_stack()`. -/
def save_nested : List (List ExecutionContext) → VM → VM
  | [], vm => vm
  | t :: ts, vm =>
    save_nested ts (save_execution_context_stack (t.foldl push_execution_context vm))

/-- Calls `restore_execution_context_stack()` `n` times and records the active
stack found after each call. -/
def restore_all : Nat → VM → Option (List (List ExecutionContext) × VM)
  | 0, vm => some ([], vm)
  | n + 1, vm =>
    match restore_execution_context_stack vm with
    | none => none
    | some vm1 =>
      match restore_all n vm1 with
      | none => none
      | some (seen, vm2) => some (vm1.m_execution_context_stack :: seen, vm2)

/-! ## Promise job queue -/

/-- The identifier of a job. -/
def Job.id : Job → Nat
  | Job.mk id _ _ => id

/-- The completion a job returns. -/
def Job.result : Job → Completion
  | Job.mk _ result _ => result

/-- The jobs a job enqueues while it runs. -/
def Job.enqueues : Job → List Job
  | Job.mk _ _ enqueues => enqueues

mutual
/-- Number of jobs in the tree of a job and everything it transitively enqueues. -/
def Job.size : Job → Nat
  | Job.mk _ _ enqueues => Job.sizeList enqueues + 1
/-- Sum of `Job.size` over a list of jobs. -/
def Job.sizeList : List Job → Nat
  | [] => 0
  | j :: js => Job.size j + Job.sizeList js
end

/-- Modelled from the spec: the body of `enqueue_promise_job` is not among the
sources. It "appends to the promise job list (FIFO)"; the list's element type in
`VM.h` holds the job function only, so the realm argument is not stored. -/
def enqueue_promise_job (vm : VM) (job : Job) (_realm : Option Realm) : VM :=
  { vm with m_promise_jobs := Vector.append vm.m_promise_jobs job }

/-- Invoking the function of a job whose callback touches the promise job queue
only: the job enqueues its `enqueues` in order and returns its completion. A
callback that also causes cleanup entries to be enqueued is `Job.run_registering`. -/
def Job.run (vm : VM) (job : Job) : Completion × VM :=
  (job.result, job.enqueues.foldl (fun v j => enqueue_promise_job v j none) vm)

/-- What a drain of the promise job queue did: the jobs it executed, in
execution order, the thrown values it reported to the unhandled-error surface,
in order, and the VM state on return. -/
structure DrainResult where
  executed : List Job
  reported : List Value
  vm : VM

/-- Modelled from the spec: the body of `run_queued_promise_jobs_impl` is not
among the sources. It "processes the queue to exhaustion", "executing jobs in
strict enqueue order", and a job "that returns a Throw completion is reported
through the runtime's unhandled-error surface" without aborting the remaining
queue. The loop runs while the queue is not empty; `fuel` bounds the number of
iterations and `none` means the bound was reached with jobs still queued. -/
def run_queued_promise_jobs_impl : Nat → VM → Option DrainResult
  | 0, vm => if vm.m_promise_jobs.isEmpty then some ⟨[], [], vm⟩ else none
  | fuel + 1, vm =>
    match Vector.take_first vm.m_promise_jobs with
    | none => some ⟨[], [], vm⟩
    | some (job, rest) =>
      let (result, vm1) := job.run { vm with m_promise_jobs := rest }
      let reported :=
        if result.type = CompletionType.Throw then [result.value] else []
      match run_queued_promise_jobs_impl fuel vm1 with
      | none => none
      | some r => some ⟨job :: r.executed, reported ++ r.reported, r.vm⟩

/-- The method `VM::run_queued_promise_jobs`, over any body `impl` of
`run_queued_promise_jobs_impl`: returns at once when the queue is empty. -/
def run_queued_promise_jobs_with (impl : VM → Option DrainResult) (vm : VM) :
    Option DrainResult :=
  if vm.m_promise_jobs.isEmpty then some ⟨[], [], vm⟩
  else impl vm

/-- The method `VM::run_queued_promise_jobs` with the modelled drain loop. -/
def run_queued_promise_jobs (fuel : Nat) (vm : VM) : Option DrainResult :=
  run_queued_promise_jobs_with (run_queued_promise_jobs_impl fuel) vm

/-! ## Thrown jobs and the finalization-registry cleanup queue -/

/-- The value a job throws, when its completion is a Throw completion. -/
def Job.thrown (j : Job) : Option Value :=
  if j.result.type = CompletionType.Throw then some j.result.value else none

/-- Modelled from the spec: the body of `enqueue_finalization_registry_cleanup_job`
is not among the sources. The cleanup jobs are "a separate FIFO list"; an entry
references a `FinalizationRegistry` (here its identity), not a closure. -/
def enqueue_finalization_registry_cleanup_job (vm : VM) (registry : Nat) : VM :=
  { vm with
    m_finalization_registry_cleanup_jobs :=
      Vector.append vm.m_finalization_registry_cleanup_jobs registry }

/-- What a drain of the cleanup queue did: the registries whose cleanup ran, in
order, and the VM state on return. -/
structure CleanupDrainResult where
  executed : List Nat
  vm : VM

/-- Modelled from the spec: the body of `run_queued_finalization_registry_cleanup_jobs`
is not among the sources. It drains the cleanup list "with the same fixed-point
draining discipline" as the promise jobs. The cleanup of a registry calls back into
the program: `cleanup registry` lists the registries for which a cleanup entry gets
enqueued while it runs and `schedules registry` the promise jobs that get enqueued
while it runs. `fuel` bounds the number of iterations and `none` means the bound was
reached with entries still queued. -/
def run_queued_finalization_registry_cleanup_jobs (cleanup : Nat → List Nat)
    (schedules : Nat → List Job) : Nat → VM → Option CleanupDrainResult
  | 0, vm =>
    if vm.m_finalization_registry_cleanup_jobs.isEmpty then some ⟨[], vm⟩ else none
  | fuel + 1, vm =>
    match Vector.take_first vm.m_finalization_registry_cleanup_jobs with
    | none => some ⟨[], vm⟩
    | some (registry, rest) =>
      let vm1 := (cleanup registry).foldl enqueue_finalization_registry_cleanup_job
        { vm with m_finalization_registry_cleanup_jobs := rest }
      let vm2 := (schedules registry).foldl (fun v j => enqueue_promise_job v j none) vm1
      match run_queued_finalization_registry_cleanup_jobs cleanup schedules fuel vm2 with
      | none => none
      | some r => some ⟨registry :: r.executed, r.vm⟩

/-- Invoking a job's function when the callback, an arbitrary function of the
program, also causes cleanup entries to be enqueued: besides what `Job.run` does,
`enqueue_finalization_registry_cleanup_job` is called on each registry of
`registers job`, in order. -/
def Job.run_registering (registers : Job → List Nat) (vm : VM) (job : Job) :
    Completion × VM :=
  ((job.run vm).1,
    (registers job).foldl enqueue_finalization_registry_cleanup_job (job.run vm).2)

/-- Modelled from the spec: the drain loop of `run_queued_promise_jobs_impl` over
jobs whose callbacks may also cause cleanup entries to be enqueued
(`Job.run_registering`); with `registers` empty it is `run_queued_promise_jobs_impl`. -/
def run_queued_promise_jobs_impl_registering (registers : Job → List Nat) :
    Nat → VM → Option DrainResult
  | 0, vm => if vm.m_promise_jobs.isEmpty then some ⟨[], [], vm⟩ else none
  | fuel + 1, vm =>
    match Vector.take_first vm.m_promise_jobs with
    | none => some ⟨[], [], vm⟩
    | some (job, rest) =>
      let (result, vm1) := job.run_registering registers { vm with m_promise_jobs := rest }
      let reported :=
        if result.type = CompletionType.Throw then [result.value] else []
      match run_queued_promise_jobs_impl_registering registers fuel vm1 with
      | none => none
      | some r => some ⟨job :: r.executed, reported ++ r.reported, r.vm⟩

/-- The method `VM::run_queued_promise_jobs` with that drain loop. -/
def run_queued_promise_jobs_registering (registers : Job → List Nat) (fuel : Nat)
    (vm : VM) : Option DrainResult :=
  run_queued_promise_jobs_with (run_queued_promise_jobs_impl_registering registers fuel) vm

/-! ## Sample states -/

/-- A VM with nothing on any stack or queue and `free` bytes of native stack left. -/
def VM.fresh (free : Nat) : VM :=
  { m_execution_context_stack := []
    m_saved_execution_context_stacks := []
    stack_size_free := free
    m_promise_jobs := []
    m_finalization_registry_cleanup_jobs := []
    m_loaded_modules := [] }

/-- An ordinary (not macOS, not sanitizer) build. -/
def Build.ordinary : Build := ⟨false, false⟩

/-- A context of realm `r` with no active function. -/
def ExecutionContext.of_realm (r : Realm) : ExecutionContext :=
  { realm := r, function := none, is_strict_mode := false }

/-- A fresh VM whose active stack holds the given contexts. -/
def VM.with_stack (free : Nat) (stack : List ExecutionContext) : VM :=
  { VM.fresh free with m_execution_context_stack := stack }

/-- The job `J4`: enqueues nothing. -/
def Job.J4 : Job := Job.mk 4 ⟨CompletionType.Normal, Value.undefined⟩ []

/-- The queue `J1, J2, J3` in which `J2` enqueues `J4`. -/
def Job.J123 : List Job :=
  [Job.mk 1 ⟨CompletionType.Normal, Value.undefined⟩ [],
   Job.mk 2 ⟨CompletionType.Normal, Value.undefined⟩ [Job.J4],
   Job.mk 3 ⟨CompletionType.Normal, Value.undefined⟩ []]

/-- A fresh VM after `enqueue_promise_job` of each of the given jobs. -/
def VM.with_jobs (jobs : List Job) : VM :=
  jobs.foldl (fun v j => enqueue_promise_job v j none) (VM.fresh 0)

/-- The queue `J1, J2, J3` in which `J2` enqueues `J4` and then throws. -/
def Job.J123_throwing : List Job :=
  [Job.mk 1 ⟨CompletionType.Normal, Value.undefined⟩ [],
   Job.mk 2 ⟨CompletionType.Throw, Value.other 42⟩ [Job.J4],
   Job.mk 3 ⟨CompletionType.Normal, Value.undefined⟩ []]

/-- Cleanup behaviour in which the cleanup of registry 2 enqueues registry 4 and no
other cleanup enqueues anything. -/
def cleanup_two_enqueues_four (registry : Nat) : List Nat :=
  if registry = 2 then [4] else []

/-- Callbacks of which only job 2 causes a cleanup entry, for registry 7, to be
enqueued. -/
def job_two_registers_seven (job : Job) : List Nat :=
  if job.id = 2 then [7] else []

/-- Cleanups of which only that of registry 2 enqueues a promise job, `J4`. -/
def cleanup_two_schedules_job (registry : Nat) : List Job :=
  if registry = 2 then [Job.J4] else []

/-- A measure that decreases along `cleanup_two_enqueues_four`. -/
def cleanup_two_enqueues_four_measure (registry : Nat) : Nat :=
  if registry = 2 then 2 else 1

/-! ## Intern caches and preallocated strings -/

/-- A `HashMap` as an association list with at most one entry per key in use. -/
abbrev HashMap (κ : Type) (ν : Type) := List (κ × ν)

/-- The lookup `HashMap::get`. -/
def HashMap.get {κ ν : Type} [DecidableEq κ] (m : HashMap κ ν) (k : κ) : Option ν :=
  match m.find? (fun e => decide (e.1 = k)) with
  | none => none
  | some e => some e.2

/-- The update `HashMap::set`: replaces the entry of `k`, or adds one. -/
def HashMap.set {κ ν : Type} [DecidableEq κ] (m : HashMap κ ν) (k : κ) (v : ν) : HashMap κ ν :=
  m.filter (fun e => !decide (e.1 = k)) ++ [(k, v)]

/-- The members of `VM` that hold string and symbol cells: the two intern caches
(8-bit `String` keys, and `Utf16String` keys as lists of code units), the empty
string, the table `m_single_ascii_character_strings[128]` and the well-known
symbols. `next_cell` is the identity the heap gives to the next allocated cell. -/
structure InternCaches where
  m_string_cache : HashMap String Nat
  m_utf16_string_cache : HashMap (List Nat) Nat
  m_empty_string : Nat
  m_single_ascii_character_strings : List Nat
  table_size : m_single_ascii_character_strings.length = 128
  m_well_known_symbols : List Nat
  next_cell : Nat

/-- The accessor `VM::single_ascii_character_string`: `VERIFY(character < 0x80)`,
then the table slot at index `character`. -/
def single_ascii_character_string (caches : InternCaches) (character : Nat) : Option Nat :=
  if h : character < 0x80 then
    some (caches.m_single_ascii_character_strings.get
      ⟨character, by rw [caches.table_size]; omega⟩)
  else none

/-- The overload `VM::throw_completion<T>(ErrorType, Args...)`: the message is
`MUST(String::formatted(type.message(), args...))`. `formatted` is the formatter;
where it fails `MUST` aborts. -/
def throw_completion_formatted (formatted : String → List String → Option String)
    (vm : VM) (T : ErrorClass) (type : ErrorType) (args : List String) : Option Completion :=
  match formatted type.message args with
  | none => none
  | some message => throw_completion vm T message

/-- A request to intern string content, in the 8-bit cache or in the wide cache. -/
inductive InternRequest where
  | latin (content : String)
  | wide (content : List Nat)
  deriving DecidableEq, Repr

/-- The cell a cache holds for a request, if any. -/
def InternCaches.lookup (caches : InternCaches) : InternRequest → Option Nat
  | InternRequest.latin content => HashMap.get caches.m_string_cache content
  | InternRequest.wide content => HashMap.get caches.m_utf16_string_cache content

/-- Caches a freshly allocated cell for a request. -/
def InternCaches.insert_fresh (caches : InternCaches) : InternRequest → InternCaches
  | InternRequest.latin content =>
    { caches with
      m_string_cache := HashMap.set caches.m_string_cache content caches.next_cell
      next_cell := caches.next_cell + 1 }
  | InternRequest.wide content =>
    { caches with
      m_utf16_string_cache := HashMap.set caches.m_utf16_string_cache content caches.next_cell
      next_cell := caches.next_cell + 1 }

/-- Modelled from the spec: the interning code is not among the sources (`VM.h`
only exposes the caches). `intern(content)` "returns the existing cell for equal
content if present, else creates and caches one". -/
def intern (caches : InternCaches) (request : InternRequest) : Nat × InternCaches :=
  match caches.lookup request with
  | some cell => (cell, caches)
  | none => (caches.next_cell, caches.insert_fresh request)

/-- Interns the requests in order and collects the returned cells. -/
def intern_all : List InternRequest → InternCaches → List Nat × InternCaches
  | [], caches => ([], caches)
  | request :: rest, caches =>
    let (cell, caches1) := intern caches request
    let (cells, caches2) := intern_all rest caches1
    (cell :: cells, caches2)

/-- Caches with nothing interned, cells `0 .. 127` in the single-character table
and cell `128` as the empty string. -/
def InternCaches.initial : InternCaches :=
  { m_string_cache := []
    m_utf16_string_cache := []
    m_empty_string := 128
    m_single_ascii_character_strings := List.range 128
    table_size := List.length_range 128
    m_well_known_symbols := []
    next_cell := 129 }

/-- The invariant of the intern caches: every cached cell has already been
allocated, and no cell is cached for two different requests. -/
def InternCaches.well_formed (caches : InternCaches) : Prop :=
  (∀ request cell, caches.lookup request = some cell → cell < caches.next_cell) ∧
    ∀ request1 request2 cell, caches.lookup request1 = some cell →
      caches.lookup request2 = some cell → request1 = request2

/-! ## Module cache and linker -/

/-- The key of the loaded-module cache: referrer identity, resolved path and
requested type. -/
structure ModuleKey where
  referrer : Nat
  filename : String
  type : String
  deriving DecidableEq, Repr

/-- The key a cache entry was stored under. -/
def StoredModule.key (e : StoredModule) : ModuleKey :=
  ⟨e.referrer, e.filename, e.type⟩

/-- The linking state of a module graph node. -/
inductive ModuleStatus where
  | Unlinked
  | Linking
  | Linked
  | Evaluating
  | Evaluated
  | Errored
  deriving DecidableEq, Repr

/-- Modelled from the spec: the module classes are not among the sources. The
state machine of a module node is "Unlinked -> Linking -> Linked -> Evaluating ->
Evaluated, with an Errored absorbing state reachable from Linking or Evaluating". -/
def ModuleStatus.may_step : ModuleStatus → ModuleStatus → Bool
  | ModuleStatus.Unlinked, ModuleStatus.Linking => true
  | ModuleStatus.Linking, ModuleStatus.Linked => true
  | ModuleStatus.Linked, ModuleStatus.Evaluating => true
  | ModuleStatus.Evaluating, ModuleStatus.Evaluated => true
  | ModuleStatus.Linking, ModuleStatus.Errored => true
  | ModuleStatus.Evaluating, ModuleStatus.Errored => true
  | _, _ => false

/-- What the host's loader hook delivers for a key: the declared dependencies of
the parsed module, as cache keys, and the value its body throws when evaluated, if
it throws. -/
structure ModuleSource where
  requests : List ModuleKey
  evaluation_error : Option Value
  deriving DecidableEq, Repr

/-- A module graph node: its source, its status and the error recorded on it. -/
structure ModuleNode where
  requests : List ModuleKey
  evaluation_error : Option Value
  status : ModuleStatus
  recorded_error : Option Value
  deriving DecidableEq, Repr

/-- The state the module linker works on: the VM (for `m_loaded_modules`), the
module nodes (the `module` of a cache entry is an index into them), the keys the
loader hook was invoked for, in order, and the status changes made, in order, each
as node, old status, new status. -/
structure Linker where
  vm : VM
  nodes : List ModuleNode
  loader_calls : List ModuleKey
  history : List (Nat × ModuleStatus × ModuleStatus)

/-- How a call of the linker ends: the fuel bound of the embedding was reached, an
assertion of the linker failed, or it returned. -/
inductive Outcome (α : Type) where
  | out_of_fuel
  | failed_assertion
  | returned (value : α)

/-- Modelled from the spec: the body of `get_stored_module` is not among the
sources. The cache is queried "by (referrer, resolved-path, type)". -/
def get_stored_module (vm : VM) (key : ModuleKey) : Option StoredModule :=
  vm.m_loaded_modules.find? (fun e => decide (e.key = key))

/-- The status of a node. -/
def Linker.status (st : Linker) (node : Nat) : Option ModuleStatus :=
  match st.nodes[node]? with
  | none => none
  | some n => some n.status

/-- Sets `has_once_started_linking` on the cache entry stored under a key. -/
def Linker.mark_started (st : Linker) (key : ModuleKey) : Linker :=
  { st with
    vm := { st.vm with
      m_loaded_modules := st.vm.m_loaded_modules.map (fun e =>
        if e.key = key then { e with has_once_started_linking := true } else e) } }

/-- Moves a node from `source` to `target`, asserting that it is in `source`;
a move to `Errored` records the error on the node. -/
def Linker.transition (st : Linker) (node : Nat) (source target : ModuleStatus)
    (error : Option Value) : Option Linker :=
  match st.nodes[node]? with
  | none => none
  | some n =>
    if n.status = source then
      some { st with
        nodes := st.nodes.set node { n with status := target, recorded_error := error }
        history := st.history ++ [(node, source, target)] }
    else none

/-- Modelled from the spec: the first half of `load_imported_module`, whose body is
not among the sources. It "first queries the loaded-module cache"; "on a cache hit,
returns the existing node"; "on a miss, it delegates to the host hook bridge to
fetch/parse source, registers a new cache entry tagged
has_once_started_linking = false". A failing hook gives the load error. -/
def load_module_entry (host : ModuleKey → Except Value ModuleSource) (key : ModuleKey)
    (st : Linker) : Except Value Nat × Linker :=
  match get_stored_module st.vm key with
  | some entry => (Except.ok entry.module, st)
  | none =>
    let st1 := { st with loader_calls := st.loader_calls ++ [key] }
    match host key with
    | Except.error e => (Except.error e, st1)
    | Except.ok source =>
      (Except.ok st1.nodes.length,
        { st1 with
          vm := { st1.vm with
            m_loaded_modules := Vector.append st1.vm.m_loaded_modules
              ⟨key.referrer, key.filename, key.type, st1.nodes.length, false⟩ }
          nodes := st1.nodes ++
            [⟨source.requests, source.evaluation_error, ModuleStatus.Unlinked, none⟩] })

/-- The start of linking the node stored under a key: the entry's flag is set and
the node moves to `Linking`. -/
def begin_linking (st : Linker) (key : ModuleKey) (node : Nat) : Option Linker :=
  (st.mark_started key).transition node ModuleStatus.Unlinked ModuleStatus.Linking none

/-- Runs `f` on each request in order, stopping at the first that does not return
normally. -/
def for_each_request (f : ModuleKey → Linker → Outcome (Except Value Unit × Linker)) :
    List ModuleKey → Linker → Outcome (Except Value Unit × Linker)
  | [], st => Outcome.returned (Except.ok (), st)
  | key :: rest, st =>
    match f key st with
    | Outcome.out_of_fuel => Outcome.out_of_fuel
    | Outcome.failed_assertion => Outcome.failed_assertion
    | Outcome.returned (Except.error e, st1) => Outcome.returned (Except.error e, st1)
    | Outcome.returned (Except.ok (), st1) => for_each_request f rest st1

/-- Modelled from the spec: the second half of `load_imported_module`. The loader
"proceeds to link its declared dependencies recursively - a node whose
has_once_started_linking flag is already set when revisited during that recursion
is treated as in progress and not relinked". A failure below moves the node to
`Errored` and aborts the load. `fuel` bounds the depth of the recursion. -/
def link_module (host : ModuleKey → Except Value ModuleSource) :
    Nat → ModuleKey → Linker → Outcome (Except Value Unit × Linker)
  | 0, _, _ => Outcome.out_of_fuel
  | fuel + 1, key, st =>
    match get_stored_module st.vm key with
    | none => Outcome.failed_assertion
    | some entry =>
      if entry.has_once_started_linking then Outcome.returned (Except.ok (), st)
      else
        match begin_linking st key entry.module with
        | none => Outcome.failed_assertion
        | some st1 =>
          match st1.nodes[entry.module]? with
          | none => Outcome.failed_assertion
          | some n =>
            match for_each_request
                (fun request s =>
                  match load_module_entry host request s with
                  | (Except.error e, s1) => Outcome.returned (Except.error e, s1)
                  | (Except.ok _, s1) => link_module host fuel request s1)
                n.requests st1 with
            | Outcome.out_of_fuel => Outcome.out_of_fuel
            | Outcome.failed_assertion => Outcome.failed_assertion
            | Outcome.returned (Except.error e, st2) =>
              match st2.transition entry.module ModuleStatus.Linking ModuleStatus.Errored
                  (some e) with
              | none => Outcome.failed_assertion
              | some st3 => Outcome.returned (Except.error e, st3)
            | Outcome.returned (Except.ok (), st2) =>
              match st2.transition entry.module ModuleStatus.Linking ModuleStatus.Linked
                  none with
              | none => Outcome.failed_assertion
              | some st3 => Outcome.returned (Except.ok (), st3)

/-- Modelled from the spec: `VM::load_imported_module`, cache query or host load
followed by linking; returns the module node. -/
def load_imported_module (host : ModuleKey → Except Value ModuleSource) (fuel : Nat)
    (key : ModuleKey) (st : Linker) : Outcome (Except Value Nat × Linker) :=
  match load_module_entry host key st with
  | (Except.error e, st1) => Outcome.returned (Except.error e, st1)
  | (Except.ok node, st1) =>
    match link_module host fuel key st1 with
    | Outcome.out_of_fuel => Outcome.out_of_fuel
    | Outcome.failed_assertion => Outcome.failed_assertion
    | Outcome.returned (Except.error e, st2) => Outcome.returned (Except.error e, st2)
    | Outcome.returned (Except.ok (), st2) => Outcome.returned (Except.ok node, st2)

/-- Modelled from the spec: evaluation of a linked node. The node moves to
`Evaluating`, its dependencies are evaluated, then its body; a node met again
while `Evaluating` or already `Evaluated` is not evaluated again; "evaluation
failures are recorded in the node and re-surfaced to every requester". -/
def evaluate_module : Nat → Nat → Linker → Outcome (Except Value Unit × Linker)
  | 0, _, _ => Outcome.out_of_fuel
  | fuel + 1, node, st =>
    match st.nodes[node]? with
    | none => Outcome.failed_assertion
    | some n =>
      match n.status with
      | ModuleStatus.Unlinked => Outcome.failed_assertion
      | ModuleStatus.Linking => Outcome.failed_assertion
      | ModuleStatus.Evaluating => Outcome.returned (Except.ok (), st)
      | ModuleStatus.Evaluated => Outcome.returned (Except.ok (), st)
      | ModuleStatus.Errored =>
        match n.recorded_error with
        | none => Outcome.failed_assertion
        | some e => Outcome.returned (Except.error e, st)
      | ModuleStatus.Linked =>
        match st.transition node ModuleStatus.Linked ModuleStatus.Evaluating none with
        | none => Outcome.failed_assertion
        | some st1 =>
          match for_each_request
              (fun key s =>
                match get_stored_module s.vm key with
                | none => Outcome.failed_assertion
                | some entry => evaluate_module fuel entry.module s)
              n.requests st1 with
          | Outcome.out_of_fuel => Outcome.out_of_fuel
          | Outcome.failed_assertion => Outcome.failed_assertion
          | Outcome.returned (Except.error e, st2) =>
            match st2.transition node ModuleStatus.Evaluating ModuleStatus.Errored (some e) with
            | none => Outcome.failed_assertion
            | some st3 => Outcome.returned (Except.error e, st3)
          | Outcome.returned (Except.ok (), st2) =>
            match n.evaluation_error with
            | some e =>
              match st2.transition node ModuleStatus.Evaluating ModuleStatus.Errored (some e) with
              | none => Outcome.failed_assertion
              | some st3 => Outcome.returned (Except.error e, st3)
            | none =>
              match st2.transition node ModuleStatus.Evaluating ModuleStatus.Evaluated none with
              | none => Outcome.failed_assertion
              | some st3 => Outcome.returned (Except.ok (), st3)

/-- Modelled from the spec: `VM::link_and_eval_module` for the first module of a
VM: the module is loaded and linked, then evaluated. -/
def link_and_eval_module (host : ModuleKey → Except Value ModuleSource) (fuel : Nat)
    (key : ModuleKey) (st : Linker) : Outcome (Except Value Unit × Linker) :=
  match load_imported_module host fuel key st with
  | Outcome.out_of_fuel => Outcome.out_of_fuel
  | Outcome.failed_assertion => Outcome.failed_assertion
  | Outcome.returned (Except.error e, st1) => Outcome.returned (Except.error e, st1)
  | Outcome.returned (Except.ok node, st1) => evaluate_module fuel node st1

/-- What every run of the linker guarantees between its start state and a later
state: new history entries are steps of the state machine, an `Errored` node stays
`Errored`, a cached key stays cached with the same node and keeps a set flag, and
the loader hook was only invoked for keys that were not cached. -/
def Linker.Evolves (st st1 : Linker) : Prop :=
  (∀ t ∈ st1.history, t ∈ st.history ∨ ModuleStatus.may_step t.2.1 t.2.2 = true) ∧
    (∀ node, st.status node = some ModuleStatus.Errored →
      st1.status node = some ModuleStatus.Errored) ∧
    (∀ key e, get_stored_module st.vm key = some e →
      ∃ e1, get_stored_module st1.vm key = some e1 ∧ e1.module = e.module ∧
        (e.has_once_started_linking = true → e1.has_once_started_linking = true)) ∧
    ∃ extra, st1.loader_calls = st.loader_calls ++ extra ∧
      ∀ k ∈ extra, get_stored_module st.vm k = none

/-- A linker state with nothing loaded. -/
def Linker.fresh : Linker :=
  { vm := VM.fresh 0, nodes := [], loader_calls := [], history := [] }

/-- The host of a two-module graph in which `a` imports `b` and `b` imports `a`. -/
def two_cycle_host (a b : ModuleKey) (key : ModuleKey) : Except Value ModuleSource :=
  if key = a then Except.ok ⟨[b], none⟩
  else if key = b then Except.ok ⟨[a], none⟩
  else Except.error Value.undefined

/-- The key of module `m.js` requested by the top-level script. -/
def ModuleKey.m : ModuleKey := ⟨0, "m.js", "javascript"⟩

/-- The key of module `n.js` requested by the top-level script. -/
def ModuleKey.n : ModuleKey := ⟨0, "n.js", "javascript"⟩

/-- The state machine is respected between a state and a later one: every new
history entry is one of its steps, none of them leaves `Errored`, `Errored` is only
entered from `Linking` or `Evaluating`, and a node that was `Errored` still is. -/
def Linker.respects_state_machine (st st1 : Linker) : Prop :=
  (∀ t ∈ st1.history, t ∈ st.history ∨ ModuleStatus.may_step t.2.1 t.2.2 = true) ∧
    (∀ t ∈ st1.history, t ∉ st.history →
      t.2.1 ≠ ModuleStatus.Errored ∧
        (t.2.2 = ModuleStatus.Errored →
          t.2.1 = ModuleStatus.Linking ∨ t.2.1 = ModuleStatus.Evaluating)) ∧
    ∀ node, st.status node = some ModuleStatus.Errored →
      st1.status node = some ModuleStatus.Errored

/-- A host for module `m.js` importing `n.js`, whose body throws when evaluated. -/
def throwing_host (key : ModuleKey) : Except Value ModuleSource :=
  if key = ModuleKey.m then Except.ok ⟨[ModuleKey.n], none⟩
  else if key = ModuleKey.n then Except.ok ⟨[], some (Value.other 7)⟩
  else Except.error Value.undefined

/-! ## Roots for the memory manager -/

/-- A garbage-collected cell, by kind and identity. -/
inductive Cell where
  | realm (id : Nat)
  | function_object (id : Nat)
  | environment (id : Nat)
  | object (id : Nat)
  | error_object (cls : ErrorClass) (realm : Realm) (message : String)
  | primitive_string (id : Nat)
  | symbol (id : Nat)
  | module (id : Nat)
  | referrer (id : Nat)
  | job_function (id : Nat)
  | finalization_registry (id : Nat)
  deriving DecidableEq, Repr

/-- The cell a value points to, when the value is a pointer to a cell. -/
def Value.cell : Value → Option Cell
  | Value.object id => some (Cell.object id)
  | Value.error_object cls realm message => some (Cell.error_object cls realm message)
  | Value.undefined => none
  | Value.other _ => none

/-- The record `GC::HeapRoot` stored with a root: the roots of the VM are recorded
as `VM`; other collectors of roots record other kinds. -/
inductive HeapRoot where
  | VM
  | other (kind : Nat)
  deriving DecidableEq, Repr

/-- The cells an execution context points to: its realm, its function if it has one,
its lexical and its variable environment if set, its `this` value and its arguments
where they are pointers to cells. -/
def ExecutionContext.cells (c : ExecutionContext) : List Cell :=
  Cell.realm c.realm :: (c.function.toList.map Cell.function_object
    ++ c.lexical_environment.toList.map Cell.environment
    ++ c.variable_environment.toList.map Cell.environment
    ++ (c.this_value.toList ++ c.arguments).filterMap Value.cell)

/-- Inserts cells into the root map, one `roots.set(cell, HeapRoot::VM)` each. -/
def insert_roots (cells : List Cell) (roots : HashMap Cell HeapRoot) : HashMap Cell HeapRoot :=
  cells.foldl (fun out cell => HashMap.set out cell HeapRoot.VM) roots

/-- Inserts the cells of every context of one execution context stack. -/
def gather_roots_from_execution_context_stack (stack : List ExecutionContext)
    (roots : HashMap Cell HeapRoot) : HashMap Cell HeapRoot :=
  stack.foldl (fun out c => insert_roots c.cells out) roots

/-- Modelled from the spec: the body of `gather_roots` is not among the sources.
It must "insert every cell directly reachable from: the execution context stack
(all saved stacks too), the intern caches, the well-known-symbol table, the
loaded-module cache, both job queues, and the error-message table" (the last holds
strings, not cells). The argument is the map of roots that the memory manager
passes in, by reference in the source; the result is the map afterwards. -/
def gather_roots (vm : VM) (caches : InternCaches) (roots : HashMap Cell HeapRoot) :
    HashMap Cell HeapRoot :=
  let out := gather_roots_from_execution_context_stack vm.m_execution_context_stack roots
  let out := vm.m_saved_execution_context_stacks.foldl
    (fun o stack => gather_roots_from_execution_context_stack stack o) out
  let out := insert_roots (caches.m_string_cache.map (fun e => Cell.primitive_string e.2)) out
  let out := insert_roots
    (caches.m_utf16_string_cache.map (fun e => Cell.primitive_string e.2)) out
  let out := insert_roots (Cell.primitive_string caches.m_empty_string
    :: caches.m_single_ascii_character_strings.map Cell.primitive_string) out
  let out := insert_roots (caches.m_well_known_symbols.map Cell.symbol) out
  let out := insert_roots
    (vm.m_loaded_modules.flatMap (fun e => [Cell.referrer e.referrer, Cell.module e.module]))
    out
  let out := insert_roots (vm.m_promise_jobs.map (fun j => Cell.job_function j.id)) out
  insert_roots (vm.m_finalization_registry_cleanup_jobs.map Cell.finalization_registry) out

/-- A cell that an execution context points to, said of the context and not of a
list: its realm, its function, one of its two environments, its `this` value or one
of its arguments. -/
def ExecutionContext.holds (c : ExecutionContext) (cell : Cell) : Prop :=
  cell = Cell.realm c.realm ∨
    (∃ f, c.function = some f ∧ cell = Cell.function_object f) ∨
    (∃ env, c.lexical_environment = some env ∧ cell = Cell.environment env) ∨
    (∃ env, c.variable_environment = some env ∧ cell = Cell.environment env) ∨
    (∃ v, c.this_value = some v ∧ v.cell = some cell) ∨
    (∃ v, v ∈ c.arguments ∧ v.cell = some cell)

/-- A cell directly reachable from the structures of the VM that the description of
`gather_roots` names: held by a context of the active stack or of a saved stack, by
one of the two intern caches, by the preallocated strings, by the well-known-symbol
table, by an entry of the loaded-module cache (its module or its referrer), by the
promise job queue or by the cleanup job queue. -/
def holds_cell (vm : VM) (caches : InternCaches) (cell : Cell) : Prop :=
  (∃ c, c ∈ vm.m_execution_context_stack ∧ c.holds cell) ∨
    (∃ stack c, stack ∈ vm.m_saved_execution_context_stacks ∧ c ∈ stack ∧ c.holds cell) ∨
    (∃ e, e ∈ caches.m_string_cache ∧ cell = Cell.primitive_string e.2) ∨
    (∃ e, e ∈ caches.m_utf16_string_cache ∧ cell = Cell.primitive_string e.2) ∨
    cell = Cell.primitive_string caches.m_empty_string ∨
    (∃ id, id ∈ caches.m_single_ascii_character_strings ∧ cell = Cell.primitive_string id) ∨
    (∃ sym, sym ∈ caches.m_well_known_symbols ∧ cell = Cell.symbol sym) ∨
    (∃ e, e ∈ vm.m_loaded_modules ∧
      (cell = Cell.referrer e.referrer ∨ cell = Cell.module e.module)) ∨
    (∃ j, j ∈ vm.m_promise_jobs ∧ cell = Cell.job_function j.id) ∨
    (∃ registry, registry ∈ vm.m_finalization_registry_cleanup_jobs ∧
      cell = Cell.finalization_registry registry)

/-- A context of realm 3 running function 30 with both environments, an object as
`this` and an object among the arguments. -/
def ExecutionContext.populated : ExecutionContext :=
  { realm := 3, function := some 30, is_strict_mode := false
    lexical_environment := some 31, variable_environment := some 32
    this_value := some (Value.object 33)
    arguments := [Value.other 5, Value.object 34] }

/-- A VM with something in each structure that holds cells. -/
def VM.populated : VM :=
  { m_execution_context_stack := [ExecutionContext.populated]
    m_saved_execution_context_stacks :=
      [[{ realm := 1, function := some 10, is_strict_mode := false }],
       [{ realm := 2, function := none, is_strict_mode := true }]]
    stack_size_free := 0
    m_promise_jobs := Job.J123
    m_finalization_registry_cleanup_jobs := [7]
    m_loaded_modules := [⟨0, "m.js", "javascript", 5, true⟩] }

/-- Caches holding one interned 8-bit string, one wide string and one symbol. -/
def InternCaches.populated : InternCaches :=
  { InternCaches.initial with
    m_string_cache := [("ab", 129)]
    m_utf16_string_cache := [([0x3b1, 0x3b2], 130)]
    m_well_known_symbols := [200]
    next_cell := 131 }

end JS

namespace Gfx

/-! ## `Gfx::Color` serialization (`Libraries/LibGfx/Color.cpp`) -/

/-- A `Color`: its 32-bit `ARGB32` value, alpha in the top byte, then red, green
and blue. -/
structure Color where
  m_value : Nat
  value_fits : m_value < 2 ^ 32
  deriving DecidableEq

/-- The accessor `Color::alpha`. -/
def Color.alpha (c : Color) : Nat := c.m_value / 2 ^ 24 % 256

/-- The accessor `Color::red`. -/
def Color.red (c : Color) : Nat := c.m_value / 2 ^ 16 % 256

/-- The accessor `Color::green`. -/
def Color.green (c : Color) : Nat := c.m_value / 2 ^ 8 % 256

/-- The accessor `Color::blue`. -/
def Color.blue (c : Color) : Nat := c.m_value % 256

/-- The argument of `Color::to_string`. -/
inductive HTMLCompatibleSerialization where
  | No
  | Yes
  deriving DecidableEq, Repr

/-- The lowercase hexadecimal digit of a nibble. -/
def hex_digit (n : Nat) : Char :=
  "0123456789abcdef".toList.getD n '0'

/-- The format `{:02x}` applied to a `u8`: two lowercase hexadecimal digits, high
nibble first. -/
def format_02x (n : Nat) : List Char :=
  [hex_digit (n / 16 % 16), hex_digit (n % 16)]

/-- The format `{}` applied to an unsigned integer: its decimal digits. -/
def format_decimal (n : Nat) : String :=
  toString n

/-- The method `Color::to_string_without_alpha`: `"#{:02x}{:02x}{:02x}"` of red,
green, blue. -/
def Color.to_string_without_alpha (c : Color) : String :=
  String.mk ('#' :: (format_02x c.red ++ format_02x c.green ++ format_02x c.blue))

/-- The method `Color::to_string`. `format_alpha a` is the text the formatter
gives for the double `a / 255.0`. -/
def Color.to_string (format_alpha : Nat → String) (c : Color)
    (html_compatible_serialization : HTMLCompatibleSerialization) : String :=
  if c.alpha = 255 ∧ html_compatible_serialization = HTMLCompatibleSerialization.Yes then
    String.mk ('#' :: (format_02x c.red ++ format_02x c.green ++ format_02x c.blue))
  else if c.alpha < 255 then
    "rgba(" ++ format_decimal c.red ++ ", " ++ format_decimal c.green ++ ", "
      ++ format_decimal c.blue ++ ", " ++ format_alpha c.alpha ++ ")"
  else
    "rgb(" ++ format_decimal c.red ++ ", " ++ format_decimal c.green ++ ", "
      ++ format_decimal c.blue ++ ")"

/-- Whether a character is one of `0123456789abcdef`. -/
def is_lowercase_hex_digit (ch : Char) : Bool :=
  "0123456789abcdef".toList.contains ch

/-- The value of a lowercase hexadecimal digit: its position in `0123456789abcdef`. -/
def lowercase_hex_value (ch : Char) : Nat :=
  "0123456789abcdef".toList.indexOf ch

/-- The opaque colour `#ff8000`. -/
def Color.orange : Color := ⟨0xffff8000, by decide⟩

/-- The colour `#ff8000` with alpha `0x80`. -/
def Color.translucent_orange : Color := ⟨0x80ff8000, by decide⟩

/-! ## `Color::from_string` -/

/-- A `StringView`: the list of its characters. -/
abbrev StringView := List Char

/-- The constructor `Color(r, g, b, a)` on four `u8`: `Color.h` is not among the
sources; the value is alpha, red, green, blue from the top byte down. -/
def Color.mk_rgba (r g b a : Nat) : Color :=
  ⟨a % 256 * 2 ^ 24 + r % 256 * 2 ^ 16 + g % 256 * 2 ^ 8 + b % 256, by omega⟩

/-- The factory `Color::from_rgb`: the low 24 bits with alpha `0xff`. -/
def Color.from_rgb (rgb : Nat) : Color :=
  ⟨0xff000000 + rgb % 2 ^ 24, by omega⟩

/-- The factory `Color::from_argb`: the 32-bit value as it is. -/
def Color.from_argb (argb : Nat) : Color :=
  ⟨argb % 2 ^ 32, Nat.mod_lt _ (by decide)⟩

/-- The helper `to_ascii_lowercase`, also `tolower` in the C locale. -/
def to_ascii_lowercase (ch : Char) : Char :=
  if 65 ≤ ch.toNat ∧ ch.toNat ≤ 90 then Char.ofNat (ch.toNat + 32) else ch

/-- The C library test `isxdigit`: `0-9`, `a-f` or `A-F`. -/
def isxdigit (ch : Char) : Bool :=
  (48 ≤ ch.toNat && ch.toNat ≤ 57) || (97 ≤ ch.toNat && ch.toNat ≤ 102)
    || (65 ≤ ch.toNat && ch.toNat ≤ 70)

/-- The subtraction `a - b` on `size_t`, which wraps around below zero. -/
def size_sub (a b : Nat) : Nat :=
  if b ≤ a then a - b else a + 2 ^ 64 - b

/-- The method `StringView::substring_view(start, length)`: asserts
`start + length <= length()`. -/
def substring_view (s : StringView) (start length : Nat) : Option StringView :=
  if start + length ≤ s.length then some ((s.drop start).take length) else none

/-- The method `StringView::starts_with(start, CaseSensitivity::CaseInsensitive)`. -/
def starts_with_ignoring_case (s start : StringView) : Bool :=
  decide (start.length ≤ s.length) &&
    decide ((s.take start.length).map to_ascii_lowercase = start.map to_ascii_lowercase)

/-- The method `StringView::ends_with(char)`. -/
def ends_with (s : StringView) (ch : Char) : Bool :=
  decide (s.getLast? = some ch)

/-- The method `StringView::equals_ignoring_ascii_case`. -/
def equals_ignoring_ascii_case (a b : StringView) : Bool :=
  decide (a.length = b.length) &&
    decide (a.map to_ascii_lowercase = b.map to_ascii_lowercase)

/-- The helpers of `AK` that the parsers of `rgb(...)` and `rgba(...)` call and that
are not among the sources, and the arithmetic on doubles that the language
supplies. A double is the rational number it stands for. The fields are
`split_view`, `to_number<double>`, `parse_first_number<double>` (the value it
finds), the conversion `to_u8` that `clamp_to<u8, double>` applies to a value
strictly between 0 and 255, `multiply`, the product of two doubles (which is rounded
to a double, so it need not be the exact product), and `unsigned_out_of_range`, what
the conversion of a double to `unsigned` leaves for a value whose truncation is not
an `unsigned` (the language leaves that case undefined). -/
structure AK where
  split_view : StringView → Char → List StringView
  to_number : StringView → Option ℚ
  parse_first_number : StringView → Option ℚ
  to_u8 : ℚ → Nat
  multiply : ℚ → ℚ → ℚ
  unsigned_out_of_range : ℚ → Nat

/-- The conversion of a double to `unsigned`, as in `unsigned a = alpha * 255`: the
value truncated toward zero when that is below `2^32` and not negative. -/
def AK.to_unsigned (ak : AK) (value : ℚ) : Nat :=
  if -1 < value ∧ value < 2 ^ 32 then value.floor.toNat
  else ak.unsigned_out_of_range value % 2 ^ 32

/-- The helper `AK::clamp_to<u8, double>`: 255 from 255 up, 0 from 0 down, and the
conversion to `u8` in between. -/
def AK.clamp_to_u8 (ak : AK) (value : ℚ) : Nat :=
  if value ≥ 255 then 255
  else if value ≤ 0 then 0
  else ak.to_u8 value % 256

/-- The function `parse_rgb_color`. The outer `none` is a failed `VERIFY` (of the
function, of `substring_view` or of an index into `parts`), the inner one the empty
`Optional<Color>`. -/
def parse_rgb_color (ak : AK) (string : StringView) : Option (Option Color) :=
  if !starts_with_ignoring_case string "rgb(".toList then none
  else if !ends_with string ')' then none
  else
    match substring_view string 4 (size_sub string.length 5) with
    | none => none
    | some substring =>
      let parts := ak.split_view substring ','
      if parts.length ≠ 3 then some none
      else
        match parts[0]?, parts[1]?, parts[2]? with
        | some p0, some p1, some p2 =>
          match (ak.to_number p0).map ak.clamp_to_u8, (ak.to_number p1).map ak.clamp_to_u8,
              (ak.to_number p2).map ak.clamp_to_u8 with
          | some r, some g, some b => some (some (Color.mk_rgba r g b 255))
          | _, _, _ => some none
        | _, _, _ => none

/-- The function `parse_rgba_color`, with the same reading of the result. -/
def parse_rgba_color (ak : AK) (string : StringView) : Option (Option Color) :=
  if !starts_with_ignoring_case string "rgba(".toList then none
  else if !ends_with string ')' then none
  else
    match substring_view string 5 (size_sub string.length 6) with
    | none => none
    | some substring =>
      let parts := ak.split_view substring ','
      if parts.length ≠ 4 then some none
      else
        match parts[0]?, parts[1]?, parts[2]?, parts[3]? with
        | some p0, some p1, some p2, some p3 =>
          let alpha : ℚ :=
            match ak.parse_first_number p3 with
            | some value => value
            | none => 0
          let a := ak.to_unsigned (ak.multiply alpha 255)
          match (ak.to_number p0).map ak.clamp_to_u8, (ak.to_number p1).map ak.clamp_to_u8,
              (ak.to_number p2).map ak.clamp_to_u8 with
          | some r, some g, some b =>
            if a > 255 then some none else some (some (Color.mk_rgba r g b a))
          | _, _, _ => some none
        | _, _, _, _ => none

/-- An entry of the table `web_colors`. -/
structure WebColor where
  color : Nat
  name : String
  deriving DecidableEq, Repr

/-- The entries of `web_colors` from CSS Level 1 and Level 2. -/
def web_colors_css1 : List WebColor :=
  [WebColor.mk 0x000000 "black", WebColor.mk 0xc0c0c0 "silver", WebColor.mk 0x808080 "gray",
   WebColor.mk 0xffffff "white", WebColor.mk 0x800000 "maroon", WebColor.mk 0xff0000 "red",
   WebColor.mk 0x800080 "purple", WebColor.mk 0xff00ff "fuchsia", WebColor.mk 0x008000 "green",
   WebColor.mk 0x00ff00 "lime", WebColor.mk 0x808000 "olive", WebColor.mk 0xffff00 "yellow",
   WebColor.mk 0x000080 "navy", WebColor.mk 0x0000ff "blue", WebColor.mk 0x008080 "teal",
   WebColor.mk 0x00ffff "aqua", WebColor.mk 0xffa500 "orange"]

/-- The entries of `web_colors` from CSS Color Module Level 3 and 4, part 1. -/
def web_colors_css3a : List WebColor :=
  [WebColor.mk 0xf0f8ff "aliceblue", WebColor.mk 0xfaebd7 "antiquewhite",
   WebColor.mk 0x7fffd4 "aquamarine", WebColor.mk 0xf0ffff "azure", WebColor.mk 0xf5f5dc "beige",
   WebColor.mk 0xffe4c4 "bisque", WebColor.mk 0xffebcd "blanchedalmond",
   WebColor.mk 0x8a2be2 "blueviolet", WebColor.mk 0xa52a2a "brown",
   WebColor.mk 0xdeb887 "burlywood", WebColor.mk 0x5f9ea0 "cadetblue",
   WebColor.mk 0x7fff00 "chartreuse", WebColor.mk 0xd2691e "chocolate",
   WebColor.mk 0xff7f50 "coral", WebColor.mk 0x6495ed "cornflowerblue",
   WebColor.mk 0xfff8dc "cornsilk", WebColor.mk 0xdc143c "crimson", WebColor.mk 0x00ffff "cyan",
   WebColor.mk 0x00008b "darkblue", WebColor.mk 0x008b8b "darkcyan",
   WebColor.mk 0xb8860b "darkgoldenrod", WebColor.mk 0xa9a9a9 "darkgray",
   WebColor.mk 0x006400 "darkgreen", WebColor.mk 0xa9a9a9 "darkgrey",
   WebColor.mk 0xbdb76b "darkkhaki", WebColor.mk 0x8b008b "darkmagenta",
   WebColor.mk 0x556b2f "darkolivegreen"]

/-- The entries of `web_colors` from CSS Color Module Level 3 and 4, part 2. -/
def web_colors_css3b : List WebColor :=
  [WebColor.mk 0xff8c00 "darkorange", WebColor.mk 0x9932cc "darkorchid",
   WebColor.mk 0x8b0000 "darkred", WebColor.mk 0xe9967a "darksalmon",
   WebColor.mk 0x8fbc8f "darkseagreen", WebColor.mk 0x483d8b "darkslateblue",
   WebColor.mk 0x2f4f4f "darkslategray", WebColor.mk 0x2f4f4f "darkslategrey",
   WebColor.mk 0x00ced1 "darkturquoise", WebColor.mk 0x9400d3 "darkviolet",
   WebColor.mk 0xff1493 "deeppink", WebColor.mk 0x00bfff "deepskyblue",
   WebColor.mk 0x696969 "dimgray", WebColor.mk 0x696969 "dimgrey",
   WebColor.mk 0x1e90ff "dodgerblue", WebColor.mk 0xb22222 "firebrick",
   WebColor.mk 0xfffaf0 "floralwhite", WebColor.mk 0x228b22 "forestgreen",
   WebColor.mk 0xdcdcdc "gainsboro", WebColor.mk 0xf8f8ff "ghostwhite",
   WebColor.mk 0xffd700 "gold", WebColor.mk 0xdaa520 "goldenrod",
   WebColor.mk 0xadff2f "greenyellow", WebColor.mk 0x808080 "grey",
   WebColor.mk 0xf0fff0 "honeydew", WebColor.mk 0xff69b4 "hotpink",
   WebColor.mk 0xcd5c5c "indianred"]

/-- The entries of `web_colors` from CSS Color Module Level 3 and 4, part 3. -/
def web_colors_css3c : List WebColor :=
  [WebColor.mk 0x4b0082 "indigo", WebColor.mk 0xfffff0 "ivory", WebColor.mk 0xf0e68c "khaki",
   WebColor.mk 0xe6e6fa "lavender", WebColor.mk 0xfff0f5 "lavenderblush",
   WebColor.mk 0x7cfc00 "lawngreen", WebColor.mk 0xfffacd "lemonchiffon",
   WebColor.mk 0xadd8e6 "lightblue", WebColor.mk 0xf08080 "lightcoral",
   WebColor.mk 0xe0ffff "lightcyan", WebColor.mk 0xfafad2 "lightgoldenrodyellow",
   WebColor.mk 0xd3d3d3 "lightgray", WebColor.mk 0x90ee90 "lightgreen",
   WebColor.mk 0xd3d3d3 "lightgrey", WebColor.mk 0xffb6c1 "lightpink",
   WebColor.mk 0xffa07a "lightsalmon", WebColor.mk 0x20b2aa "lightseagreen",
   WebColor.mk 0x87cefa "lightskyblue", WebColor.mk 0x778899 "lightslategray",
   WebColor.mk 0x778899 "lightslategrey", WebColor.mk 0xb0c4de "lightsteelblue",
   WebColor.mk 0xffffe0 "lightyellow", WebColor.mk 0x32cd32 "limegreen",
   WebColor.mk 0xfaf0e6 "linen", WebColor.mk 0xff00ff "magenta",
   WebColor.mk 0x66cdaa "mediumaquamarine", WebColor.mk 0x0000cd "mediumblue"]

/-- The entries of `web_colors` from CSS Color Module Level 3 and 4, part 4. -/
def web_colors_css3d : List WebColor :=
  [WebColor.mk 0xba55d3 "mediumorchid", WebColor.mk 0x9370db "mediumpurple",
   WebColor.mk 0x3cb371 "mediumseagreen", WebColor.mk 0x7b68ee "mediumslateblue",
   WebColor.mk 0x00fa9a "mediumspringgreen", WebColor.mk 0x48d1cc "mediumturquoise",
   WebColor.mk 0xc71585 "mediumvioletred", WebColor.mk 0x191970 "midnightblue",
   WebColor.mk 0xf5fffa "mintcream", WebColor.mk 0xffe4e1 "mistyrose",
   WebColor.mk 0xffe4b5 "moccasin", WebColor.mk 0xffdead "navajowhite",
   WebColor.mk 0xfdf5e6 "oldlace", WebColor.mk 0x6b8e23 "olivedrab",
   WebColor.mk 0xff4500 "orangered", WebColor.mk 0xda70d6 "orchid",
   WebColor.mk 0xeee8aa "palegoldenrod", WebColor.mk 0x98fb98 "palegreen",
   WebColor.mk 0xafeeee "paleturquoise", WebColor.mk 0xdb7093 "palevioletred",
   WebColor.mk 0xffefd5 "papayawhip", WebColor.mk 0xffdab9 "peachpuff",
   WebColor.mk 0xcd853f "peru", WebColor.mk 0xffc0cb "pink", WebColor.mk 0xdda0dd "plum",
   WebColor.mk 0xb0e0e6 "powderblue", WebColor.mk 0xbc8f8f "rosybrown"]

/-- The entries of `web_colors` from CSS Color Module Level 3 and 4, part 5. -/
def web_colors_css3e : List WebColor :=
  [WebColor.mk 0x4169e1 "royalblue", WebColor.mk 0x8b4513 "saddlebrown",
   WebColor.mk 0xfa8072 "salmon", WebColor.mk 0xf4a460 "sandybrown",
   WebColor.mk 0x2e8b57 "seagreen", WebColor.mk 0xfff5ee "seashell",
   WebColor.mk 0xa0522d "sienna", WebColor.mk 0x87ceeb "skyblue",
   WebColor.mk 0x6a5acd "slateblue", WebColor.mk 0x708090 "slategray",
   WebColor.mk 0x708090 "slategrey", WebColor.mk 0xfffafa "snow",
   WebColor.mk 0x00ff7f "springgreen", WebColor.mk 0x4682b4 "steelblue",
   WebColor.mk 0xd2b48c "tan", WebColor.mk 0xd8bfd8 "thistle", WebColor.mk 0xff6347 "tomato",
   WebColor.mk 0x40e0d0 "turquoise", WebColor.mk 0xee82ee "violet", WebColor.mk 0xf5deb3 "wheat",
   WebColor.mk 0xf5f5f5 "whitesmoke", WebColor.mk 0x9acd32 "yellowgreen",
   WebColor.mk 0x663399 "rebeccapurple"]

/-- The table `web_colors` of `Color::from_named_css_color_string`, in source order. -/
def web_colors : List WebColor :=
  web_colors_css1 ++ web_colors_css3a ++ web_colors_css3b ++ web_colors_css3c ++ web_colors_css3d ++ web_colors_css3e

/-- The function `Color::from_named_css_color_string`. -/
def Color.from_named_css_color_string (string : StringView) : Option Color :=
  if string.isEmpty then none
  else
    match web_colors.find? (fun web_color =>
        equals_ignoring_ascii_case string web_color.name.toList) with
    | some web_color => some (Color.from_rgb web_color.color)
    | none => none

/-- The lambda `hex_nibble_to_u8` of `hex_string_to_color`. -/
def hex_nibble_to_u8 (nibble : Char) : Option Nat :=
  if !isxdigit nibble then none
  else if 48 ≤ nibble.toNat ∧ nibble.toNat ≤ 57 then some (nibble.toNat - 48)
  else some (10 + ((to_ascii_lowercase nibble).toNat - 97))

/-- The lambda `to_hex` of `hex_string_to_color`: `nib1 << 4 | nib2` as a `u8`. -/
def to_hex (c1 c2 : Char) : Option Nat :=
  match hex_nibble_to_u8 c1, hex_nibble_to_u8 c2 with
  | some nib1, some nib2 => some ((nib1 <<< 4 ||| nib2) % 256)
  | _, _ => none

/-- The function `hex_string_to_color` (the build without `LIBGFX_USE_SWIFT`). The
outer `none` is a failed index assertion of `StringView::operator[]`. -/
def hex_string_to_color (string : StringView) : Option (Option Color) :=
  if string.length = 4 then
    match string[1]?, string[2]?, string[3]? with
    | some c1, some c2, some c3 =>
      match hex_nibble_to_u8 c1, hex_nibble_to_u8 c2, hex_nibble_to_u8 c3 with
      | some r, some g, some b => some (some (Color.mk_rgba (r * 17) (g * 17) (b * 17) 255))
      | _, _, _ => some none
    | _, _, _ => none
  else if string.length = 5 then
    match string[1]?, string[2]?, string[3]?, string[4]? with
    | some c1, some c2, some c3, some c4 =>
      match hex_nibble_to_u8 c1, hex_nibble_to_u8 c2, hex_nibble_to_u8 c3,
          hex_nibble_to_u8 c4 with
      | some r, some g, some b, some a =>
        some (some (Color.mk_rgba (r * 17) (g * 17) (b * 17) (a * 17)))
      | _, _, _, _ => some none
    | _, _, _, _ => none
  else if string.length ≠ 7 ∧ string.length ≠ 9 then some none
  else
    match string[1]?, string[2]?, string[3]?, string[4]?, string[5]?, string[6]? with
    | some c1, some c2, some c3, some c4, some c5, some c6 =>
      let a : Option (Option Nat) :=
        if string.length = 9 then
          match string[7]?, string[8]? with
          | some c7, some c8 => some (to_hex c7 c8)
          | _, _ => none
        else some (some 255)
      match a with
      | none => none
      | some a =>
        match to_hex c1 c2, to_hex c3 c4, to_hex c5 c6, a with
        | some r, some g, some b, some a => some (some (Color.mk_rgba r g b a))
        | _, _, _, _ => some none
    | _, _, _, _, _, _ => none

/-- The function `Color::from_string`. The outer `none` is a failed assertion, the
inner one the empty `Optional<Color>`. -/
def Color.from_string (ak : AK) (string : StringView) : Option (Option Color) :=
  if string.isEmpty then some none
  else
    match string[0]? with
    | none => none
    | some first =>
      if first = '#' then hex_string_to_color string
      else if starts_with_ignoring_case string "rgb(".toList && ends_with string ')' then
        parse_rgb_color ak string
      else if starts_with_ignoring_case string "rgba(".toList && ends_with string ')' then
        parse_rgba_color ak string
      else if equals_ignoring_ascii_case string "transparent".toList then
        some (some (Color.from_argb 0x00000000))
      else
        match Color.from_named_css_color_string string with
        | some color => some (some color)
        | none => some none

/-- A splitter for examples: the non-empty pieces between separators. -/
def split_nonempty (s : StringView) (separator : Char) : List StringView :=
  (s.splitOn separator).filter (fun part => !part.isEmpty)

/-- The value of a run of decimal digits, for examples. -/
def read_digits (digits : StringView) : Nat :=
  digits.foldl (fun value digit => 10 * value + (digit.toNat - 48)) 0

/-- A number reader for examples: an optional minus sign and decimal digits. -/
def read_integer (s : StringView) : Option ℚ :=
  match s with
  | '-' :: digits =>
    if digits.isEmpty || !digits.all Char.isDigit then none
    else some (-(read_digits digits : ℚ))
  | digits =>
    if digits.isEmpty || !digits.all Char.isDigit then none
    else some (read_digits digits : ℚ)

/-- The truncation of a rational toward zero. -/
def truncate (value : ℚ) : Int :=
  if value < 0 then -((-value).floor) else value.floor

/-- Helpers for examples: integer components, truncating conversions, products that
are exact (as the product of two doubles is when it is an integer below `2^53`),
and a conversion to `unsigned` that keeps the low 32 bits of the truncated value
where that is out of range, as the conversion instruction of x86-64 does. -/
def AK.example_helpers : AK :=
  { split_view := split_nonempty
    to_number := read_integer
    parse_first_number := read_integer
    to_u8 := fun value => value.floor.toNat
    multiply := fun x y => x * y
    unsigned_out_of_range := fun value => (truncate value % 2 ^ 32).toNat }

/-! ## ASCII-case variants -/

/-- Two characters that differ at most in ASCII case: they are equal or one is the
lowercase of the other. This follows the words "ASCII-case variant" of the
description of the named colours, not a function of the sources. -/
def ascii_case_variant_char (a b : Char) : Prop :=
  a = b ∨ to_ascii_lowercase a = b ∨ a = to_ascii_lowercase b

/-- Two strings of which each is an ASCII-case variant of the other: the same length
and, place by place, characters that differ at most in ASCII case. -/
def ascii_case_variant (s t : StringView) : Prop :=
  List.Forall₂ ascii_case_variant_char s t

/-! ## Results of the parsers in closed form -/

/-- The result of `hex_string_to_color` on `#` followed by `rest`, by the length. -/
def hex_result (rest : StringView) : Option Color :=
  match rest with
  | [c1, c2, c3] =>
    match hex_nibble_to_u8 c1, hex_nibble_to_u8 c2, hex_nibble_to_u8 c3 with
    | some r, some g, some b => some (Color.mk_rgba (r * 17) (g * 17) (b * 17) 255)
    | _, _, _ => none
  | [c1, c2, c3, c4] =>
    match hex_nibble_to_u8 c1, hex_nibble_to_u8 c2, hex_nibble_to_u8 c3,
        hex_nibble_to_u8 c4 with
    | some r, some g, some b, some a =>
      some (Color.mk_rgba (r * 17) (g * 17) (b * 17) (a * 17))
    | _, _, _, _ => none
  | [c1, c2, c3, c4, c5, c6] =>
    match to_hex c1 c2, to_hex c3 c4, to_hex c5 c6 with
    | some r, some g, some b => some (Color.mk_rgba r g b 255)
    | _, _, _ => none
  | [c1, c2, c3, c4, c5, c6, c7, c8] =>
    match to_hex c1 c2, to_hex c3 c4, to_hex c5 c6, to_hex c7 c8 with
    | some r, some g, some b, some a => some (Color.mk_rgba r g b a)
    | _, _, _, _ => none
  | _ => none

/-- The result of `parse_rgb_color` from the parts that `split_view` returns: a
colour when there are exactly three and each is a number. -/
def rgb_from_parts (ak : AK) (parts : List StringView) : Option Color :=
  match parts with
  | [p0, p1, p2] =>
    match ak.to_number p0, ak.to_number p1, ak.to_number p2 with
    | some r, some g, some b =>
      some (Color.mk_rgba (ak.clamp_to_u8 r) (ak.clamp_to_u8 g) (ak.clamp_to_u8 b) 255)
    | _, _, _ => none
  | _ => none

/-- The value `alpha` of `parse_rgba_color`: the number found in the fourth part,
or `0.0`. -/
def alpha_of_part (ak : AK) (part : StringView) : ℚ :=
  match ak.parse_first_number part with
  | some value => value
  | none => 0

/-- The result of `parse_rgba_color` from the parts that `split_view` returns. -/
def rgba_from_parts (ak : AK) (parts : List StringView) : Option Color :=
  match parts with
  | [p0, p1, p2, p3] =>
    match ak.to_number p0, ak.to_number p1, ak.to_number p2 with
    | some r, some g, some b =>
      if ak.to_unsigned (ak.multiply (alpha_of_part ak p3) 255) > 255 then none
      else some (Color.mk_rgba (ak.clamp_to_u8 r) (ak.clamp_to_u8 g) (ak.clamp_to_u8 b)
        (ak.to_unsigned (ak.multiply (alpha_of_part ak p3) 255)))
    | _, _, _ => none
  | _ => none

/-! ## `Color::from_lab` -/

/-- The helper `f_inv` of `Color::from_lab`, with the arithmetic on doubles taken as
exact arithmetic on rationals: `delta = 24. / 116`, `t * t * t` above it and
`(108. / 841) * (t - 116. / 16)` otherwise. -/
def f_inv (t : ℚ) : ℚ :=
  if t > 24 / 116 then t * t * t
  else (108 / 841) * (t - 116 / 16)

/-- The values `x`, `y`, `z` that `Color::from_lab` hands to `from_xyz50`: `f_inv` of
`y + a / 500`, of `y = (L + 16) / 116` and of `y - b / 200`, times the D50 white point
`x_n = 0.96422`, `y_n = 1`, `z_n = 0.82521`. -/
def from_lab_xyz (L a b : ℚ) : ℚ × ℚ × ℚ :=
  let y := (L + 16) / 116
  let x := y + a / 500
  let z := y - b / 200
  (0.96422 * f_inv x, 1 * f_inv y, 0.82521 * f_inv z)

/-- The CIE 1976 L*a*b* inverse transfer function as the colorimetry standard that
`from_lab` cites defines it: `t^3` above `24/116` and `(108/841) * (t - 16/116)`
otherwise. -/
def cie_f_inv (t : ℚ) : ℚ :=
  if t > 24 / 116 then t ^ 3
  else (108 / 841) * (t - 16 / 116)

end Gfx

namespace Crypto

/-! ## `RSAPrivateKey::export_as_der` (`Libraries/LibCrypto/PK/RSA.h`) -/

/-- An `UnsignedBigInteger`: a natural number; a default-constructed one is zero. -/
abbrev UnsignedBigInteger := Nat

/-- The test `UnsignedBigInteger::is_zero`. -/
def UnsignedBigInteger.is_zero (n : UnsignedBigInteger) : Bool := n == 0

/-- The members of `RSAPrivateKey`. -/
structure RSAPrivateKey where
  m_modulus : UnsignedBigInteger
  m_private_exponent : UnsignedBigInteger
  m_public_exponent : UnsignedBigInteger
  m_prime_1 : UnsignedBigInteger
  m_prime_2 : UnsignedBigInteger
  m_exponent_1 : UnsignedBigInteger
  m_exponent_2 : UnsignedBigInteger
  m_coefficient : UnsignedBigInteger
  m_length : Nat
  deriving DecidableEq, Repr

/-- The constructor `RSAPrivateKey() = default`: every member default-initialised. -/
def RSAPrivateKey.default_key : RSAPrivateKey :=
  ⟨0, 0, 0, 0, 0, 0, 0, 0, 0⟩

/-- The constructor `RSAPrivateKey(n, d, e)`: the other big integers stay
default-initialised; `byte_length` is `UnsignedBigInteger::byte_length`. -/
def RSAPrivateKey.of_n_d_e (byte_length : Nat → Nat) (n d e : UnsignedBigInteger) :
    RSAPrivateKey :=
  ⟨n, d, e, 0, 0, 0, 0, 0, byte_length n⟩

/-- The constructor `RSAPrivateKey(n, d, e, p, q, dp, dq, qinv)`. -/
def RSAPrivateKey.of_all (byte_length : Nat → Nat)
    (n d e p q dp dq qinv : UnsignedBigInteger) : RSAPrivateKey :=
  ⟨n, d, e, p, q, dp, dq, qinv, byte_length n⟩

/-- What is handed to the `ASN1::Encoder`: an integer written with `write`, or a
constructed universal SEQUENCE holding what its callback writes, in order. -/
inductive ASN1 where
  | integer (value : Nat)
  | sequence (items : List ASN1)

/-- The method `RSAPrivateKey::export_as_der`. `encode` stands for the
`ASN1::Encoder` (not among the sources): what `finish()` returns, or the error of
the first failing write, for the items written. -/
def RSAPrivateKey.export_as_der (encode : ASN1 → Except String (List Nat))
    (key : RSAPrivateKey) : Except String (List Nat) :=
  if key.m_prime_1.is_zero || key.m_prime_2.is_zero then
    Except.error "Cannot export private key without prime factors"
  else
    encode (ASN1.sequence
      [ASN1.integer 0,
       ASN1.integer key.m_modulus,
       ASN1.integer key.m_public_exponent,
       ASN1.integer key.m_private_exponent,
       ASN1.integer key.m_prime_1,
       ASN1.integer key.m_prime_2,
       ASN1.integer key.m_exponent_1,
       ASN1.integer key.m_exponent_2,
       ASN1.integer key.m_coefficient])

/-- An encoder that always fails. -/
def failing_encoder (_item : ASN1) : Except String (List Nat) :=
  Except.error "out of memory"

/-- An encoder that answers with the number of items of the sequence it is given. -/
def counting_encoder : ASN1 → Except String (List Nat)
  | ASN1.integer _ => Except.ok [1]
  | ASN1.sequence items => Except.ok [items.length]

end Crypto

namespace JS

/-! ## Helper lemmas -/

theorem Vector.nil_or_snoc {α : Type} (v : List α) :
    v = [] ∨ ∃ (s : List α) (x : α), v = s ++ [x] := by
  rcases List.eq_nil_or_concat v with h | ⟨s, x, h⟩
  · exact Or.inl h
  · exact Or.inr ⟨s, x, by simpa using h⟩

theorem Vector.take_last_nil {α : Type} : Vector.take_last ([] : List α) = none := rfl

theorem Vector.take_last_concat {α : Type} (s : List α) (x : α) :
    Vector.take_last (s ++ [x]) = some (x, s) := by
  simp [Vector.take_last]

theorem Vector.take_last_eq_none {α : Type} (v : List α) :
    Vector.take_last v = none ↔ v = [] := by
  rcases Vector.nil_or_snoc v with h | ⟨s, x, h⟩
  · subst h; simp [Vector.take_last]
  · subst h; simp [Vector.take_last]

theorem running_execution_context_concat (vm : VM) (s : List ExecutionContext)
    (c : ExecutionContext) (h : vm.m_execution_context_stack = s ++ [c]) :
    running_execution_context vm = some c := by
  simp [running_execution_context, h]

theorem pop_execution_context_concat (vm : VM) (s : List ExecutionContext)
    (c : ExecutionContext) (h : vm.m_execution_context_stack = s ++ [c]) :
    pop_execution_context vm = some { vm with m_execution_context_stack := s } := by
  simp [pop_execution_context, h, Vector.take_last_concat]

theorem pop_execution_context_eq_none (vm : VM) :
    pop_execution_context vm = none ↔ vm.m_execution_context_stack = [] := by
  unfold pop_execution_context
  rcases Vector.nil_or_snoc vm.m_execution_context_stack with h | ⟨s, x, h⟩
  · rw [h]; simp [Vector.take_last]
  · rw [h, Vector.take_last_concat]; simp

theorem pop_push_execution_context (vm : VM) (c : ExecutionContext) :
    pop_execution_context (push_execution_context vm c) = some vm := by
  rw [pop_execution_context_concat (push_execution_context vm c) vm.m_execution_context_stack c rfl]
  rfl

/-- Balance of a run: pops plus final depth equals pushes plus initial depth. -/
theorem run_stack_ops_length (ops : List StackOp) :
    ∀ (vm vm1 : VM), run_stack_ops ops vm = some vm1 →
      vm1.m_execution_context_stack.length + count_pops ops
        = vm.m_execution_context_stack.length + count_pushes ops := by
  induction ops with
  | nil =>
    intro vm vm1 h
    simp only [run_stack_ops, Option.some.injEq] at h
    subst h
    simp [count_pops, count_pushes]
  | cons op ops ih =>
    intro vm vm1 h
    cases op with
    | push c =>
      simp only [run_stack_ops, StackOp.apply] at h
      have := ih _ _ h
      simp only [push_execution_context, Vector.append, List.length_append,
        List.length_singleton] at this
      simp only [count_pops, count_pushes]
      omega
    | pop =>
      rcases Vector.nil_or_snoc vm.m_execution_context_stack with hs | ⟨s, x, hs⟩
      · have hn := (pop_execution_context_eq_none vm).2 hs
        simp [run_stack_ops, StackOp.apply, hn] at h
      · have hp := pop_execution_context_concat vm s x hs
        simp only [run_stack_ops, StackOp.apply, hp] at h
        have := ih _ _ h
        simp only [count_pops, count_pushes, hs, List.length_append, List.length_singleton]
        simp only at this
        omega

/-- A run only changes the active stack. -/
theorem run_stack_ops_frame (ops : List StackOp) :
    ∀ (vm vm1 : VM), run_stack_ops ops vm = some vm1 →
      vm1 = { vm with m_execution_context_stack := vm1.m_execution_context_stack } := by
  induction ops with
  | nil =>
    intro vm vm1 h
    simp only [run_stack_ops, Option.some.injEq] at h
    subst h
    rfl
  | cons op ops ih =>
    intro vm vm1 h
    cases op with
    | push c =>
      simp only [run_stack_ops, StackOp.apply] at h
      have := ih _ _ h
      rw [this]
      rfl
    | pop =>
      rcases Vector.nil_or_snoc vm.m_execution_context_stack with hs | ⟨s, x, hs⟩
      · have hn := (pop_execution_context_eq_none vm).2 hs
        simp [run_stack_ops, StackOp.apply, hn] at h
      · have hp := pop_execution_context_concat vm s x hs
        simp only [run_stack_ops, StackOp.apply, hp] at h
        have := ih _ _ h
        rw [this]

/-- A run that succeeds on a stack also succeeds above any further contexts
below it, and leaves those untouched. -/
theorem run_stack_ops_above (ops : List StackOp) :
    ∀ (vm vm1 : VM) (below : List ExecutionContext), run_stack_ops ops vm = some vm1 →
      run_stack_ops ops
          { vm with m_execution_context_stack := below ++ vm.m_execution_context_stack }
        = some { vm1 with m_execution_context_stack := below ++ vm1.m_execution_context_stack } := by
  induction ops with
  | nil =>
    intro vm vm1 below h
    simp only [run_stack_ops, Option.some.injEq] at h
    subst h
    rfl
  | cons op ops ih =>
    intro vm vm1 below h
    cases op with
    | push c =>
      simp only [run_stack_ops, StackOp.apply] at h
      have := ih _ _ below h
      simp only [run_stack_ops, StackOp.apply]
      simpa [push_execution_context, Vector.append] using this
    | pop =>
      rcases Vector.nil_or_snoc vm.m_execution_context_stack with hs | ⟨s, x, hs⟩
      · have hn := (pop_execution_context_eq_none vm).2 hs
        simp [run_stack_ops, StackOp.apply, hn] at h
      · have hp := pop_execution_context_concat vm s x hs
        simp only [run_stack_ops, StackOp.apply, hp] at h
        have := ih _ _ below h
        have hp2 := pop_execution_context_concat
          { vm with m_execution_context_stack := below ++ vm.m_execution_context_stack }
          (below ++ s) x (by simp [hs])
        simp only [run_stack_ops, StackOp.apply, hp2]
        simpa using this

theorem foldl_push_execution_context (t : List ExecutionContext) :
    ∀ (vm : VM), t.foldl push_execution_context vm
      = { vm with m_execution_context_stack := vm.m_execution_context_stack ++ t } := by
  induction t with
  | nil => intro vm; simp
  | cons c t ih =>
    intro vm
    rw [List.foldl_cons, ih]
    simp [push_execution_context, Vector.append]

theorem restore_execution_context_stack_concat (vm : VM)
    (base : List (List ExecutionContext)) (s : List ExecutionContext)
    (h : vm.m_saved_execution_context_stacks = base ++ [s]) :
    restore_execution_context_stack vm
      = some { vm with
          m_execution_context_stack := s
          m_saved_execution_context_stacks := base } := by
  simp [restore_execution_context_stack, h, Vector.take_last_concat]

/-- On an empty active stack, nested saves append the saved contents in order. -/
theorem save_nested_saved (ts : List (List ExecutionContext)) :
    ∀ (vm : VM), vm.m_execution_context_stack = [] →
      save_nested ts vm
        = { vm with m_saved_execution_context_stacks :=
              vm.m_saved_execution_context_stacks ++ ts } := by
  induction ts with
  | nil => intro vm _; simp [save_nested]
  | cons t ts ih =>
    intro vm hvm
    rw [save_nested, ih _ rfl, foldl_push_execution_context]
    obtain ⟨stack, saved, free, jobs, cleanup, modules⟩ := vm
    simp only at hvm
    subst hvm
    simp [save_execution_context_stack, Vector.append]

/-- Restoring as many times as there are saved stacks on top of `base` yields
them last-saved first. -/
theorem restore_all_reverse (us : List (List ExecutionContext)) :
    ∀ (vm : VM) (base : List (List ExecutionContext)),
      vm.m_saved_execution_context_stacks = base ++ us.reverse →
      restore_all us.length vm
        = some (us, { vm with
            m_execution_context_stack := us.getLast?.getD vm.m_execution_context_stack
            m_saved_execution_context_stacks := base }) := by
  induction us with
  | nil =>
    intro vm base h
    obtain ⟨stack, saved, free, jobs, cleanup, modules⟩ := vm
    simp only [List.reverse_nil, List.append_nil] at h
    subst h
    simp [restore_all]
  | cons u us ih =>
    intro vm base h
    have hsaved : vm.m_saved_execution_context_stacks = (base ++ us.reverse) ++ [u] := by
      rw [h]; simp
    have hrestore := restore_execution_context_stack_concat vm _ u hsaved
    have hrest := ih { vm with
        m_execution_context_stack := u
        m_saved_execution_context_stacks := base ++ us.reverse } base rfl
    simp only [List.length_cons, restore_all, hrestore, hrest]
    cases us with
    | nil => simp
    | cons u2 us2 =>
      have hlast : (u2 :: us2).getLast? = some ((u2 :: us2).getLast (by simp)) :=
        List.getLast?_eq_getLast _ _
      simp only [List.getLast?_cons_cons, hlast, Option.getD_some]

theorem Job.sizeList_append (xs ys : List Job) :
    Job.sizeList (xs ++ ys) = Job.sizeList xs + Job.sizeList ys := by
  induction xs with
  | nil => simp [Job.sizeList]
  | cons x xs ih => simp [Job.sizeList, ih, Nat.add_assoc]

theorem Job.size_eq (j : Job) : Job.size j = Job.sizeList j.enqueues + 1 := by
  cases j with
  | mk id result enqueues => simp [Job.size, Job.enqueues]

theorem foldl_enqueue_promise_job (js : List Job) :
    ∀ (vm : VM), js.foldl (fun v j => enqueue_promise_job v j none) vm
      = { vm with m_promise_jobs := vm.m_promise_jobs ++ js } := by
  induction js with
  | nil => intro vm; simp
  | cons j js ih =>
    intro vm
    rw [List.foldl_cons, ih]
    simp [enqueue_promise_job, Vector.append]

/-- With fuel for every job in the queue and in the trees below it, the drain
loop returns, only the queue has changed and is empty, and the executed jobs are
the queued jobs followed by what the executed jobs enqueued, in that order. -/
theorem run_queued_promise_jobs_impl_spec (fuel : Nat) :
    ∀ (vm : VM), Job.sizeList vm.m_promise_jobs ≤ fuel →
      ∃ r, run_queued_promise_jobs_impl fuel vm = some r ∧
        r.vm = { vm with m_promise_jobs := [] } ∧
        r.executed = vm.m_promise_jobs ++ r.executed.flatMap Job.enqueues := by
  induction fuel with
  | zero =>
    intro vm h
    obtain ⟨stack, saved, free, jobs, cleanup, modules⟩ := vm
    cases jobs with
    | nil => exact ⟨_, rfl, rfl, rfl⟩
    | cons j rest =>
      simp only [Job.sizeList, Job.size_eq] at h
      omega
  | succ fuel ih =>
    intro vm h
    obtain ⟨stack, saved, free, jobs, cleanup, modules⟩ := vm
    cases jobs with
    | nil => exact ⟨_, rfl, rfl, rfl⟩
    | cons j rest =>
      simp only [Job.sizeList, Job.size_eq] at h
      have hsize : Job.sizeList (rest ++ j.enqueues) ≤ fuel := by
        rw [Job.sizeList_append]; omega
      obtain ⟨r, hr, hvm, hexec⟩ := ih
        { m_execution_context_stack := stack
          m_saved_execution_context_stacks := saved
          stack_size_free := free
          m_promise_jobs := rest ++ j.enqueues
          m_finalization_registry_cleanup_jobs := cleanup
          m_loaded_modules := modules } hsize
      refine ⟨⟨j :: r.executed,
        (if j.result.type = CompletionType.Throw then [j.result.value] else []) ++ r.reported,
        r.vm⟩, ?_, ?_, ?_⟩
      · simp only [run_queued_promise_jobs_impl, Vector.take_first, Job.run,
          foldl_enqueue_promise_job, hr]
      · simpa using hvm
      · simp only [List.flatMap_cons, List.cons_append, List.cons.injEq, true_and]
        simp only at hexec
        rw [← List.append_assoc]
        exact hexec

theorem run_queued_promise_jobs_eq_impl (fuel : Nat) (vm : VM) :
    run_queued_promise_jobs fuel vm = run_queued_promise_jobs_impl fuel vm := by
  unfold run_queued_promise_jobs run_queued_promise_jobs_with
  split
  · rename_i hq
    have hnil : vm.m_promise_jobs = [] := by simpa using hq
    cases fuel with
    | zero => simp [run_queued_promise_jobs_impl, hq]
    | succ n => simp [run_queued_promise_jobs_impl, hnil, Vector.take_first]
  · rfl

/-- Whatever the fuel, a drain that returns has emptied the queue and changed
nothing else, has executed the queued jobs followed by what the executed jobs
enqueued, and has reported exactly the values thrown by the executed jobs. -/
theorem run_queued_promise_jobs_impl_sound (fuel : Nat) :
    ∀ (vm : VM) (r : DrainResult), run_queued_promise_jobs_impl fuel vm = some r →
      r.vm = { vm with m_promise_jobs := [] } ∧
        r.executed = vm.m_promise_jobs ++ r.executed.flatMap Job.enqueues ∧
        r.reported = r.executed.filterMap Job.thrown := by
  induction fuel with
  | zero =>
    intro vm r h
    obtain ⟨stack, saved, free, jobs, cleanup, modules⟩ := vm
    cases jobs with
    | nil =>
      simp only [run_queued_promise_jobs_impl, List.isEmpty_nil, if_true,
        Option.some.injEq] at h
      subst h
      exact ⟨rfl, rfl, rfl⟩
    | cons j rest => simp [run_queued_promise_jobs_impl] at h
  | succ fuel ih =>
    intro vm r h
    obtain ⟨stack, saved, free, jobs, cleanup, modules⟩ := vm
    cases jobs with
    | nil =>
      simp only [run_queued_promise_jobs_impl, Vector.take_first, Option.some.injEq] at h
      subst h
      exact ⟨rfl, rfl, rfl⟩
    | cons j rest =>
      simp only [run_queued_promise_jobs_impl, Vector.take_first, Job.run,
        foldl_enqueue_promise_job] at h
      cases hrec : run_queued_promise_jobs_impl fuel
          { m_execution_context_stack := stack
            m_saved_execution_context_stacks := saved
            stack_size_free := free
            m_promise_jobs := rest ++ j.enqueues
            m_finalization_registry_cleanup_jobs := cleanup
            m_loaded_modules := modules } with
      | none => simp [hrec] at h
      | some r1 =>
        simp only [hrec, Option.some.injEq] at h
        obtain ⟨hvm, hexec, hrep⟩ := ih _ r1 hrec
        subst h
        refine ⟨by simpa using hvm, ?_, ?_⟩
        · simp only [List.flatMap_cons, List.cons_append, List.cons.injEq, true_and]
          simp only at hexec
          rw [← List.append_assoc]
          exact hexec
        · by_cases ht : j.result.type = CompletionType.Throw
          · simp [List.filterMap_cons, Job.thrown, ht, hrep]
          · simp [List.filterMap_cons, Job.thrown, ht, hrep]

theorem foldl_enqueue_finalization_registry_cleanup_job (rs : List Nat) :
    ∀ (vm : VM), rs.foldl enqueue_finalization_registry_cleanup_job vm
      = { vm with m_finalization_registry_cleanup_jobs :=
            vm.m_finalization_registry_cleanup_jobs ++ rs } := by
  induction rs with
  | nil => intro vm; simp
  | cons r rs ih =>
    intro vm
    rw [List.foldl_cons, ih]
    simp [enqueue_finalization_registry_cleanup_job, Vector.append]

/-- A cleanup drain that returns has emptied the cleanup queue, has appended to the
promise job queue what the cleanups scheduled, in order, has changed nothing else,
and ran the queued registries followed by those enqueued during the drain. -/
theorem run_queued_finalization_registry_cleanup_jobs_sound (cleanup : Nat → List Nat)
    (schedules : Nat → List Job) (fuel : Nat) :
    ∀ (vm : VM) (r : CleanupDrainResult),
      run_queued_finalization_registry_cleanup_jobs cleanup schedules fuel vm = some r →
        r.vm = { vm with
            m_finalization_registry_cleanup_jobs := []
            m_promise_jobs := vm.m_promise_jobs ++ r.executed.flatMap schedules } ∧
          r.executed = vm.m_finalization_registry_cleanup_jobs ++ r.executed.flatMap cleanup := by
  induction fuel with
  | zero =>
    intro vm r h
    obtain ⟨stack, saved, free, jobs, queue, modules⟩ := vm
    cases queue with
    | nil =>
      simp only [run_queued_finalization_registry_cleanup_jobs, List.isEmpty_nil, if_true,
        Option.some.injEq] at h
      subst h
      exact ⟨by simp, rfl⟩
    | cons x rest => simp [run_queued_finalization_registry_cleanup_jobs] at h
  | succ fuel ih =>
    intro vm r h
    obtain ⟨stack, saved, free, jobs, queue, modules⟩ := vm
    cases queue with
    | nil =>
      simp only [run_queued_finalization_registry_cleanup_jobs, Vector.take_first,
        Option.some.injEq] at h
      subst h
      exact ⟨by simp, rfl⟩
    | cons x rest =>
      simp only [run_queued_finalization_registry_cleanup_jobs, Vector.take_first,
        foldl_enqueue_finalization_registry_cleanup_job, foldl_enqueue_promise_job] at h
      cases hrec : run_queued_finalization_registry_cleanup_jobs cleanup schedules fuel
          { m_execution_context_stack := stack
            m_saved_execution_context_stacks := saved
            stack_size_free := free
            m_promise_jobs := jobs ++ schedules x
            m_finalization_registry_cleanup_jobs := rest ++ cleanup x
            m_loaded_modules := modules } with
      | none => simp [hrec] at h
      | some r1 =>
        simp only [hrec, Option.some.injEq] at h
        obtain ⟨hvm, hexec⟩ := ih _ r1 hrec
        subst h
        refine ⟨?_, ?_⟩
        · simp only [List.flatMap_cons]
          rw [hvm]
          simp [List.append_assoc]
        · simp only [List.flatMap_cons, List.cons_append, List.cons.injEq, true_and]
          simp only at hexec
          rw [← List.append_assoc]
          exact hexec

/-- With a measure that every cleanup strictly decreases, fuel for the measure of
the queue makes the cleanup drain return. -/
theorem run_queued_finalization_registry_cleanup_jobs_total (cleanup : Nat → List Nat)
    (schedules : Nat → List Job) (measure : Nat → Nat)
    (hdec : ∀ registry, ((cleanup registry).map measure).sum < measure registry)
    (fuel : Nat) :
    ∀ (vm : VM), (vm.m_finalization_registry_cleanup_jobs.map measure).sum ≤ fuel →
      ∃ r, run_queued_finalization_registry_cleanup_jobs cleanup schedules fuel vm
        = some r := by
  induction fuel with
  | zero =>
    intro vm h
    obtain ⟨stack, saved, free, jobs, queue, modules⟩ := vm
    cases queue with
    | nil => exact ⟨_, rfl⟩
    | cons x rest =>
      have := hdec x
      simp only [List.map_cons, List.sum_cons] at h
      omega
  | succ fuel ih =>
    intro vm h
    obtain ⟨stack, saved, free, jobs, queue, modules⟩ := vm
    cases queue with
    | nil => exact ⟨_, rfl⟩
    | cons x rest =>
      have hx := hdec x
      simp only [List.map_cons, List.sum_cons] at h
      obtain ⟨r, hr⟩ := ih
        { m_execution_context_stack := stack
          m_saved_execution_context_stacks := saved
          stack_size_free := free
          m_promise_jobs := jobs ++ schedules x
          m_finalization_registry_cleanup_jobs := rest ++ cleanup x
          m_loaded_modules := modules }
        (by simp only [List.map_append, List.sum_append]; omega)
      refine ⟨⟨x :: r.executed, r.vm⟩, ?_⟩
      simp only [run_queued_finalization_registry_cleanup_jobs, Vector.take_first,
        foldl_enqueue_finalization_registry_cleanup_job, foldl_enqueue_promise_job, hr]

/-- A drain of promise jobs whose callbacks also cause cleanup entries to be
enqueued, when it returns: the promise job queue is empty, the cleanup queue is the
old one followed by what the executed jobs registered, in order, nothing else has
changed, and the jobs ran in enqueue order. -/
theorem run_queued_promise_jobs_impl_registering_sound (registers : Job → List Nat)
    (fuel : Nat) :
    ∀ (vm : VM) (r : DrainResult),
      run_queued_promise_jobs_impl_registering registers fuel vm = some r →
        r.vm = { vm with
            m_promise_jobs := []
            m_finalization_registry_cleanup_jobs :=
              vm.m_finalization_registry_cleanup_jobs ++ r.executed.flatMap registers } ∧
          r.executed = vm.m_promise_jobs ++ r.executed.flatMap Job.enqueues := by
  induction fuel with
  | zero =>
    intro vm r h
    obtain ⟨stack, saved, free, jobs, cleanup, modules⟩ := vm
    cases jobs with
    | nil =>
      simp only [run_queued_promise_jobs_impl_registering, List.isEmpty_nil, if_true,
        Option.some.injEq] at h
      subst h
      exact ⟨by simp, rfl⟩
    | cons j rest => simp [run_queued_promise_jobs_impl_registering] at h
  | succ fuel ih =>
    intro vm r h
    obtain ⟨stack, saved, free, jobs, cleanup, modules⟩ := vm
    cases jobs with
    | nil =>
      simp only [run_queued_promise_jobs_impl_registering, Vector.take_first,
        Option.some.injEq] at h
      subst h
      exact ⟨by simp, rfl⟩
    | cons j rest =>
      simp only [run_queued_promise_jobs_impl_registering, Vector.take_first,
        Job.run_registering, Job.run, foldl_enqueue_promise_job,
        foldl_enqueue_finalization_registry_cleanup_job] at h
      cases hrec : run_queued_promise_jobs_impl_registering registers fuel
          { m_execution_context_stack := stack
            m_saved_execution_context_stacks := saved
            stack_size_free := free
            m_promise_jobs := rest ++ j.enqueues
            m_finalization_registry_cleanup_jobs := cleanup ++ registers j
            m_loaded_modules := modules } with
      | none => simp [hrec] at h
      | some r1 =>
        simp only [hrec, Option.some.injEq] at h
        obtain ⟨hvm, hexec⟩ := ih _ r1 hrec
        subst h
        refine ⟨?_, ?_⟩
        · simp only [List.flatMap_cons]
          rw [hvm]
          simp [List.append_assoc]
        · simp only [List.flatMap_cons, List.cons_append, List.cons.injEq, true_and]
          simp only at hexec
          rw [← List.append_assoc]
          exact hexec

/-- With fuel for every job in the queue and in the trees below it, that drain
returns. -/
theorem run_queued_promise_jobs_impl_registering_total (registers : Job → List Nat)
    (fuel : Nat) :
    ∀ (vm : VM), Job.sizeList vm.m_promise_jobs ≤ fuel →
      ∃ r, run_queued_promise_jobs_impl_registering registers fuel vm = some r := by
  induction fuel with
  | zero =>
    intro vm h
    obtain ⟨stack, saved, free, jobs, cleanup, modules⟩ := vm
    cases jobs with
    | nil => exact ⟨_, rfl⟩
    | cons j rest =>
      simp only [Job.sizeList, Job.size_eq] at h
      omega
  | succ fuel ih =>
    intro vm h
    obtain ⟨stack, saved, free, jobs, cleanup, modules⟩ := vm
    cases jobs with
    | nil => exact ⟨_, rfl⟩
    | cons j rest =>
      simp only [Job.sizeList, Job.size_eq] at h
      have hsize : Job.sizeList (rest ++ j.enqueues) ≤ fuel := by
        rw [Job.sizeList_append]; omega
      obtain ⟨r, hr⟩ := ih
        { m_execution_context_stack := stack
          m_saved_execution_context_stacks := saved
          stack_size_free := free
          m_promise_jobs := rest ++ j.enqueues
          m_finalization_registry_cleanup_jobs := cleanup ++ registers j
          m_loaded_modules := modules } hsize
      refine ⟨⟨j :: r.executed,
        (if j.result.type = CompletionType.Throw then [j.result.value] else []) ++ r.reported,
        r.vm⟩, ?_⟩
      simp only [run_queued_promise_jobs_impl_registering, Vector.take_first,
        Job.run_registering, Job.run, foldl_enqueue_promise_job,
        foldl_enqueue_finalization_registry_cleanup_job, hr]

/-- With callbacks that register nothing, the drain is `run_queued_promise_jobs_impl`. -/
theorem run_queued_promise_jobs_impl_registering_nothing (fuel : Nat) :
    ∀ (vm : VM), run_queued_promise_jobs_impl_registering (fun _ => []) fuel vm
      = run_queued_promise_jobs_impl fuel vm := by
  induction fuel with
  | zero => intro vm; rfl
  | succ fuel ih =>
    intro vm
    obtain ⟨stack, saved, free, jobs, cleanup, modules⟩ := vm
    cases jobs with
    | nil => rfl
    | cons j rest =>
      simp only [run_queued_promise_jobs_impl_registering, run_queued_promise_jobs_impl,
        Vector.take_first, Job.run_registering, List.foldl_nil, ih]

theorem run_queued_promise_jobs_registering_eq_impl (registers : Job → List Nat)
    (fuel : Nat) (vm : VM) :
    run_queued_promise_jobs_registering registers fuel vm
      = run_queued_promise_jobs_impl_registering registers fuel vm := by
  unfold run_queued_promise_jobs_registering run_queued_promise_jobs_with
  split
  · rename_i hq
    have hnil : vm.m_promise_jobs = [] := by simpa using hq
    cases fuel with
    | zero => simp [run_queued_promise_jobs_impl_registering, hq]
    | succ n => simp [run_queued_promise_jobs_impl_registering, hnil, Vector.take_first]
  · rfl

theorem HashMap.find_filter_ne {κ ν : Type} [DecidableEq κ] (m : HashMap κ ν) (k k2 : κ)
    (hne : k2 ≠ k) :
    (m.filter (fun e => !decide (e.1 = k))).find? (fun e => decide (e.1 = k2))
      = m.find? (fun e => decide (e.1 = k2)) := by
  induction m with
  | nil => rfl
  | cons e m ih =>
    have hkk : ¬ k = k2 := fun h => hne h.symm
    by_cases hk : e.1 = k
    · have hk2 : ¬ e.1 = k2 := fun h => hne (h.symm.trans hk)
      simp [List.filter_cons, List.find?_cons, hk, hkk, ih]
    · by_cases hk2 : e.1 = k2
      · simp [List.filter_cons, List.find?_cons, hk2, hne]
      · simp [List.filter_cons, List.find?_cons, hk, hk2, ih]

theorem HashMap.get_set_self {κ ν : Type} [DecidableEq κ] (m : HashMap κ ν) (k : κ) (v : ν) :
    HashMap.get (HashMap.set m k v) k = some v := by
  have hnone : (m.filter (fun e => !decide (e.1 = k))).find? (fun e => decide (e.1 = k))
      = none := by
    rw [List.find?_eq_none]
    intro e he
    have := (List.mem_filter.1 he).2
    simpa using this
  simp [HashMap.get, HashMap.set, List.find?_append, hnone]

theorem HashMap.get_set_other {κ ν : Type} [DecidableEq κ] (m : HashMap κ ν) (k k2 : κ)
    (v : ν) (hne : k2 ≠ k) :
    HashMap.get (HashMap.set m k v) k2 = HashMap.get m k2 := by
  have hk : ¬ k = k2 := fun h => hne h.symm
  simp only [HashMap.get, HashMap.set, List.find?_append, HashMap.find_filter_ne m k k2 hne]
  cases hfind : m.find? (fun e => decide (e.1 = k2)) with
  | none => simp [List.find?_cons, hk]
  | some e => simp

theorem InternCaches.lookup_insert_fresh_self (caches : InternCaches) (request : InternRequest) :
    (caches.insert_fresh request).lookup request = some caches.next_cell := by
  cases request with
  | latin content => simp [InternCaches.insert_fresh, InternCaches.lookup, HashMap.get_set_self]
  | wide content => simp [InternCaches.insert_fresh, InternCaches.lookup, HashMap.get_set_self]

theorem InternCaches.lookup_insert_fresh_other (caches : InternCaches)
    (request other : InternRequest) (hne : other ≠ request) :
    (caches.insert_fresh request).lookup other = caches.lookup other := by
  cases request with
  | latin content =>
    cases other with
    | latin content2 =>
      have : content2 ≠ content := fun h => hne (by rw [h])
      simp [InternCaches.insert_fresh, InternCaches.lookup, HashMap.get_set_other _ _ _ _ this]
    | wide content2 => simp [InternCaches.insert_fresh, InternCaches.lookup]
  | wide content =>
    cases other with
    | latin content2 => simp [InternCaches.insert_fresh, InternCaches.lookup]
    | wide content2 =>
      have : content2 ≠ content := fun h => hne (by rw [h])
      simp [InternCaches.insert_fresh, InternCaches.lookup, HashMap.get_set_other _ _ _ _ this]

/-- One `intern` keeps the caches well formed, leaves the returned cell cached for
the request, and keeps every cell that was cached before. -/
theorem intern_step (caches : InternCaches) (request : InternRequest)
    (hwf : caches.well_formed) :
    (intern caches request).2.well_formed ∧
      (intern caches request).2.lookup request = some (intern caches request).1 ∧
      ∀ other cell, caches.lookup other = some cell →
        (intern caches request).2.lookup other = some cell := by
  unfold intern
  cases hlook : caches.lookup request with
  | some cell => exact ⟨hwf, hlook, fun _ _ h => h⟩
  | none =>
    have hkeep : ∀ other cell, caches.lookup other = some cell →
        (caches.insert_fresh request).lookup other = some cell := by
      intro other cell hother
      have hne : other ≠ request := by
        intro h
        rw [h, hlook] at hother
        cases hother
      rw [InternCaches.lookup_insert_fresh_other caches request other hne]
      exact hother
    have hnext : (caches.insert_fresh request).next_cell = caches.next_cell + 1 := by
      cases request <;> rfl
    have hold : ∀ other cell, (caches.insert_fresh request).lookup other = some cell →
        (other = request ∧ cell = caches.next_cell) ∨
          (other ≠ request ∧ caches.lookup other = some cell) := by
      intro other cell hother
      by_cases h : other = request
      · subst h
        rw [InternCaches.lookup_insert_fresh_self] at hother
        cases hother
        exact Or.inl ⟨rfl, rfl⟩
      · rw [InternCaches.lookup_insert_fresh_other caches request other h] at hother
        exact Or.inr ⟨h, hother⟩
    refine ⟨⟨?_, ?_⟩, InternCaches.lookup_insert_fresh_self caches request, hkeep⟩
    · intro other cell hother
      rw [hnext]
      rcases hold other cell hother with ⟨_, hc⟩ | ⟨_, hc⟩
      · omega
      · have := hwf.1 other cell hc
        omega
    · intro r1 r2 cell h1 h2
      rcases hold r1 cell h1 with ⟨e1, c1⟩ | ⟨_, c1⟩
      · rcases hold r2 cell h2 with ⟨e2, _⟩ | ⟨_, c2⟩
        · rw [e1, e2]
        · have := hwf.1 r2 cell c2
          omega
      · rcases hold r2 cell h2 with ⟨_, c2⟩ | ⟨_, c2⟩
        · have := hwf.1 r1 cell c1
          omega
        · exact hwf.2 r1 r2 cell c1 c2

/-- After interning a list of requests, the caches are well formed and hold, for
each request, the cell that was returned for it. -/
theorem intern_all_lookup (requests : List InternRequest) :
    ∀ (caches : InternCaches), caches.well_formed →
      (intern_all requests caches).2.well_formed ∧
        (∀ other cell, caches.lookup other = some cell →
          (intern_all requests caches).2.lookup other = some cell) ∧
        ∀ p ∈ requests.zip (intern_all requests caches).1,
          (intern_all requests caches).2.lookup p.1 = some p.2 := by
  induction requests with
  | nil =>
    intro caches hwf
    exact ⟨hwf, fun _ _ h => h, by simp [intern_all]⟩
  | cons request rest ih =>
    intro caches hwf
    obtain ⟨hwf1, hself, hkeep⟩ := intern_step caches request hwf
    obtain ⟨hwf2, hkeep2, hzip⟩ := ih (intern caches request).2 hwf1
    simp only [intern_all]
    refine ⟨hwf2, fun other cell h => hkeep2 other cell (hkeep other cell h), ?_⟩
    intro p hp
    simp only [List.zip_cons_cons, List.mem_cons] at hp
    rcases hp with hp | hp
    · subst hp
      exact hkeep2 _ _ hself
    · exact hzip p hp

theorem intern_all_length (requests : List InternRequest) :
    ∀ (caches : InternCaches), (intern_all requests caches).1.length = requests.length := by
  induction requests with
  | nil => intro caches; rfl
  | cons request rest ih =>
    intro caches
    simp [intern_all, ih]

theorem InternCaches.initial_well_formed : InternCaches.initial.well_formed := by
  constructor
  · intro request cell h
    cases request <;> simp [InternCaches.lookup, InternCaches.initial, HashMap.get] at h
  · intro r1 r2 cell h
    cases r1 <;> simp [InternCaches.lookup, InternCaches.initial, HashMap.get] at h

/-! ### Module linker lemmas -/

theorem Linker.Evolves.refl (st : Linker) : st.Evolves st :=
  ⟨fun _ h => Or.inl h, fun _ h => h, fun _ e h => ⟨e, h, rfl, fun hf => hf⟩,
    [], by simp, by simp⟩

theorem Linker.Evolves.trans {st st1 st2 : Linker} (h1 : st.Evolves st1)
    (h2 : st1.Evolves st2) : st.Evolves st2 := by
  obtain ⟨hh1, ha1, hc1, extra1, hl1, hn1⟩ := h1
  obtain ⟨hh2, ha2, hc2, extra2, hl2, hn2⟩ := h2
  refine ⟨?_, fun node h => ha2 node (ha1 node h), ?_, extra1 ++ extra2, ?_, ?_⟩
  · intro t ht
    rcases hh2 t ht with h | h
    · exact hh1 t h
    · exact Or.inr h
  · intro key e he
    obtain ⟨e1, he1, hm1, hf1⟩ := hc1 key e he
    obtain ⟨e2, he2, hm2, hf2⟩ := hc2 key e1 he1
    exact ⟨e2, he2, hm2.trans hm1, fun hf => hf2 (hf1 hf)⟩
  · rw [hl2, hl1, List.append_assoc]
  · intro k hk
    rcases List.mem_append.1 hk with h | h
    · exact hn1 k h
    · have hnone := hn2 k h
      cases hget : get_stored_module st.vm k with
      | none => rfl
      | some e =>
        obtain ⟨e1, he1, _, _⟩ := hc1 k e hget
        rw [he1] at hnone
        cases hnone

theorem StoredModule.key_mark (e : StoredModule) (key : ModuleKey) :
    (if e.key = key then { e with has_once_started_linking := true } else e).key = e.key := by
  split <;> rfl

theorem get_stored_module_mark_started (st : Linker) (key k : ModuleKey) :
    get_stored_module (st.mark_started key).vm k
      = (get_stored_module st.vm k).map (fun e =>
          if e.key = key then { e with has_once_started_linking := true } else e) := by
  simp only [get_stored_module, Linker.mark_started, List.find?_map]
  congr 1
  apply congrArg (fun p => List.find? p st.vm.m_loaded_modules)
  funext e
  simp only [Function.comp, StoredModule.key_mark]

theorem Linker.evolves_mark_started (st : Linker) (key : ModuleKey) :
    st.Evolves (st.mark_started key) := by
  refine ⟨fun _ h => Or.inl h, fun _ h => h, ?_, [], by simp [Linker.mark_started], by simp⟩
  intro k e he
  rw [get_stored_module_mark_started, he]
  refine ⟨_, rfl, ?_, ?_⟩
  · by_cases h : e.key = key <;> simp [h]
  · intro hf
    by_cases h : e.key = key <;> simp [h, hf]

theorem Linker.evolves_transition (st st1 : Linker) (node : Nat)
    (source target : ModuleStatus) (error : Option Value)
    (h : st.transition node source target error = some st1)
    (hstep : ModuleStatus.may_step source target = true)
    (hsource : source ≠ ModuleStatus.Errored) : st.Evolves st1 := by
  unfold Linker.transition at h
  cases hn : st.nodes[node]? with
  | none => simp [hn] at h
  | some n =>
    simp only [hn] at h
    by_cases hs : n.status = source
    · simp only [hs, if_true, Option.some.injEq] at h
      subst h
      refine ⟨?_, ?_, fun _ e he => ⟨e, he, rfl, fun hf => hf⟩, [], by simp, by simp⟩
      · intro t ht
        simp only [List.mem_append, List.mem_singleton] at ht
        rcases ht with ht | ht
        · exact Or.inl ht
        · subst ht; exact Or.inr hstep
      · intro m hm
        have hne : node ≠ m := by
          intro heq
          subst heq
          simp only [Linker.status, hn, Option.some.injEq] at hm
          exact hsource (hs ▸ hm)
        simpa [Linker.status, List.getElem?_set_ne hne] using hm
    · simp [hs] at h

theorem get_stored_module_append_of_none (vm : VM) (e : StoredModule) (k : ModuleKey)
    (hnone : get_stored_module vm k = none) :
    get_stored_module { vm with m_loaded_modules := Vector.append vm.m_loaded_modules e } k
      = if e.key = k then some e else none := by
  simp only [get_stored_module] at hnone
  simp only [get_stored_module, Vector.append, List.find?_append, hnone, Option.none_or]
  by_cases h : e.key = k <;> simp [List.find?_cons, h]

theorem get_stored_module_append_of_some (vm : VM) (e e0 : StoredModule) (k : ModuleKey)
    (hsome : get_stored_module vm k = some e0) :
    get_stored_module { vm with m_loaded_modules := Vector.append vm.m_loaded_modules e } k
      = some e0 := by
  simp only [get_stored_module] at hsome
  simp [get_stored_module, Vector.append, List.find?_append, hsome]

theorem evolves_load_module_entry (host : ModuleKey → Except Value ModuleSource)
    (key : ModuleKey) (st : Linker) : st.Evolves (load_module_entry host key st).2 := by
  unfold load_module_entry
  cases hget : get_stored_module st.vm key with
  | some entry => exact Linker.Evolves.refl st
  | none =>
    cases hhost : host key with
    | error e =>
      refine ⟨fun _ h => Or.inl h, fun _ h => h, fun _ e he => ⟨e, he, rfl, fun hf => hf⟩,
        [key], rfl, ?_⟩
      intro k hk
      simp only [List.mem_singleton] at hk
      subst hk
      exact hget
    | ok source =>
      refine ⟨fun _ h => Or.inl h, ?_, ?_, [key], rfl, ?_⟩
      · intro node hnode
        simp only [Linker.status] at hnode ⊢
        cases hn : st.nodes[node]? with
        | none => simp [hn] at hnode
        | some n =>
          have hlt : node < st.nodes.length := (List.getElem?_eq_some_iff.1 hn).1
          simp only [hn] at hnode
          simp [List.getElem?_append_left hlt, hn, hnode]
      · intro k e he
        exact ⟨e, get_stored_module_append_of_some st.vm _ e k he, rfl, fun hf => hf⟩
      · intro k hk
        simp only [List.mem_singleton] at hk
        subst hk
        exact hget

theorem for_each_request_evolves
    (f : ModuleKey → Linker → Outcome (Except Value Unit × Linker))
    (hf : ∀ key s out, f key s = Outcome.returned out → s.Evolves out.2)
    (requests : List ModuleKey) :
    ∀ (st : Linker) (out : Except Value Unit × Linker),
      for_each_request f requests st = Outcome.returned out → st.Evolves out.2 := by
  induction requests with
  | nil =>
    intro st out h
    simp only [for_each_request, Outcome.returned.injEq] at h
    subst h
    exact Linker.Evolves.refl st
  | cons key rest ih =>
    intro st out h
    simp only [for_each_request] at h
    cases hfk : f key st with
    | out_of_fuel => simp [hfk] at h
    | failed_assertion => simp [hfk] at h
    | returned value =>
      obtain ⟨r, s1⟩ := value
      have hstep := hf key st (r, s1) hfk
      cases r with
      | error e =>
        simp only [hfk, Outcome.returned.injEq] at h
        subst h
        exact hstep
      | ok u =>
        simp only [hfk] at h
        exact hstep.trans (ih s1 out h)

/-- One level of `link_module`: either the entry's flag was already set and nothing
happened, or linking began and the rest of the call is a run from that state. -/
theorem link_module_succ_cases (host : ModuleKey → Except Value ModuleSource) (fuel : Nat)
    (ih : ∀ (key : ModuleKey) (st : Linker) (out : Except Value Unit × Linker),
      link_module host fuel key st = Outcome.returned out → st.Evolves out.2)
    (key : ModuleKey) (st : Linker) (out : Except Value Unit × Linker)
    (h : link_module host (fuel + 1) key st = Outcome.returned out) :
    ∃ entry, get_stored_module st.vm key = some entry ∧
      ((entry.has_once_started_linking = true ∧ out = (Except.ok (), st)) ∨
        (entry.has_once_started_linking = false ∧
          ∃ st1, begin_linking st key entry.module = some st1 ∧ st1.Evolves out.2)) := by
  unfold link_module at h
  cases hget : get_stored_module st.vm key with
  | none => simp [hget] at h
  | some entry =>
    simp only [hget] at h
    refine ⟨entry, rfl, ?_⟩
    by_cases hflag : entry.has_once_started_linking = true
    · rw [if_pos hflag] at h
      simp only [Outcome.returned.injEq] at h
      exact Or.inl ⟨hflag, h.symm⟩
    · rw [if_neg hflag] at h
      refine Or.inr ⟨by simpa using hflag, ?_⟩
      cases hbegin : begin_linking st key entry.module with
      | none => simp [hbegin] at h
      | some st1 =>
        simp only [hbegin] at h
        refine ⟨st1, rfl, ?_⟩
        cases hnode : st1.nodes[entry.module]? with
        | none => simp [hnode] at h
        | some n =>
          simp only [hnode] at h
          have hreq := for_each_request_evolves
            (fun request s =>
              match load_module_entry host request s with
              | (Except.error e, s1) => Outcome.returned (Except.error e, s1)
              | (Except.ok _, s1) => link_module host fuel request s1)
            (by
              intro request s out1 hout
              have hload := evolves_load_module_entry host request s
              cases hl : load_module_entry host request s with
              | mk r s1 =>
                rw [hl] at hload
                cases r with
                | error e =>
                  simp only [hl, Outcome.returned.injEq] at hout
                  subst hout
                  exact hload
                | ok node =>
                  simp only [hl] at hout
                  exact hload.trans (ih request s1 out1 hout))
            n.requests st1
          cases hfor : for_each_request
              (fun request s =>
                match load_module_entry host request s with
                | (Except.error e, s1) => Outcome.returned (Except.error e, s1)
                | (Except.ok _, s1) => link_module host fuel request s1)
              n.requests st1 with
          | out_of_fuel => simp [hfor] at h
          | failed_assertion => simp [hfor] at h
          | returned value =>
            obtain ⟨r, st2⟩ := value
            have h12 := hreq (r, st2) hfor
            cases r with
            | error e =>
              simp only [hfor] at h
              cases htr : st2.transition entry.module ModuleStatus.Linking
                  ModuleStatus.Errored (some e) with
              | none => simp [htr] at h
              | some st3 =>
                simp only [htr, Outcome.returned.injEq] at h
                subst h
                exact h12.trans
                  (Linker.evolves_transition st2 st3 _ _ _ _ htr rfl (by decide))
            | ok u =>
              simp only [hfor] at h
              cases htr : st2.transition entry.module ModuleStatus.Linking
                  ModuleStatus.Linked none with
              | none => simp [htr] at h
              | some st3 =>
                simp only [htr, Outcome.returned.injEq] at h
                subst h
                exact h12.trans
                  (Linker.evolves_transition st2 st3 _ _ _ _ htr rfl (by decide))

theorem evolves_begin_linking (st st1 : Linker) (key : ModuleKey) (node : Nat)
    (h : begin_linking st key node = some st1) : st.Evolves st1 :=
  (Linker.evolves_mark_started st key).trans
    (Linker.evolves_transition _ st1 node ModuleStatus.Unlinked ModuleStatus.Linking none h
      rfl (by decide))

theorem link_module_evolves (host : ModuleKey → Except Value ModuleSource) (fuel : Nat) :
    ∀ (key : ModuleKey) (st : Linker) (out : Except Value Unit × Linker),
      link_module host fuel key st = Outcome.returned out → st.Evolves out.2 := by
  induction fuel with
  | zero =>
    intro key st out h
    simp [link_module] at h
  | succ fuel ih =>
    intro key st out h
    obtain ⟨entry, _, hcase⟩ := link_module_succ_cases host fuel ih key st out h
    rcases hcase with ⟨_, hout⟩ | ⟨_, st1, hbegin, hrest⟩
    · rw [hout]
      exact Linker.Evolves.refl st
    · exact (evolves_begin_linking st st1 key entry.module hbegin).trans hrest

/-- The vm of a state is not changed by a status transition. -/
theorem Linker.transition_vm (st st1 : Linker) (node : Nat) (source target : ModuleStatus)
    (error : Option Value) (h : st.transition node source target error = some st1) :
    st1.vm = st.vm := by
  unfold Linker.transition at h
  cases hn : st.nodes[node]? with
  | none => simp [hn] at h
  | some n =>
    simp only [hn] at h
    by_cases hs : n.status = source
    · simp only [hs, if_true, Option.some.injEq] at h
      subst h
      rfl
    · simp [hs] at h

/-- Once linking of the entry under `key` has begun, a lookup of `key` sees the flag. -/
theorem begin_linking_sets_flag (st st1 : Linker) (key : ModuleKey) (entry : StoredModule)
    (hget : get_stored_module st.vm key = some entry)
    (h : begin_linking st key entry.module = some st1) :
    ∃ e, get_stored_module st1.vm key = some e ∧ e.module = entry.module ∧
      e.has_once_started_linking = true := by
  have hkey : entry.key = key := by
    have := List.find?_some hget
    simpa using this
  unfold begin_linking at h
  rw [Linker.transition_vm _ st1 _ _ _ _ h, get_stored_module_mark_started, hget]
  exact ⟨_, rfl, by simp [hkey], by simp [hkey]⟩

/-- After `link_module` has returned, the entry under `key` has its flag set and
still names the node it named before. -/
theorem link_module_sets_flag (host : ModuleKey → Except Value ModuleSource) (fuel : Nat)
    (key : ModuleKey) (st : Linker) (out : Except Value Unit × Linker) (entry : StoredModule)
    (hget : get_stored_module st.vm key = some entry)
    (h : link_module host fuel key st = Outcome.returned out) :
    ∃ e, get_stored_module out.2.vm key = some e ∧ e.module = entry.module ∧
      e.has_once_started_linking = true := by
  cases fuel with
  | zero => simp [link_module] at h
  | succ fuel =>
    obtain ⟨entry1, hget1, hcase⟩ :=
      link_module_succ_cases host fuel (link_module_evolves host fuel) key st out h
    rw [hget] at hget1
    cases hget1
    rcases hcase with ⟨hflag, hout⟩ | ⟨_, st1, hbegin, hrest⟩
    · rw [hout]
      exact ⟨entry, hget, rfl, hflag⟩
    · obtain ⟨e1, he1, hm1, hf1⟩ := begin_linking_sets_flag st st1 key entry hget hbegin
      obtain ⟨e2, he2, hm2, hf2⟩ := hrest.2.2.1 key e1 he1
      exact ⟨e2, he2, hm2.trans hm1, hf2 hf1⟩

/-- A request for a key whose entry has its flag set returns the cached node at
once and changes nothing. -/
theorem load_imported_module_started (host : ModuleKey → Except Value ModuleSource)
    (fuel : Nat) (key : ModuleKey) (st : Linker) (entry : StoredModule)
    (hget : get_stored_module st.vm key = some entry)
    (hflag : entry.has_once_started_linking = true) :
    load_imported_module host (fuel + 1) key st
      = Outcome.returned (Except.ok entry.module, st) := by
  simp [load_imported_module, load_module_entry, link_module, hget, hflag]

theorem load_imported_module_evolves (host : ModuleKey → Except Value ModuleSource)
    (fuel : Nat) (key : ModuleKey) (st : Linker) (out : Except Value Nat × Linker)
    (h : load_imported_module host fuel key st = Outcome.returned out) :
    st.Evolves out.2 := by
  unfold load_imported_module at h
  have hload := evolves_load_module_entry host key st
  cases hl : load_module_entry host key st with
  | mk r s1 =>
    rw [hl] at hload
    cases r with
    | error e =>
      simp only [hl, Outcome.returned.injEq] at h
      subst h
      exact hload
    | ok node =>
      simp only [hl] at h
      cases hlink : link_module host fuel key s1 with
      | out_of_fuel => simp [hlink] at h
      | failed_assertion => simp [hlink] at h
      | returned value =>
        obtain ⟨r2, s2⟩ := value
        have h2 := link_module_evolves host fuel key s1 (r2, s2) hlink
        cases r2 with
        | error e =>
          simp only [hlink, Outcome.returned.injEq] at h
          subst h
          exact hload.trans h2
        | ok u =>
          simp only [hlink, Outcome.returned.injEq] at h
          subst h
          exact hload.trans h2

theorem evaluate_module_evolves (fuel : Nat) :
    ∀ (node : Nat) (st : Linker) (out : Except Value Unit × Linker),
      evaluate_module fuel node st = Outcome.returned out → st.Evolves out.2 := by
  induction fuel with
  | zero =>
    intro node st out h
    simp [evaluate_module] at h
  | succ fuel ih =>
    intro node st out h
    unfold evaluate_module at h
    cases hn : st.nodes[node]? with
    | none => simp [hn] at h
    | some n =>
      simp only [hn] at h
      cases hstatus : n.status with
      | Unlinked => simp [hstatus] at h
      | Linking => simp [hstatus] at h
      | Evaluating =>
        simp only [hstatus, Outcome.returned.injEq] at h
        subst h
        exact Linker.Evolves.refl st
      | Evaluated =>
        simp only [hstatus, Outcome.returned.injEq] at h
        subst h
        exact Linker.Evolves.refl st
      | Errored =>
        simp only [hstatus] at h
        cases herr : n.recorded_error with
        | none => simp [herr] at h
        | some e =>
          simp only [herr, Outcome.returned.injEq] at h
          subst h
          exact Linker.Evolves.refl st
      | Linked =>
        simp only [hstatus] at h
        cases hbegin : st.transition node ModuleStatus.Linked ModuleStatus.Evaluating none with
        | none => simp [hbegin] at h
        | some st1 =>
          simp only [hbegin] at h
          have h01 : st.Evolves st1 :=
            Linker.evolves_transition st st1 node ModuleStatus.Linked
              ModuleStatus.Evaluating none hbegin rfl (by decide)
          have hreq := for_each_request_evolves
            (fun key s =>
              match get_stored_module s.vm key with
              | none => Outcome.failed_assertion
              | some entry => evaluate_module fuel entry.module s)
            (by
              intro key s out1 hout
              cases hg : get_stored_module s.vm key with
              | none => simp [hg] at hout
              | some entry =>
                simp only [hg] at hout
                exact ih entry.module s out1 hout)
            n.requests st1
          cases hfor : for_each_request
              (fun key s =>
                match get_stored_module s.vm key with
                | none => Outcome.failed_assertion
                | some entry => evaluate_module fuel entry.module s)
              n.requests st1 with
          | out_of_fuel => simp [hfor] at h
          | failed_assertion => simp [hfor] at h
          | returned value =>
            obtain ⟨r, st2⟩ := value
            have h12 := hreq (r, st2) hfor
            cases r with
            | error e =>
              simp only [hfor] at h
              cases htr : st2.transition node ModuleStatus.Evaluating
                  ModuleStatus.Errored (some e) with
              | none => simp [htr] at h
              | some st3 =>
                simp only [htr, Outcome.returned.injEq] at h
                subst h
                exact h01.trans (h12.trans
                  (Linker.evolves_transition st2 st3 _ _ _ _ htr rfl (by decide)))
            | ok u =>
              simp only [hfor] at h
              cases hev : n.evaluation_error with
              | some e =>
                simp only [hev] at h
                cases htr : st2.transition node ModuleStatus.Evaluating
                    ModuleStatus.Errored (some e) with
                | none => simp [htr] at h
                | some st3 =>
                  simp only [htr, Outcome.returned.injEq] at h
                  subst h
                  exact h01.trans (h12.trans
                    (Linker.evolves_transition st2 st3 _ _ _ _ htr rfl (by decide)))
              | none =>
                simp only [hev] at h
                cases htr : st2.transition node ModuleStatus.Evaluating
                    ModuleStatus.Evaluated none with
                | none => simp [htr] at h
                | some st3 =>
                  simp only [htr, Outcome.returned.injEq] at h
                  subst h
                  exact h01.trans (h12.trans
                    (Linker.evolves_transition st2 st3 _ _ _ _ htr rfl (by decide)))

theorem link_and_eval_module_evolves (host : ModuleKey → Except Value ModuleSource)
    (fuel : Nat) (key : ModuleKey) (st : Linker) (out : Except Value Unit × Linker)
    (h : link_and_eval_module host fuel key st = Outcome.returned out) :
    st.Evolves out.2 := by
  unfold link_and_eval_module at h
  cases hload : load_imported_module host fuel key st with
  | out_of_fuel => simp [hload] at h
  | failed_assertion => simp [hload] at h
  | returned value =>
    obtain ⟨r, s1⟩ := value
    have h1 := load_imported_module_evolves host fuel key st (r, s1) hload
    cases r with
    | error e =>
      simp only [hload, Outcome.returned.injEq] at h
      subst h
      exact h1
    | ok node =>
      simp only [hload] at h
      exact h1.trans (evaluate_module_evolves fuel node s1 out h)

theorem ModuleStatus.may_step_iff (s t : ModuleStatus) :
    ModuleStatus.may_step s t = true ↔
      (s, t) ∈ [(ModuleStatus.Unlinked, ModuleStatus.Linking),
        (ModuleStatus.Linking, ModuleStatus.Linked),
        (ModuleStatus.Linked, ModuleStatus.Evaluating),
        (ModuleStatus.Evaluating, ModuleStatus.Evaluated),
        (ModuleStatus.Linking, ModuleStatus.Errored),
        (ModuleStatus.Evaluating, ModuleStatus.Errored)] := by
  cases s <;> cases t <;> decide

theorem Linker.Evolves.respects {st st1 : Linker} (h : st.Evolves st1) :
    st.respects_state_machine st1 := by
  refine ⟨h.1, ?_, h.2.1⟩
  intro t ht hnew
  rcases h.1 t ht with hold | hstep
  · exact absurd hold hnew
  · obtain ⟨node, s, u⟩ := t
    simp only at hstep ⊢
    cases s <;> cases u <;> simp_all [ModuleStatus.may_step]

theorem load_module_entry_ok (host : ModuleKey → Except Value ModuleSource) (key : ModuleKey)
    (st sa : Linker) (node : Nat)
    (h : load_module_entry host key st = (Except.ok node, sa)) :
    ∃ e0, get_stored_module sa.vm key = some e0 ∧ e0.module = node ∧
      ((get_stored_module st.vm key = some e0 ∧ sa = st) ∨
        (get_stored_module st.vm key = none ∧ e0.has_once_started_linking = false ∧
          node = st.nodes.length ∧ sa.loader_calls = st.loader_calls ++ [key] ∧
          ∃ source, host key = Except.ok source ∧
            sa.nodes = st.nodes ++
              [⟨source.requests, source.evaluation_error, ModuleStatus.Unlinked, none⟩])) := by
  unfold load_module_entry at h
  cases hget : get_stored_module st.vm key with
  | some entry =>
    simp only [hget, Prod.mk.injEq, Except.ok.injEq] at h
    obtain ⟨hnode, hst⟩ := h
    subst hst
    exact ⟨entry, hget, hnode, Or.inl ⟨rfl, rfl⟩⟩
  | none =>
    simp only [hget] at h
    cases hhost : host key with
    | error e => simp [hhost] at h
    | ok source =>
      simp only [hhost, Prod.mk.injEq, Except.ok.injEq] at h
      obtain ⟨hnode, hst⟩ := h
      subst hst
      refine ⟨⟨key.referrer, key.filename, key.type, st.nodes.length, false⟩, ?_, hnode,
        Or.inr ⟨rfl, rfl, hnode.symm, rfl, source, rfl, rfl⟩⟩
      rw [get_stored_module_append_of_none st.vm _ key hget]
      simp [StoredModule.key]

theorem begin_linking_fresh (st st1 : Linker) (key : ModuleKey) (source : ModuleSource)
    (hnodes : st1.nodes = st.nodes ++
      [⟨source.requests, source.evaluation_error, ModuleStatus.Unlinked, none⟩]) :
    ∃ st2, begin_linking st1 key st.nodes.length = some st2 := by
  simp [begin_linking, Linker.transition, Linker.mark_started, hnodes]

/-! ## Execution context stack: push, pop, running context -/

/-- C1 (as stated, refuted): with an empty execution context stack and the stack
space limit reached, the checked push does not return a Throw completion: building
the error needs the current realm, and `running_execution_context` fails its
`VERIFY` on the empty stack. -/
theorem push_execution_context_checked_empty_stack_at_limit :
    did_reach_stack_space_limit Build.ordinary (VM.fresh 0) = true ∧
      push_execution_context_checked Build.ordinary (VM.fresh 0) (ExecutionContext.of_realm 7)
        = none :=
  ⟨rfl, rfl⟩

/-- C1 (amended): when `did_reach_stack_space_limit()` is false the checked push
returns normally and the stack is the old stack with `c` appended; when it is true
and the stack is not empty, the push returns the Throw completion carrying an
`InternalError` with the `CallStackSizeExceeded` message, created in the realm of
the running context, and the VM (so the stack) is unchanged; a Throw is returned
only when the limit is reached; and when the limit is reached on an empty stack
the call fails the `VERIFY` of `running_execution_context` instead of returning. -/
theorem push_execution_context_checked_spec (b : Build) (vm : VM) (c : ExecutionContext) :
    (did_reach_stack_space_limit b vm = false →
        push_execution_context_checked b vm c = some (Except.ok (),
          { vm with m_execution_context_stack := vm.m_execution_context_stack ++ [c] })) ∧
      (did_reach_stack_space_limit b vm = true → vm.m_execution_context_stack ≠ [] →
        ∃ top, running_execution_context vm = some top ∧
          push_execution_context_checked b vm c = some (Except.error ⟨CompletionType.Throw,
            Value.error_object ErrorClass.InternalError top.realm
              ErrorType.CallStackSizeExceeded.message⟩, vm)) ∧
      ((∃ completion vm1,
          push_execution_context_checked b vm c = some (Except.error completion, vm1)) →
        did_reach_stack_space_limit b vm = true) ∧
      (did_reach_stack_space_limit b vm = true → vm.m_execution_context_stack = [] →
        push_execution_context_checked b vm c = none) := by
  refine ⟨?_, ?_, ?_, ?_⟩
  · intro hlim
    simp [push_execution_context_checked, hlim, Vector.append]
  · intro hlim hne
    rcases Vector.nil_or_snoc vm.m_execution_context_stack with hs | ⟨s, x, hs⟩
    · exact absurd hs hne
    · have hrun := running_execution_context_concat vm s x hs
      refine ⟨x, hrun, ?_⟩
      simp [push_execution_context_checked, hlim, throw_completion_of_type, throw_completion,
        current_realm, hrun, throw_completion_value]
  · rintro ⟨completion, vm1, hpush⟩
    cases hlim : did_reach_stack_space_limit b vm with
    | true => rfl
    | false => simp [push_execution_context_checked, hlim] at hpush
  · intro hlim hs
    simp [push_execution_context_checked, hlim, throw_completion_of_type, throw_completion,
      current_realm, running_execution_context, hs]

/-- Witness for C1 (amended): with no native stack left, one context on the stack
gives the Throw and an unchanged VM; with ample native stack the push appends; with
no native stack left and an empty stack the call fails its `VERIFY`. -/
theorem push_execution_context_checked_spec_witness :
    (∃ top, running_execution_context (VM.with_stack 0 [ExecutionContext.of_realm 3])
        = some top ∧
      push_execution_context_checked Build.ordinary
          (VM.with_stack 0 [ExecutionContext.of_realm 3]) (ExecutionContext.of_realm 7)
        = some (Except.error ⟨CompletionType.Throw,
            Value.error_object ErrorClass.InternalError top.realm
              ErrorType.CallStackSizeExceeded.message⟩,
          VM.with_stack 0 [ExecutionContext.of_realm 3])) ∧
      push_execution_context_checked Build.ordinary
          (VM.with_stack 32768 [ExecutionContext.of_realm 3]) (ExecutionContext.of_realm 7)
        = some (Except.ok (),
          VM.with_stack 32768 [ExecutionContext.of_realm 3, ExecutionContext.of_realm 7]) ∧
      push_execution_context_checked Build.ordinary (VM.fresh 32767)
          (ExecutionContext.of_realm 7) = none :=
  ⟨(push_execution_context_checked_spec Build.ordinary
      (VM.with_stack 0 [ExecutionContext.of_realm 3]) (ExecutionContext.of_realm 7)).2.1
      rfl (by simp [VM.with_stack]),
    (push_execution_context_checked_spec Build.ordinary
      (VM.with_stack 32768 [ExecutionContext.of_realm 3]) (ExecutionContext.of_realm 7)).1
      (by decide),
    (push_execution_context_checked_spec Build.ordinary (VM.fresh 32767)
      (ExecutionContext.of_realm 7)).2.2.2 (by decide) rfl⟩

/-- C2: for every sequence of push / pop calls applied to an empty stack in which
no pop meets an empty stack (the run succeeds), there are at most as many pops as
pushes, the resulting stack length is pushes minus pops, and the stack is empty
if and only if no unmatched push remains. -/
theorem stack_depth_is_pushes_minus_pops (vm vm1 : VM) (ops : List StackOp)
    (hempty : vm.m_execution_context_stack = [])
    (hrun : run_stack_ops ops vm = some vm1) :
    count_pops ops ≤ count_pushes ops ∧
      vm1.m_execution_context_stack.length = count_pushes ops - count_pops ops ∧
      (vm1.m_execution_context_stack = [] ↔ count_pushes ops = count_pops ops) := by
  have hbal := run_stack_ops_length ops vm vm1 hrun
  rw [hempty] at hbal
  simp only [List.length_nil, Nat.zero_add] at hbal
  refine ⟨by omega, by omega, ?_⟩
  rw [← List.length_eq_zero]
  omega

/-- Witness for C2: push, push, pop, push on a fresh VM leaves depth two. -/
theorem stack_depth_is_pushes_minus_pops_witness :
    count_pops [StackOp.push (ExecutionContext.of_realm 1),
        StackOp.push (ExecutionContext.of_realm 2), StackOp.pop,
        StackOp.push (ExecutionContext.of_realm 3)]
      ≤ count_pushes [StackOp.push (ExecutionContext.of_realm 1),
        StackOp.push (ExecutionContext.of_realm 2), StackOp.pop,
        StackOp.push (ExecutionContext.of_realm 3)] ∧
    (VM.with_stack 0 [ExecutionContext.of_realm 1,
        ExecutionContext.of_realm 3]).m_execution_context_stack.length
      = count_pushes [StackOp.push (ExecutionContext.of_realm 1),
          StackOp.push (ExecutionContext.of_realm 2), StackOp.pop,
          StackOp.push (ExecutionContext.of_realm 3)]
        - count_pops [StackOp.push (ExecutionContext.of_realm 1),
          StackOp.push (ExecutionContext.of_realm 2), StackOp.pop,
          StackOp.push (ExecutionContext.of_realm 3)] ∧
    ((VM.with_stack 0 [ExecutionContext.of_realm 1,
        ExecutionContext.of_realm 3]).m_execution_context_stack = [] ↔
      count_pushes [StackOp.push (ExecutionContext.of_realm 1),
          StackOp.push (ExecutionContext.of_realm 2), StackOp.pop,
          StackOp.push (ExecutionContext.of_realm 3)]
        = count_pops [StackOp.push (ExecutionContext.of_realm 1),
          StackOp.push (ExecutionContext.of_realm 2), StackOp.pop,
          StackOp.push (ExecutionContext.of_realm 3)]) :=
  stack_depth_is_pushes_minus_pops (VM.fresh 0)
    (VM.with_stack 0 [ExecutionContext.of_realm 1, ExecutionContext.of_realm 3])
    [StackOp.push (ExecutionContext.of_realm 1), StackOp.push (ExecutionContext.of_realm 2),
      StackOp.pop, StackOp.push (ExecutionContext.of_realm 3)]
    rfl rfl

/-- C3: `pop_execution_context()` fails its precondition exactly on an empty stack
(so there it is not a silent no-op), and on a non-empty stack it returns, having
removed exactly the last element and changed nothing else. -/
theorem pop_execution_context_spec (vm : VM) :
    (pop_execution_context vm = none ↔ vm.m_execution_context_stack = []) ∧
      (vm.m_execution_context_stack = [] → pop_execution_context vm ≠ some vm) ∧
      ∀ (s : List ExecutionContext) (c : ExecutionContext),
        vm.m_execution_context_stack = s ++ [c] →
          pop_execution_context vm = some { vm with m_execution_context_stack := s } := by
  refine ⟨pop_execution_context_eq_none vm, ?_, ?_⟩
  · intro hs hpop
    rw [(pop_execution_context_eq_none vm).2 hs] at hpop
    cases hpop
  · intro s c hs
    exact pop_execution_context_concat vm s c hs

/-- Witness for C3: popping a two-element stack leaves its first element, and
popping the empty stack of a fresh VM does not return that VM. -/
theorem pop_execution_context_spec_witness :
    pop_execution_context
        (VM.with_stack 0 [ExecutionContext.of_realm 1, ExecutionContext.of_realm 2])
      = some { VM.with_stack 0 [ExecutionContext.of_realm 1, ExecutionContext.of_realm 2] with
          m_execution_context_stack := [ExecutionContext.of_realm 1] } ∧
      pop_execution_context (VM.fresh 0) ≠ some (VM.fresh 0) :=
  ⟨(pop_execution_context_spec
      (VM.with_stack 0 [ExecutionContext.of_realm 1, ExecutionContext.of_realm 2])).2.2
      [ExecutionContext.of_realm 1] (ExecutionContext.of_realm 2) rfl,
    (pop_execution_context_spec (VM.fresh 0)).2.1 rfl⟩

/-- C4: push then pop is the identity on the whole VM state, so the stack has the
same elements in the same order: for the unchecked push always, and for the
checked push whenever it succeeds (returns normally). -/
theorem push_then_pop_identity (b : Build) (vm : VM) (c : ExecutionContext) :
    pop_execution_context (push_execution_context vm c) = some vm ∧
      ∀ (vm1 : VM), push_execution_context_checked b vm c = some (Except.ok (), vm1) →
        pop_execution_context vm1 = some vm := by
  refine ⟨pop_push_execution_context vm c, ?_⟩
  intro vm1 hpush
  unfold push_execution_context_checked at hpush
  split at hpush
  · split at hpush
    · cases hpush
    · simp at hpush
  · simp only [Option.some.injEq, Prod.mk.injEq, true_and] at hpush
    subst hpush
    exact pop_push_execution_context vm c

/-- Witness for C4: a checked push with ample native stack, then a pop. -/
theorem push_then_pop_identity_witness :
    pop_execution_context
        (VM.with_stack 40000 [ExecutionContext.of_realm 1, ExecutionContext.of_realm 2])
      = some (VM.with_stack 40000 [ExecutionContext.of_realm 1]) :=
  (push_then_pop_identity Build.ordinary (VM.with_stack 40000 [ExecutionContext.of_realm 1])
      (ExecutionContext.of_realm 2)).2
    (VM.with_stack 40000 [ExecutionContext.of_realm 1, ExecutionContext.of_realm 2]) rfl

/-- C5: `running_execution_context()` fails its `VERIFY` exactly when the stack is
empty; on a non-empty stack it returns the last element; and that element is the
most recently pushed context not yet popped: after pushing `c`, any further calls
that are balanced (they run on an empty stack and leave it empty) leave `c` running. -/
theorem running_execution_context_spec (vm : VM) :
    (running_execution_context vm = none ↔ vm.m_execution_context_stack = []) ∧
      (∀ (s : List ExecutionContext) (c : ExecutionContext),
        vm.m_execution_context_stack = s ++ [c] → running_execution_context vm = some c) ∧
      ∀ (c : ExecutionContext) (ops : List StackOp) (vm1 : VM),
        run_stack_ops ops { vm with m_execution_context_stack := [] } = some vm1 →
        vm1.m_execution_context_stack = [] →
          ∃ vm2, run_stack_ops ops (push_execution_context vm c) = some vm2 ∧
            running_execution_context vm2 = some c := by
  refine ⟨?_, ?_, ?_⟩
  · rcases Vector.nil_or_snoc vm.m_execution_context_stack with hs | ⟨s, x, hs⟩
    · simp [running_execution_context, hs]
    · simp [running_execution_context, hs]
  · intro s c hs
    exact running_execution_context_concat vm s c hs
  · intro c ops vm1 hrun hend
    have habove := run_stack_ops_above ops _ vm1 (vm.m_execution_context_stack ++ [c]) hrun
    simp only [List.append_nil] at habove
    refine ⟨_, habove, ?_⟩
    apply running_execution_context_concat _ vm.m_execution_context_stack c
    simp [hend]

/-- Witness for C5: after pushing realm 2 on top of realm 1, a nested push and pop
of realm 5 leave realm 2 running. -/
theorem running_execution_context_spec_witness :
    ∃ vm2, run_stack_ops [StackOp.push (ExecutionContext.of_realm 5), StackOp.pop]
          (push_execution_context (VM.with_stack 0 [ExecutionContext.of_realm 1])
            (ExecutionContext.of_realm 2)) = some vm2 ∧
      running_execution_context vm2 = some (ExecutionContext.of_realm 2) :=
  (running_execution_context_spec (VM.with_stack 0 [ExecutionContext.of_realm 1])).2.2
    (ExecutionContext.of_realm 2)
    [StackOp.push (ExecutionContext.of_realm 5), StackOp.pop] (VM.fresh 0) rfl rfl

/-! ## Saved execution context stacks -/

/-- C6: save-then-restore is an identity: after `save_execution_context_stack()`,
any sequence of pushes and pops on the fresh active stack that runs (balanced or
not), and the matching `restore_execution_context_stack()`, the restore succeeds
and the VM state, in particular the active stack, is what it was before the save. -/
theorem save_then_restore_identity (vm vm1 : VM) (ops : List StackOp)
    (hrun : run_stack_ops ops (save_execution_context_stack vm) = some vm1) :
    restore_execution_context_stack vm1 = some vm ∧
      ∀ vm2, restore_execution_context_stack vm1 = some vm2 →
        vm2.m_execution_context_stack = vm.m_execution_context_stack := by
  have hframe := run_stack_ops_frame ops _ vm1 hrun
  have hrestore := restore_execution_context_stack_concat vm1
    vm.m_saved_execution_context_stacks vm.m_execution_context_stack
    (by rw [hframe]; rfl)
  have hvm : restore_execution_context_stack vm1 = some vm := by
    rw [hrestore, hframe]
    rfl
  refine ⟨hvm, ?_⟩
  intro vm2 h2
  rw [hvm] at h2
  cases h2
  rfl

/-- Witness for C6: two contexts saved, an unbalanced run (two pushes, one pop) on
the fresh stack, then the restore. -/
theorem save_then_restore_identity_witness :
    restore_execution_context_stack
        { VM.with_stack 0 [ExecutionContext.of_realm 8] with
          m_saved_execution_context_stacks :=
            [[ExecutionContext.of_realm 1, ExecutionContext.of_realm 2]] }
      = some (VM.with_stack 0 [ExecutionContext.of_realm 1, ExecutionContext.of_realm 2]) :=
  (save_then_restore_identity
      (VM.with_stack 0 [ExecutionContext.of_realm 1, ExecutionContext.of_realm 2])
      { VM.with_stack 0 [ExecutionContext.of_realm 8] with
        m_saved_execution_context_stacks :=
          [[ExecutionContext.of_realm 1, ExecutionContext.of_realm 2]] }
      [StackOp.push (ExecutionContext.of_realm 8), StackOp.push (ExecutionContext.of_realm 9),
        StackOp.pop]
      rfl).1

/-- C7: after `save_execution_context_stack()` the active stack is empty and the
pre-save contents are the most recent entry of the saved stacks; and after further
nested saves of the stacks `ts` (each built on the fresh active stack), the restores
bring the saved stacks back last-saved first, ending with the original stack and
the original VM state. -/
theorem save_restore_nesting (vm : VM) (ts : List (List ExecutionContext)) :
    (save_execution_context_stack vm).m_execution_context_stack = [] ∧
      (save_execution_context_stack vm).m_saved_execution_context_stacks
        = vm.m_saved_execution_context_stacks ++ [vm.m_execution_context_stack] ∧
      (save_execution_context_stack vm).m_saved_execution_context_stacks.getLast?
        = some vm.m_execution_context_stack ∧
      restore_all (ts.length + 1) (save_nested ts (save_execution_context_stack vm))
        = some (ts.reverse ++ [vm.m_execution_context_stack], vm) := by
  refine ⟨rfl, rfl, ?_, ?_⟩
  · simp [save_execution_context_stack, Vector.append]
  · rw [save_nested_saved ts _ rfl]
    have h := restore_all_reverse (ts.reverse ++ [vm.m_execution_context_stack])
      { save_execution_context_stack vm with
        m_saved_execution_context_stacks :=
          (save_execution_context_stack vm).m_saved_execution_context_stacks ++ ts }
      vm.m_saved_execution_context_stacks
      (by simp [save_execution_context_stack, Vector.append])
    simp only [List.length_append, List.length_reverse, List.length_singleton] at h
    rw [h]
    obtain ⟨stack, saved, free, jobs, cleanup, modules⟩ := vm
    simp [save_execution_context_stack]

/-- C8: `clear_execution_context_stack()` leaves the active stack empty and leaves
the saved stacks, both job queues and the module cache unchanged; nothing is saved
by it, so a later restore behaves as it would have without the clear and reinstates
the stack saved before the clear. -/
theorem clear_execution_context_stack_spec (vm : VM) :
    (clear_execution_context_stack vm).m_execution_context_stack = [] ∧
      (clear_execution_context_stack vm).m_saved_execution_context_stacks
        = vm.m_saved_execution_context_stacks ∧
      (clear_execution_context_stack vm).m_promise_jobs = vm.m_promise_jobs ∧
      (clear_execution_context_stack vm).m_finalization_registry_cleanup_jobs
        = vm.m_finalization_registry_cleanup_jobs ∧
      (clear_execution_context_stack vm).m_loaded_modules = vm.m_loaded_modules ∧
      restore_execution_context_stack (clear_execution_context_stack vm)
        = restore_execution_context_stack vm ∧
      ∀ (ops : List StackOp) (vm0 : VM),
        run_stack_ops ops (save_execution_context_stack vm0) = some vm →
          restore_execution_context_stack (clear_execution_context_stack vm) = some vm0 := by
  refine ⟨rfl, rfl, rfl, rfl, rfl, ?_, ?_⟩
  · simp only [restore_execution_context_stack, clear_execution_context_stack]
  · intro ops vm0 hrun
    have hframe := run_stack_ops_frame ops _ vm hrun
    have hrestore := restore_execution_context_stack_concat (clear_execution_context_stack vm)
      vm0.m_saved_execution_context_stacks vm0.m_execution_context_stack
      (by rw [hframe]; rfl)
    rw [hrestore, hframe]
    rfl

/-- Witness for C8: a stack is saved, a context is pushed on the fresh stack, the
stack is cleared, and the restore reinstates the saved stack. -/
theorem clear_execution_context_stack_spec_witness :
    restore_execution_context_stack (clear_execution_context_stack
        { VM.with_stack 0 [ExecutionContext.of_realm 8] with
          m_saved_execution_context_stacks := [[ExecutionContext.of_realm 1]] })
      = some (VM.with_stack 0 [ExecutionContext.of_realm 1]) :=
  (clear_execution_context_stack_spec
      { VM.with_stack 0 [ExecutionContext.of_realm 8] with
        m_saved_execution_context_stacks := [[ExecutionContext.of_realm 1]] }).2.2.2.2.2.2
    [StackOp.push (ExecutionContext.of_realm 8)]
    (VM.with_stack 0 [ExecutionContext.of_realm 1]) rfl

/-! ## Promise job queue -/

/-- C9: `run_queued_promise_jobs()` drains to a fixed point in FIFO enqueue order:
given fuel for every queued job and every job those transitively enqueue, it
returns, the promise job queue is empty and nothing else in the VM has changed, and
the sequence of executed jobs is the sequence of enqueued jobs: the initial queue
followed by the jobs enqueued by each executed job, in execution order. With
J1, J2, J3 enqueued where J2 enqueues J4, the execution order is J1, J2, J3, J4. -/
theorem run_queued_promise_jobs_fifo (fuel : Nat) (vm : VM)
    (hfuel : Job.sizeList vm.m_promise_jobs ≤ fuel) :
    (∃ r, run_queued_promise_jobs fuel vm = some r ∧
        r.vm.m_promise_jobs = [] ∧
        r.vm = { vm with m_promise_jobs := [] } ∧
        r.executed = vm.m_promise_jobs ++ r.executed.flatMap Job.enqueues) ∧
      (run_queued_promise_jobs 4 (VM.with_jobs Job.J123)).map
          (fun r => (r.executed.map Job.id, r.vm.m_promise_jobs.map Job.id))
        = some ([1, 2, 3, 4], []) := by
  refine ⟨?_, rfl⟩
  obtain ⟨r, hr, hvm, hexec⟩ := run_queued_promise_jobs_impl_spec fuel vm hfuel
  refine ⟨r, ?_, ?_, hvm, hexec⟩
  · unfold run_queued_promise_jobs run_queued_promise_jobs_with
    split
    · rename_i hq
      have hnil : vm.m_promise_jobs = [] := by simpa using hq
      cases fuel with
      | zero =>
        simp only [run_queued_promise_jobs_impl, hq, if_true] at hr
        exact hr
      | succ n =>
        simp only [run_queued_promise_jobs_impl, hnil, Vector.take_first] at hr
        exact hr
    · exact hr
  · rw [hvm]

/-- Witness for C9: the queue J1, J2, J3 with J2 enqueuing J4, and fuel 4. -/
theorem run_queued_promise_jobs_fifo_witness :
    (∃ r, run_queued_promise_jobs 4 (VM.with_jobs Job.J123) = some r ∧
        r.vm.m_promise_jobs = [] ∧
        r.vm = { VM.with_jobs Job.J123 with m_promise_jobs := [] } ∧
        r.executed = (VM.with_jobs Job.J123).m_promise_jobs
          ++ r.executed.flatMap Job.enqueues) ∧
      (run_queued_promise_jobs 4 (VM.with_jobs Job.J123)).map
          (fun r => (r.executed.map Job.id, r.vm.m_promise_jobs.map Job.id))
        = some ([1, 2, 3, 4], []) :=
  run_queued_promise_jobs_fifo 4 (VM.with_jobs Job.J123) (by decide)

/-- C10: `run_queued_promise_jobs()` is a no-op when the promise job queue is
empty: whatever `run_queued_promise_jobs_impl` would do (even fail), it is not
consulted, no job is executed, nothing is reported, and the VM is returned
unchanged in every field. -/
theorem run_queued_promise_jobs_empty_noop (vm : VM) (hq : vm.m_promise_jobs = []) :
    (∀ (impl : VM → Option DrainResult),
        run_queued_promise_jobs_with impl vm = some ⟨[], [], vm⟩) ∧
      ∀ (fuel : Nat), run_queued_promise_jobs fuel vm = some ⟨[], [], vm⟩ := by
  have h : ∀ (impl : VM → Option DrainResult),
      run_queued_promise_jobs_with impl vm = some ⟨[], [], vm⟩ := by
    intro impl
    simp [run_queued_promise_jobs_with, hq]
  exact ⟨h, fun fuel => h _⟩

/-- Witness for C10: a VM with a context on the stack and no queued job, with a
drain body that would fail if it were called. -/
theorem run_queued_promise_jobs_empty_noop_witness :
    run_queued_promise_jobs_with (fun _ => none)
        (VM.with_stack 0 [ExecutionContext.of_realm 1])
      = some ⟨[], [], VM.with_stack 0 [ExecutionContext.of_realm 1]⟩ :=
  (run_queued_promise_jobs_empty_noop (VM.with_stack 0 [ExecutionContext.of_realm 1]) rfl).1
    (fun _ => none)

/-- C11: a promise job that returns a Throw completion has its thrown value
reported to the unhandled-error surface, and the drain does not stop for it: given
fuel for all jobs, the drain returns, the reported values are exactly the values
thrown by the executed jobs, in execution order, every queued job and every job
enqueued by an executed job (throwing or not) is executed, in enqueue order, and
the queue ends empty. With J1, J2, J3 where J2 enqueues J4 and throws, the drain
runs 1, 2, 3, 4 and reports the value thrown by J2. -/
theorem promise_job_throw_is_reported (fuel : Nat) (vm : VM)
    (hfuel : Job.sizeList vm.m_promise_jobs ≤ fuel) :
    (∃ r, run_queued_promise_jobs fuel vm = some r ∧
        r.reported = r.executed.filterMap Job.thrown ∧
        r.executed = vm.m_promise_jobs ++ r.executed.flatMap Job.enqueues ∧
        (∀ j ∈ vm.m_promise_jobs, j ∈ r.executed) ∧
        (∀ j ∈ r.executed, ∀ k ∈ j.enqueues, k ∈ r.executed) ∧
        r.vm.m_promise_jobs = []) ∧
      (run_queued_promise_jobs 4 (VM.with_jobs Job.J123_throwing)).map
          (fun r => (r.executed.map Job.id, r.reported))
        = some ([1, 2, 3, 4], [Value.other 42]) := by
  refine ⟨?_, rfl⟩
  obtain ⟨r, hr, _, _⟩ := run_queued_promise_jobs_impl_spec fuel vm hfuel
  obtain ⟨hvm, hexec, hrep⟩ := run_queued_promise_jobs_impl_sound fuel vm r hr
  refine ⟨r, ?_, hrep, hexec, ?_, ?_, ?_⟩
  · rw [run_queued_promise_jobs_eq_impl]
    exact hr
  · intro j hj
    rw [hexec]
    exact List.mem_append_left _ hj
  · intro j hj k hk
    rw [hexec]
    exact List.mem_append_right _ (List.mem_flatMap.2 ⟨j, hj, hk⟩)
  · rw [hvm]

/-- Witness for C11: the queue J1, J2, J3 with J2 enqueuing J4 and throwing. -/
theorem promise_job_throw_is_reported_witness :
    (∃ r, run_queued_promise_jobs 4 (VM.with_jobs Job.J123_throwing) = some r ∧
        r.reported = r.executed.filterMap Job.thrown ∧
        r.executed = (VM.with_jobs Job.J123_throwing).m_promise_jobs
          ++ r.executed.flatMap Job.enqueues ∧
        (∀ j ∈ (VM.with_jobs Job.J123_throwing).m_promise_jobs, j ∈ r.executed) ∧
        (∀ j ∈ r.executed, ∀ k ∈ j.enqueues, k ∈ r.executed) ∧
        r.vm.m_promise_jobs = []) ∧
      (run_queued_promise_jobs 4 (VM.with_jobs Job.J123_throwing)).map
          (fun r => (r.executed.map Job.id, r.reported))
        = some ([1, 2, 3, 4], [Value.other 42]) :=
  promise_job_throw_is_reported 4 (VM.with_jobs Job.J123_throwing) (by decide)

/-- C12 (as stated, refuted): a job is an arbitrary callback, so a promise job can
cause a cleanup entry to be enqueued, and the cleanup of a registry can enqueue a
promise job. With `J1, J2, J3` queued, where the callback of `J2` causes a cleanup
entry for registry 7 to be enqueued, the drain of the promise jobs returns and the
cleanup queue, empty before, holds 7; with registries 1, 2, 3 queued, where the
cleanup of 2 enqueues `J4`, the cleanup drain returns and the promise job queue,
empty before, holds `J4`. -/
theorem drain_changes_the_other_queue :
    (VM.with_jobs Job.J123).m_finalization_registry_cleanup_jobs = [] ∧
      (run_queued_promise_jobs_registering job_two_registers_seven 4
          (VM.with_jobs Job.J123)).map
          (fun r => (r.executed.map Job.id, r.vm.m_finalization_registry_cleanup_jobs))
        = some ([1, 2, 3, 4], [7]) ∧
      (run_queued_finalization_registry_cleanup_jobs cleanup_two_enqueues_four
          cleanup_two_schedules_job 4
          { VM.fresh 0 with m_finalization_registry_cleanup_jobs := [1, 2, 3] }).map
          (fun r => (r.executed, r.vm.m_promise_jobs.map Job.id))
        = some ([1, 2, 3, 4], [4]) :=
  ⟨rfl, rfl, rfl⟩

/-- C12 (amended): the finalization-registry cleanup queue is a separate FIFO list.
`enqueue_promise_job` leaves it unchanged, and
`enqueue_finalization_registry_cleanup_job` appends to it and leaves the promise job
queue unchanged. A drain takes from and empties its own queue only: with fuel for
the jobs, `run_queued_promise_jobs` returns and the cleanup queue is then the old
one followed by the entries that the executed jobs caused to be enqueued, in order,
so it is unchanged when they cause none; a returning cleanup drain leaves the
promise job queue as the old one followed by the jobs that the executed cleanups
enqueued, unchanged when they enqueue none, leaves everything else unchanged, leaves
the cleanup queue empty, and ran the entries in enqueue order including those
enqueued during the drain; and the cleanup drain returns whenever the cleanups
cannot enqueue each other for ever (a measure decreases) and the fuel covers the
queue. -/
theorem finalization_registry_queue_is_separate (vm : VM) :
    (∀ (job : Job) (realm : Option Realm),
        (enqueue_promise_job vm job realm).m_finalization_registry_cleanup_jobs
          = vm.m_finalization_registry_cleanup_jobs) ∧
      (∀ (registry : Nat),
        (enqueue_finalization_registry_cleanup_job vm registry).m_promise_jobs
            = vm.m_promise_jobs ∧
          (enqueue_finalization_registry_cleanup_job vm registry).m_finalization_registry_cleanup_jobs
            = vm.m_finalization_registry_cleanup_jobs ++ [registry]) ∧
      (∀ (registers : Job → List Nat) (fuel : Nat),
        Job.sizeList vm.m_promise_jobs ≤ fuel →
          ∃ r, run_queued_promise_jobs_registering registers fuel vm = some r ∧
            r.vm.m_promise_jobs = [] ∧
            r.executed = vm.m_promise_jobs ++ r.executed.flatMap Job.enqueues ∧
            r.vm.m_finalization_registry_cleanup_jobs
              = vm.m_finalization_registry_cleanup_jobs ++ r.executed.flatMap registers ∧
            ((∀ j ∈ r.executed, registers j = []) →
              r.vm.m_finalization_registry_cleanup_jobs
                = vm.m_finalization_registry_cleanup_jobs)) ∧
      (∀ (fuel : Nat),
        run_queued_promise_jobs_registering (fun _ => []) fuel vm
          = run_queued_promise_jobs fuel vm) ∧
      (∀ (cleanup : Nat → List Nat) (schedules : Nat → List Job) (fuel : Nat)
          (r : CleanupDrainResult),
        run_queued_finalization_registry_cleanup_jobs cleanup schedules fuel vm = some r →
          r.vm.m_promise_jobs = vm.m_promise_jobs ++ r.executed.flatMap schedules ∧
            ((∀ registry ∈ r.executed, schedules registry = []) →
              r.vm.m_promise_jobs = vm.m_promise_jobs) ∧
            r.vm = { vm with
              m_finalization_registry_cleanup_jobs := []
              m_promise_jobs := vm.m_promise_jobs ++ r.executed.flatMap schedules } ∧
            r.vm.m_finalization_registry_cleanup_jobs = [] ∧
            r.executed
              = vm.m_finalization_registry_cleanup_jobs ++ r.executed.flatMap cleanup) ∧
      (∀ (cleanup : Nat → List Nat) (schedules : Nat → List Job) (measure : Nat → Nat)
          (fuel : Nat),
        (∀ registry, ((cleanup registry).map measure).sum < measure registry) →
        (vm.m_finalization_registry_cleanup_jobs.map measure).sum ≤ fuel →
          ∃ r, run_queued_finalization_registry_cleanup_jobs cleanup schedules fuel vm
              = some r ∧
            r.vm.m_finalization_registry_cleanup_jobs = []) := by
  have hflat : ∀ {α β : Type} (xs : List α) (f : α → List β),
      (∀ x ∈ xs, f x = []) → xs.flatMap f = [] := by
    intro α β xs f h
    induction xs with
    | nil => rfl
    | cons x xs ih =>
      rw [List.flatMap_cons, h x (List.mem_cons_self _ _),
        ih (fun y hy => h y (List.mem_cons_of_mem _ hy))]
      rfl
  refine ⟨fun _ _ => rfl, fun _ => ⟨rfl, rfl⟩, ?_, ?_, ?_, ?_⟩
  · intro registers fuel hfuel
    obtain ⟨r, hr⟩ := run_queued_promise_jobs_impl_registering_total registers fuel vm hfuel
    obtain ⟨hvm, hexec⟩ := run_queued_promise_jobs_impl_registering_sound registers fuel vm r hr
    refine ⟨r, ?_, ?_, hexec, ?_, ?_⟩
    · rw [run_queued_promise_jobs_registering_eq_impl]
      exact hr
    · rw [hvm]
    · rw [hvm]
    · intro hnone
      rw [hvm]
      simp [hflat r.executed registers hnone]
  · intro fuel
    rw [run_queued_promise_jobs_registering_eq_impl, run_queued_promise_jobs_eq_impl,
      run_queued_promise_jobs_impl_registering_nothing]
  · intro cleanup schedules fuel r hr
    obtain ⟨hvm, hexec⟩ :=
      run_queued_finalization_registry_cleanup_jobs_sound cleanup schedules fuel vm r hr
    refine ⟨?_, ?_, hvm, ?_, hexec⟩
    · rw [hvm]
    · intro hnone
      rw [hvm]
      simp [hflat r.executed schedules hnone]
    · rw [hvm]
  · intro cleanup schedules measure fuel hdec hfuel
    obtain ⟨r, hr⟩ :=
      run_queued_finalization_registry_cleanup_jobs_total cleanup schedules measure hdec
        fuel vm hfuel
    refine ⟨r, hr, ?_⟩
    rw [(run_queued_finalization_registry_cleanup_jobs_sound cleanup schedules fuel vm r hr).1]

/-- Witness for C12: registries 1, 2, 3 queued, the cleanup of 2 enqueuing 4 and
scheduling `J4`: the drain returns with fuel 4 and its queue is empty; and the drain
of `J1, J2, J3` on a VM that holds cleanup entries 1, 2, 3 returns, the callback of
`J2` registering 7, with the cleanup queue 1, 2, 3, 7. -/
theorem finalization_registry_queue_is_separate_witness :
    (∃ r, run_queued_finalization_registry_cleanup_jobs cleanup_two_enqueues_four
          cleanup_two_schedules_job 4
          { VM.fresh 0 with m_finalization_registry_cleanup_jobs := [1, 2, 3] } = some r ∧
        r.vm.m_finalization_registry_cleanup_jobs = []) ∧
      (∃ r, run_queued_promise_jobs_registering job_two_registers_seven 4
          { VM.with_jobs Job.J123 with m_finalization_registry_cleanup_jobs := [1, 2, 3] }
            = some r ∧
        r.vm.m_promise_jobs = [] ∧
        r.vm.m_finalization_registry_cleanup_jobs
          = [1, 2, 3] ++ r.executed.flatMap job_two_registers_seven) :=
  ⟨(finalization_registry_queue_is_separate
        { VM.fresh 0 with m_finalization_registry_cleanup_jobs := [1, 2, 3] }).2.2.2.2.2
      cleanup_two_enqueues_four cleanup_two_schedules_job cleanup_two_enqueues_four_measure 4
      (by
        intro registry
        by_cases h : registry = 2
        · subst h; decide
        · simp [cleanup_two_enqueues_four, cleanup_two_enqueues_four_measure, h])
      (by decide),
    by
      obtain ⟨r, hr, hq, _, hc, _⟩ := (finalization_registry_queue_is_separate
        { VM.with_jobs Job.J123 with m_finalization_registry_cleanup_jobs := [1, 2, 3] }).2.2.1
        job_two_registers_seven 4 (by decide)
      exact ⟨r, hr, hq, hc⟩⟩

/-! ## Preallocated strings and throw completions -/

/-- C17: the table of preallocated single-character strings has exactly 128 slots;
`single_ascii_character_string(ch)` returns the slot at index `ch`, which is within
the table, for every `ch < 0x80`, and fails its `VERIFY` for every `ch >= 0x80`, so
the table is never indexed out of range. -/
theorem single_ascii_character_string_spec (caches : InternCaches) :
    caches.m_single_ascii_character_strings.length = 128 ∧
      (∀ ch, ch < 0x80 →
        ∃ (h : ch < caches.m_single_ascii_character_strings.length),
          single_ascii_character_string caches ch
            = some (caches.m_single_ascii_character_strings.get ⟨ch, h⟩)) ∧
      (∀ ch, 0x80 ≤ ch → single_ascii_character_string caches ch = none) := by
  refine ⟨caches.table_size, ?_, ?_⟩
  · intro ch hch
    have hlen : ch < caches.m_single_ascii_character_strings.length := by
      rw [caches.table_size]; omega
    refine ⟨hlen, ?_⟩
    simp [single_ascii_character_string, hch]
  · intro ch hch
    have : ¬ ch < 0x80 := by omega
    simp [single_ascii_character_string, this]

/-- Witness for C17: character 65 is served from slot 65, character 128 is refused. -/
theorem single_ascii_character_string_spec_witness :
    (∃ (h : 65 < InternCaches.initial.m_single_ascii_character_strings.length),
        single_ascii_character_string InternCaches.initial 65
          = some (InternCaches.initial.m_single_ascii_character_strings.get ⟨65, h⟩)) ∧
      single_ascii_character_string InternCaches.initial 128 = none :=
  ⟨(single_ascii_character_string_spec InternCaches.initial).2.1 65 (by decide),
    (single_ascii_character_string_spec InternCaches.initial).2.2 128 (by decide)⟩

/-- C18: for every error class `T` and message, `throw_completion<T>` needs a
non-empty execution context stack (on an empty one it fails the `VERIFY` of
`running_execution_context`); on a non-empty stack it returns a completion tagged
`Throw`, no other tag, whose value is a `T` error object created in the realm of
the running execution context. The same holds for the overload taking an
`ErrorType` (message `type.message()`) and for the overload that formats the
message from the error type and arguments: on a non-empty stack, when the formatter
delivers the text, it returns the `Throw` completion carrying the `T` error object
of the running realm with that text, and it fails to return only on an empty stack
or where `MUST` aborts on a failed formatter. -/
theorem throw_completion_spec (vm : VM) (T : ErrorClass) (message : String) :
    (throw_completion vm T message = none ↔ vm.m_execution_context_stack = []) ∧
      (∀ (s : List ExecutionContext) (c : ExecutionContext),
        vm.m_execution_context_stack = s ++ [c] →
          running_execution_context vm = some c ∧
          current_realm vm = some c.realm ∧
          throw_completion vm T message
            = some ⟨CompletionType.Throw, Value.error_object T c.realm message⟩) ∧
      (∀ completion, throw_completion vm T message = some completion →
        completion.type = CompletionType.Throw ∧
          completion.type ≠ CompletionType.Normal ∧
          completion.type ≠ CompletionType.Return ∧
          completion.type ≠ CompletionType.Break ∧
          completion.type ≠ CompletionType.Continue ∧
          ∃ realm, current_realm vm = some realm ∧
            completion.value = Value.error_object T realm message) ∧
      (∀ (type : ErrorType),
        throw_completion_of_type vm T type = throw_completion vm T type.message) ∧
      (∀ (formatted : String → List String → Option String) (type : ErrorType)
          (args : List String) (completion : Completion),
        throw_completion_formatted formatted vm T type args = some completion →
          completion.type = CompletionType.Throw ∧
            ∃ realm text, current_realm vm = some realm ∧
              formatted type.message args = some text ∧
              completion.value = Value.error_object T realm text) ∧
      (∀ (formatted : String → List String → Option String) (type : ErrorType)
          (args : List String) (s : List ExecutionContext) (c : ExecutionContext)
          (text : String),
        vm.m_execution_context_stack = s ++ [c] →
        formatted type.message args = some text →
          throw_completion_formatted formatted vm T type args
            = some ⟨CompletionType.Throw, Value.error_object T c.realm text⟩) ∧
      (∀ (formatted : String → List String → Option String) (type : ErrorType)
          (args : List String),
        throw_completion_formatted formatted vm T type args = none ↔
          (vm.m_execution_context_stack = [] ∨ formatted type.message args = none)) ∧
      (∀ (type : ErrorType) (s : List ExecutionContext) (c : ExecutionContext),
        vm.m_execution_context_stack = s ++ [c] →
          throw_completion_of_type vm T type
            = some ⟨CompletionType.Throw, Value.error_object T c.realm type.message⟩) := by
  have hsnoc : ∀ (s : List ExecutionContext) (c : ExecutionContext) (m : String),
      vm.m_execution_context_stack = s ++ [c] →
        running_execution_context vm = some c ∧
        current_realm vm = some c.realm ∧
        throw_completion vm T m
          = some ⟨CompletionType.Throw, Value.error_object T c.realm m⟩ := by
    intro s c m hs
    have hrun := running_execution_context_concat vm s c hs
    refine ⟨hrun, ?_, ?_⟩
    · simp [current_realm, hrun]
    · simp [throw_completion, current_realm, hrun, throw_completion_value]
  have hsome : ∀ (m : String) (completion : Completion),
      throw_completion vm T m = some completion →
        completion.type = CompletionType.Throw ∧
          ∃ realm, current_realm vm = some realm ∧
            completion.value = Value.error_object T realm m := by
    intro m completion hc
    rcases Vector.nil_or_snoc vm.m_execution_context_stack with hs | ⟨s, c, hs⟩
    · simp [throw_completion, current_realm, running_execution_context, hs] at hc
    · obtain ⟨_, hrealm, hthrow⟩ := hsnoc s c m hs
      rw [hthrow] at hc
      cases hc
      exact ⟨rfl, c.realm, hrealm, rfl⟩
  have hnone : ∀ (m : String),
      throw_completion vm T m = none ↔ vm.m_execution_context_stack = [] := by
    intro m
    constructor
    · intro hnone
      rcases Vector.nil_or_snoc vm.m_execution_context_stack with hs | ⟨s, c, hs⟩
      · exact hs
      · rw [(hsnoc s c m hs).2.2] at hnone
        cases hnone
    · intro hs
      simp [throw_completion, current_realm, running_execution_context, hs]
  refine ⟨hnone message, fun s c hs => hsnoc s c message hs, ?_, fun _ => rfl, ?_, ?_, ?_,
    fun type s c hs => (hsnoc s c type.message hs).2.2⟩
  · intro completion hc
    obtain ⟨htype, hrest⟩ := hsome message completion hc
    refine ⟨htype, ?_, ?_, ?_, ?_, hrest⟩ <;> rw [htype] <;> decide
  · intro formatted type args completion hc
    unfold throw_completion_formatted at hc
    cases hfmt : formatted type.message args with
    | none => simp [hfmt] at hc
    | some text =>
      simp only [hfmt] at hc
      obtain ⟨htype, realm, hrealm, hvalue⟩ := hsome text completion hc
      exact ⟨htype, realm, text, hrealm, rfl, hvalue⟩
  · intro formatted type args s c text hs hfmt
    unfold throw_completion_formatted
    rw [hfmt]
    exact (hsnoc s c text hs).2.2
  · intro formatted type args
    unfold throw_completion_formatted
    cases hfmt : formatted type.message args with
    | none => simp
    | some text => simp [hnone text]

/-- Witness for C18: a `TypeError` thrown with realm 3 running, by the overload
taking the message and by the overload that formats it. -/
theorem throw_completion_spec_witness :
    (running_execution_context (VM.with_stack 0 [ExecutionContext.of_realm 3])
        = some (ExecutionContext.of_realm 3) ∧
      current_realm (VM.with_stack 0 [ExecutionContext.of_realm 3])
        = some (ExecutionContext.of_realm 3).realm ∧
      throw_completion (VM.with_stack 0 [ExecutionContext.of_realm 3])
          ErrorClass.TypeError "not a function"
        = some ⟨CompletionType.Throw,
            Value.error_object ErrorClass.TypeError (ExecutionContext.of_realm 3).realm
              "not a function"⟩) ∧
      throw_completion_formatted (fun template args => some (template ++ String.join args))
          (VM.with_stack 0 [ExecutionContext.of_realm 3]) ErrorClass.TypeError
          ⟨"not a function: "⟩ ["f"]
        = some ⟨CompletionType.Throw,
            Value.error_object ErrorClass.TypeError (ExecutionContext.of_realm 3).realm
              "not a function: f"⟩ :=
  ⟨(throw_completion_spec (VM.with_stack 0 [ExecutionContext.of_realm 3])
      ErrorClass.TypeError "not a function").2.1 [] (ExecutionContext.of_realm 3) rfl,
    (throw_completion_spec (VM.with_stack 0 [ExecutionContext.of_realm 3])
      ErrorClass.TypeError "not a function").2.2.2.2.2.1
      (fun template args => some (template ++ String.join args)) ⟨"not a function: "⟩ ["f"]
      [] (ExecutionContext.of_realm 3) "not a function: f" rfl (by decide)⟩

/-! ## Intern caches and roots -/

/-- C16: interning is stable and injective on content: over any sequence of
interning requests on well-formed caches (each request names its cache, 8-bit or
wide, and its content), two requests are answered with the same cell if and only
if they are the same request; in particular interning equal content twice in one
cache returns the same cell and interning different contents never does. The caches
stay well formed, and repeating a request at once returns the same cell. -/
theorem intern_is_stable_and_injective (caches : InternCaches) (hwf : caches.well_formed)
    (requests : List InternRequest) :
    (intern_all requests caches).1.length = requests.length ∧
      (∀ p ∈ requests.zip (intern_all requests caches).1,
        ∀ q ∈ requests.zip (intern_all requests caches).1,
          (p.2 = q.2 ↔ p.1 = q.1)) ∧
      (intern_all requests caches).2.well_formed ∧
      ∀ request, (intern (intern caches request).2 request).1 = (intern caches request).1 := by
  obtain ⟨hwf2, _, hzip⟩ := intern_all_lookup requests caches hwf
  refine ⟨intern_all_length requests caches, ?_, hwf2, ?_⟩
  · intro p hp q hq
    have h1 := hzip p hp
    have h2 := hzip q hq
    constructor
    · intro hcell
      rw [← hcell] at h2
      exact hwf2.2 p.1 q.1 p.2 h1 h2
    · intro hreq
      rw [hreq, h2] at h1
      exact (Option.some.inj h1).symm
  · intro request
    cases hlook : caches.lookup request with
    | some cell => simp [intern, hlook]
    | none => simp [intern, hlook, InternCaches.lookup_insert_fresh_self]

/-- Witness for C16: on the initial caches, 8-bit `a`, wide `a`, 8-bit `b` and
8-bit `a` again are answered with cells 129, 130, 131 and 129. -/
theorem intern_is_stable_and_injective_witness :
    ((intern_all [InternRequest.latin "a", InternRequest.wide [97], InternRequest.latin "b",
          InternRequest.latin "a"] InternCaches.initial).1.length
        = [InternRequest.latin "a", InternRequest.wide [97], InternRequest.latin "b",
          InternRequest.latin "a"].length ∧
      (∀ p ∈ [InternRequest.latin "a", InternRequest.wide [97], InternRequest.latin "b",
            InternRequest.latin "a"].zip
          (intern_all [InternRequest.latin "a", InternRequest.wide [97],
            InternRequest.latin "b", InternRequest.latin "a"] InternCaches.initial).1,
        ∀ q ∈ [InternRequest.latin "a", InternRequest.wide [97], InternRequest.latin "b",
            InternRequest.latin "a"].zip
          (intern_all [InternRequest.latin "a", InternRequest.wide [97],
            InternRequest.latin "b", InternRequest.latin "a"] InternCaches.initial).1,
          (p.2 = q.2 ↔ p.1 = q.1)) ∧
      (intern_all [InternRequest.latin "a", InternRequest.wide [97], InternRequest.latin "b",
          InternRequest.latin "a"] InternCaches.initial).2.well_formed ∧
      ∀ request, (intern (intern InternCaches.initial request).2 request).1
        = (intern InternCaches.initial request).1) ∧
    (intern_all [InternRequest.latin "a", InternRequest.wide [97], InternRequest.latin "b",
        InternRequest.latin "a"] InternCaches.initial).1 = [129, 130, 131, 129] :=
  ⟨intern_is_stable_and_injective InternCaches.initial InternCaches.initial_well_formed
      [InternRequest.latin "a", InternRequest.wide [97], InternRequest.latin "b",
        InternRequest.latin "a"],
    by decide⟩

/-! ### Root insertion -/

theorem insert_roots_get (cells : List Cell) :
    ∀ (roots : HashMap Cell HeapRoot) (cell : Cell),
      HashMap.get (insert_roots cells roots) cell
        = if cell ∈ cells then some HeapRoot.VM else HashMap.get roots cell := by
  induction cells with
  | nil => intro roots cell; simp [insert_roots]
  | cons c cs ih =>
    intro roots cell
    have hstep : insert_roots (c :: cs) roots
        = insert_roots cs (HashMap.set roots c HeapRoot.VM) := rfl
    rw [hstep, ih]
    by_cases hcs : cell ∈ cs
    · simp [hcs]
    · by_cases hc : cell = c
      · subst hc
        simp [hcs, HashMap.get_set_self]
      · simp [hcs, hc, HashMap.get_set_other _ _ _ _ hc]

theorem insert_roots_append (xs ys : List Cell) (roots : HashMap Cell HeapRoot) :
    insert_roots ys (insert_roots xs roots) = insert_roots (xs ++ ys) roots := by
  simp [insert_roots, List.foldl_append]

theorem gather_roots_from_execution_context_stack_eq (stack : List ExecutionContext) :
    ∀ (roots : HashMap Cell HeapRoot),
      gather_roots_from_execution_context_stack stack roots
        = insert_roots (stack.flatMap ExecutionContext.cells) roots := by
  induction stack with
  | nil => intro roots; rfl
  | cons c rest ih =>
    intro roots
    have hstep : gather_roots_from_execution_context_stack (c :: rest) roots
        = gather_roots_from_execution_context_stack rest (insert_roots c.cells roots) := rfl
    rw [hstep, ih, insert_roots_append, List.flatMap_cons]

theorem gather_roots_from_saved_stacks_eq (saved : List (List ExecutionContext)) :
    ∀ (roots : HashMap Cell HeapRoot),
      saved.foldl (fun o stack => insert_roots (stack.flatMap ExecutionContext.cells) o) roots
        = insert_roots (saved.flatMap (fun stack => stack.flatMap ExecutionContext.cells))
            roots := by
  induction saved with
  | nil => intro roots; rfl
  | cons stack rest ih =>
    intro roots
    rw [List.foldl_cons, ih, insert_roots_append, List.flatMap_cons]

theorem ExecutionContext.mem_cells (c : ExecutionContext) (cell : Cell) :
    cell ∈ c.cells ↔ c.holds cell := by
  unfold ExecutionContext.cells ExecutionContext.holds
  simp only [List.mem_cons, List.mem_append, List.mem_map, Option.mem_toList,
    Option.mem_def, List.mem_filterMap]
  constructor
  · rintro (h | ((((⟨f, hf, rfl⟩ | ⟨env, he, rfl⟩) | ⟨env, he, rfl⟩)) | ⟨v, hv | hv, hcell⟩))
    · exact Or.inl h
    · exact Or.inr (Or.inl ⟨f, hf, rfl⟩)
    · exact Or.inr (Or.inr (Or.inl ⟨env, he, rfl⟩))
    · exact Or.inr (Or.inr (Or.inr (Or.inl ⟨env, he, rfl⟩)))
    · exact Or.inr (Or.inr (Or.inr (Or.inr (Or.inl ⟨v, hv, hcell⟩))))
    · exact Or.inr (Or.inr (Or.inr (Or.inr (Or.inr ⟨v, hv, hcell⟩))))
  · rintro (h | ⟨f, hf, rfl⟩ | ⟨env, he, rfl⟩ | ⟨env, he, rfl⟩ | ⟨v, hv, hcell⟩ | ⟨v, hv, hcell⟩)
    · exact Or.inl h
    · exact Or.inr (Or.inl (Or.inl (Or.inl ⟨f, hf, rfl⟩)))
    · exact Or.inr (Or.inl (Or.inl (Or.inr ⟨env, he, rfl⟩)))
    · exact Or.inr (Or.inl (Or.inr ⟨env, he, rfl⟩))
    · exact Or.inr (Or.inr ⟨v, Or.inl hv, hcell⟩)
    · exact Or.inr (Or.inr ⟨v, Or.inr hv, hcell⟩)

/-- All the cells that `gather_roots` inserts, in the order of insertion. -/
theorem gather_roots_eq (vm : VM) (caches : InternCaches) (roots : HashMap Cell HeapRoot) :
    gather_roots vm caches roots
      = insert_roots
          (vm.m_execution_context_stack.flatMap ExecutionContext.cells
            ++ vm.m_saved_execution_context_stacks.flatMap
                (fun stack => stack.flatMap ExecutionContext.cells)
            ++ caches.m_string_cache.map (fun e => Cell.primitive_string e.2)
            ++ caches.m_utf16_string_cache.map (fun e => Cell.primitive_string e.2)
            ++ (Cell.primitive_string caches.m_empty_string
                :: caches.m_single_ascii_character_strings.map Cell.primitive_string)
            ++ caches.m_well_known_symbols.map Cell.symbol
            ++ vm.m_loaded_modules.flatMap
                (fun e => [Cell.referrer e.referrer, Cell.module e.module])
            ++ vm.m_promise_jobs.map (fun j => Cell.job_function j.id)
            ++ vm.m_finalization_registry_cleanup_jobs.map Cell.finalization_registry)
          roots := by
  simp only [gather_roots, gather_roots_from_execution_context_stack_eq,
    gather_roots_from_saved_stacks_eq, insert_roots_append]

theorem mem_gathered_cells (vm : VM) (caches : InternCaches) (cell : Cell) :
    cell ∈ (vm.m_execution_context_stack.flatMap ExecutionContext.cells
            ++ vm.m_saved_execution_context_stacks.flatMap
                (fun stack => stack.flatMap ExecutionContext.cells)
            ++ caches.m_string_cache.map (fun e => Cell.primitive_string e.2)
            ++ caches.m_utf16_string_cache.map (fun e => Cell.primitive_string e.2)
            ++ (Cell.primitive_string caches.m_empty_string
                :: caches.m_single_ascii_character_strings.map Cell.primitive_string)
            ++ caches.m_well_known_symbols.map Cell.symbol
            ++ vm.m_loaded_modules.flatMap
                (fun e => [Cell.referrer e.referrer, Cell.module e.module])
            ++ vm.m_promise_jobs.map (fun j => Cell.job_function j.id)
            ++ vm.m_finalization_registry_cleanup_jobs.map Cell.finalization_registry)
      ↔ holds_cell vm caches cell := by
  unfold holds_cell
  simp only [List.mem_append, List.mem_flatMap, List.mem_map, List.mem_cons,
    ExecutionContext.mem_cells, List.mem_singleton, List.not_mem_nil, or_false]
  constructor
  · rintro ((((((((⟨c, hc, h⟩ | ⟨stack, hs, c, hc, h⟩) | ⟨e, he, rfl⟩) | ⟨e, he, rfl⟩) |
      (h | ⟨id, hid, rfl⟩)) | ⟨sym, hsym, rfl⟩) | ⟨e, he, h⟩) | ⟨j, hj, rfl⟩) | ⟨r, hr, rfl⟩)
    · exact Or.inl ⟨c, hc, h⟩
    · exact Or.inr (Or.inl ⟨stack, c, hs, hc, h⟩)
    · exact Or.inr (Or.inr (Or.inl ⟨e, he, rfl⟩))
    · exact Or.inr (Or.inr (Or.inr (Or.inl ⟨e, he, rfl⟩)))
    · exact Or.inr (Or.inr (Or.inr (Or.inr (Or.inl h))))
    · exact Or.inr (Or.inr (Or.inr (Or.inr (Or.inr (Or.inl ⟨id, hid, rfl⟩)))))
    · exact Or.inr (Or.inr (Or.inr (Or.inr (Or.inr (Or.inr (Or.inl ⟨sym, hsym, rfl⟩))))))
    · exact Or.inr (Or.inr (Or.inr (Or.inr (Or.inr (Or.inr (Or.inr (Or.inl ⟨e, he, h⟩)))))))
    · exact Or.inr (Or.inr (Or.inr (Or.inr (Or.inr (Or.inr (Or.inr (Or.inr
        (Or.inl ⟨j, hj, rfl⟩))))))))
    · exact Or.inr (Or.inr (Or.inr (Or.inr (Or.inr (Or.inr (Or.inr (Or.inr
        (Or.inr ⟨r, hr, rfl⟩))))))))
  · rintro (⟨c, hc, h⟩ | ⟨stack, c, hs, hc, h⟩ | ⟨e, he, rfl⟩ | ⟨e, he, rfl⟩ | h |
      ⟨id, hid, rfl⟩ | ⟨sym, hsym, rfl⟩ | ⟨e, he, h⟩ | ⟨j, hj, rfl⟩ | ⟨r, hr, rfl⟩)
    · exact Or.inl (Or.inl (Or.inl (Or.inl (Or.inl (Or.inl (Or.inl (Or.inl ⟨c, hc, h⟩)))))))
    · exact Or.inl (Or.inl (Or.inl (Or.inl (Or.inl (Or.inl (Or.inl
        (Or.inr ⟨stack, hs, c, hc, h⟩)))))))
    · exact Or.inl (Or.inl (Or.inl (Or.inl (Or.inl (Or.inl (Or.inr ⟨e, he, rfl⟩))))))
    · exact Or.inl (Or.inl (Or.inl (Or.inl (Or.inl (Or.inr ⟨e, he, rfl⟩)))))
    · exact Or.inl (Or.inl (Or.inl (Or.inl (Or.inr (Or.inl h)))))
    · exact Or.inl (Or.inl (Or.inl (Or.inl (Or.inr (Or.inr ⟨id, hid, rfl⟩)))))
    · exact Or.inl (Or.inl (Or.inl (Or.inr ⟨sym, hsym, rfl⟩)))
    · exact Or.inl (Or.inl (Or.inr ⟨e, he, h⟩))
    · exact Or.inl (Or.inr ⟨j, hj, rfl⟩)
    · exact Or.inr ⟨r, hr, rfl⟩

/-- C19: `gather_roots(out)` inserts every cell directly reachable from the active
execution context stack, from every saved execution context stack, from both intern
caches, from the well-known-symbol table, from the loaded-module cache and from both
job queues: afterwards `out` has an entry, recorded as a root of the VM, for every
cell held by one of those structures (for a context: its realm, function, lexical
and variable environment, `this` value and arguments), so none is missing; and it
has nothing else new: the entry of a cell that none of them holds is what it was. -/
theorem gather_roots_is_complete (vm : VM) (caches : InternCaches)
    (roots : HashMap Cell HeapRoot) :
    (∀ cell, holds_cell vm caches cell →
        HashMap.get (gather_roots vm caches roots) cell = some HeapRoot.VM) ∧
      (∀ cell, ¬ holds_cell vm caches cell →
        HashMap.get (gather_roots vm caches roots) cell = HashMap.get roots cell) ∧
      (∀ cell, (HashMap.get (gather_roots vm caches roots) cell).isSome = true ↔
        ((HashMap.get roots cell).isSome = true ∨ holds_cell vm caches cell)) ∧
      (∀ c ∈ vm.m_execution_context_stack,
        HashMap.get (gather_roots vm caches roots) (Cell.realm c.realm) = some HeapRoot.VM ∧
        (∀ f, c.function = some f →
          HashMap.get (gather_roots vm caches roots) (Cell.function_object f)
            = some HeapRoot.VM) ∧
        (∀ env, c.lexical_environment = some env →
          HashMap.get (gather_roots vm caches roots) (Cell.environment env)
            = some HeapRoot.VM) ∧
        (∀ env, c.variable_environment = some env →
          HashMap.get (gather_roots vm caches roots) (Cell.environment env)
            = some HeapRoot.VM) ∧
        (∀ v cell, c.this_value = some v → v.cell = some cell →
          HashMap.get (gather_roots vm caches roots) cell = some HeapRoot.VM) ∧
        (∀ v cell, v ∈ c.arguments → v.cell = some cell →
          HashMap.get (gather_roots vm caches roots) cell = some HeapRoot.VM)) ∧
      (∀ stack ∈ vm.m_saved_execution_context_stacks, ∀ c ∈ stack, ∀ cell, c.holds cell →
        HashMap.get (gather_roots vm caches roots) cell = some HeapRoot.VM) ∧
      (∀ e ∈ caches.m_string_cache,
        HashMap.get (gather_roots vm caches roots) (Cell.primitive_string e.2)
          = some HeapRoot.VM) ∧
      (∀ e ∈ caches.m_utf16_string_cache,
        HashMap.get (gather_roots vm caches roots) (Cell.primitive_string e.2)
          = some HeapRoot.VM) ∧
      (∀ sym ∈ caches.m_well_known_symbols,
        HashMap.get (gather_roots vm caches roots) (Cell.symbol sym) = some HeapRoot.VM) ∧
      (∀ e ∈ vm.m_loaded_modules,
        HashMap.get (gather_roots vm caches roots) (Cell.module e.module) = some HeapRoot.VM ∧
        HashMap.get (gather_roots vm caches roots) (Cell.referrer e.referrer)
          = some HeapRoot.VM) ∧
      (∀ j ∈ vm.m_promise_jobs,
        HashMap.get (gather_roots vm caches roots) (Cell.job_function j.id)
          = some HeapRoot.VM) ∧
      (∀ registry ∈ vm.m_finalization_registry_cleanup_jobs,
        HashMap.get (gather_roots vm caches roots) (Cell.finalization_registry registry)
          = some HeapRoot.VM) := by
  have hheld : ∀ cell, holds_cell vm caches cell →
      HashMap.get (gather_roots vm caches roots) cell = some HeapRoot.VM := by
    intro cell h
    rw [gather_roots_eq, insert_roots_get, if_pos ((mem_gathered_cells vm caches cell).2 h)]
  have hother : ∀ cell, ¬ holds_cell vm caches cell →
      HashMap.get (gather_roots vm caches roots) cell = HashMap.get roots cell := by
    intro cell h
    rw [gather_roots_eq, insert_roots_get,
      if_neg (fun hmem => h ((mem_gathered_cells vm caches cell).1 hmem))]
  have hstack : ∀ c ∈ vm.m_execution_context_stack, ∀ cell, c.holds cell →
      HashMap.get (gather_roots vm caches roots) cell = some HeapRoot.VM :=
    fun c hc cell h => hheld cell (Or.inl ⟨c, hc, h⟩)
  refine ⟨hheld, hother, ?_, ?_, ?_, ?_, ?_, ?_, ?_, ?_, ?_⟩
  · intro cell
    by_cases h : holds_cell vm caches cell
    · simp [hheld cell h, h]
    · simp [hother cell h, h]
  · intro c hc
    refine ⟨hstack c hc _ (Or.inl rfl), ?_, ?_, ?_, ?_, ?_⟩
    · intro f hf
      exact hstack c hc _ (Or.inr (Or.inl ⟨f, hf, rfl⟩))
    · intro env he
      exact hstack c hc _ (Or.inr (Or.inr (Or.inl ⟨env, he, rfl⟩)))
    · intro env he
      exact hstack c hc _ (Or.inr (Or.inr (Or.inr (Or.inl ⟨env, he, rfl⟩))))
    · intro v cell hv hcell
      exact hstack c hc _ (Or.inr (Or.inr (Or.inr (Or.inr (Or.inl ⟨v, hv, hcell⟩)))))
    · intro v cell hv hcell
      exact hstack c hc _ (Or.inr (Or.inr (Or.inr (Or.inr (Or.inr ⟨v, hv, hcell⟩)))))
  · intro stack hs c hc cell h
    exact hheld cell (Or.inr (Or.inl ⟨stack, c, hs, hc, h⟩))
  · intro e he
    exact hheld _ (Or.inr (Or.inr (Or.inl ⟨e, he, rfl⟩)))
  · intro e he
    exact hheld _ (Or.inr (Or.inr (Or.inr (Or.inl ⟨e, he, rfl⟩))))
  · intro sym hsym
    exact hheld _ (Or.inr (Or.inr (Or.inr (Or.inr (Or.inr (Or.inr (Or.inl ⟨sym, hsym, rfl⟩)))))))
  · intro e he
    exact ⟨hheld _ (Or.inr (Or.inr (Or.inr (Or.inr (Or.inr (Or.inr (Or.inr
        (Or.inl ⟨e, he, Or.inr rfl⟩)))))))),
      hheld _ (Or.inr (Or.inr (Or.inr (Or.inr (Or.inr (Or.inr (Or.inr
        (Or.inl ⟨e, he, Or.inl rfl⟩))))))))⟩
  · intro j hj
    exact hheld _ (Or.inr (Or.inr (Or.inr (Or.inr (Or.inr (Or.inr (Or.inr (Or.inr
      (Or.inl ⟨j, hj, rfl⟩)))))))))
  · intro registry hr
    exact hheld _ (Or.inr (Or.inr (Or.inr (Or.inr (Or.inr (Or.inr (Or.inr (Or.inr
      (Or.inr ⟨registry, hr, rfl⟩)))))))))

/-- Witness for C19: on a populated VM the lexical environment and an argument of
the running context, the function of a saved context, an interned wide string, the
cached module and the queued registry are all recorded as roots of the VM. -/
theorem gather_roots_is_complete_witness :
    HashMap.get (gather_roots VM.populated InternCaches.populated []) (Cell.environment 31)
        = some HeapRoot.VM ∧
      HashMap.get (gather_roots VM.populated InternCaches.populated []) (Cell.object 34)
        = some HeapRoot.VM ∧
      HashMap.get (gather_roots VM.populated InternCaches.populated [])
          (Cell.function_object 10) = some HeapRoot.VM ∧
      HashMap.get (gather_roots VM.populated InternCaches.populated [])
          (Cell.primitive_string 130) = some HeapRoot.VM ∧
      HashMap.get (gather_roots VM.populated InternCaches.populated []) (Cell.module 5)
        = some HeapRoot.VM ∧
      HashMap.get (gather_roots VM.populated InternCaches.populated [])
          (Cell.finalization_registry 7) = some HeapRoot.VM :=
  ⟨((gather_roots_is_complete VM.populated InternCaches.populated []).2.2.2.1
      ExecutionContext.populated (by decide)).2.2.1 31 rfl,
    ((gather_roots_is_complete VM.populated InternCaches.populated []).2.2.2.1
      ExecutionContext.populated (by decide)).2.2.2.2.2 (Value.object 34) (Cell.object 34)
      (by decide) rfl,
    (gather_roots_is_complete VM.populated InternCaches.populated []).2.2.2.2.1
      [{ realm := 1, function := some 10, is_strict_mode := false }] (by decide)
      { realm := 1, function := some 10, is_strict_mode := false } (by decide)
      (Cell.function_object 10) (Or.inr (Or.inl ⟨10, rfl, rfl⟩)),
    (gather_roots_is_complete VM.populated InternCaches.populated []).2.2.2.2.2.2.1
      ([0x3b1, 0x3b2], 130) (by decide),
    ((gather_roots_is_complete VM.populated InternCaches.populated []).2.2.2.2.2.2.2.2.1
      ⟨0, "m.js", "javascript", 5, true⟩ (by decide)).1,
    (gather_roots_is_complete VM.populated InternCaches.populated []).2.2.2.2.2.2.2.2.2.2
      7 (by decide)⟩

/-! ## Module cache and linker -/

/-- C13: loading the same module key twice returns the identical module node and
invokes the loader hook once. On a miss that the host serves, the new cache entry
starts with `has_once_started_linking = false` and the hook has been invoked once;
once linking of it has begun (node in `Linking`, not yet finished) a lookup sees the
flag set, and a second request for the key arriving then returns the same node and
changes nothing (no hook call, no relinking). And when a whole load of the key has
returned a node, the entry is flagged, any further load of the key returns that
same node and changes nothing, and the hook was invoked for the key at most once. -/
theorem module_load_is_cached (host : ModuleKey → Except Value ModuleSource)
    (key : ModuleKey) (st : Linker) :
    (∀ source, get_stored_module st.vm key = none → host key = Except.ok source →
      ∃ st1 st2,
        load_module_entry host key st = (Except.ok st.nodes.length, st1) ∧
        get_stored_module st1.vm key
          = some ⟨key.referrer, key.filename, key.type, st.nodes.length, false⟩ ∧
        st1.loader_calls = st.loader_calls ++ [key] ∧
        begin_linking st1 key st.nodes.length = some st2 ∧
        (∃ e, get_stored_module st2.vm key = some e ∧ e.module = st.nodes.length ∧
          e.has_once_started_linking = true) ∧
        st2.status st.nodes.length = some ModuleStatus.Linking ∧
        ∀ fuel, load_imported_module host (fuel + 1) key st2
          = Outcome.returned (Except.ok st.nodes.length, st2)) ∧
      (∀ fuel node st1,
        load_imported_module host fuel key st = Outcome.returned (Except.ok node, st1) →
          (∃ e, get_stored_module st1.vm key = some e ∧ e.module = node ∧
            e.has_once_started_linking = true) ∧
          (∀ fuel2, load_imported_module host (fuel2 + 1) key st1
            = Outcome.returned (Except.ok node, st1)) ∧
          ∃ extra, st1.loader_calls = st.loader_calls ++ extra ∧ extra.count key ≤ 1) := by
  constructor
  · intro source hget hhost
    cases hload : load_module_entry host key st with
    | mk r st1 =>
      cases r with
      | error e => simp [load_module_entry, hget, hhost] at hload
      | ok node =>
        obtain ⟨e0, he0, hm0, hcase⟩ := load_module_entry_ok host key st st1 node hload
        rcases hcase with ⟨hhit, _⟩ | ⟨_, hflag0, hnode, hcalls, source1, _, hnodes⟩
        · rw [hget] at hhit
          cases hhit
        · subst hnode
          obtain ⟨st2, hbegin⟩ := begin_linking_fresh st st1 key source1 hnodes
          have hbegin0 : begin_linking st1 key e0.module = some st2 := by rw [hm0]; exact hbegin
          obtain ⟨e2, he2, hm2, hf2⟩ := begin_linking_sets_flag st1 st2 key e0 he0 hbegin0
          have hentry : e0 = ⟨key.referrer, key.filename, key.type, st.nodes.length, false⟩ := by
            have hkey : e0.key = key := by
              have := List.find?_some he0
              simpa using this
            obtain ⟨r, f, t, m, fl⟩ := e0
            simp only [StoredModule.key] at hkey
            simp only at hm0 hflag0
            subst hm0 hflag0
            rw [← hkey]
          refine ⟨st1, st2, rfl, ?_, hcalls, hbegin, ⟨e2, he2, hm2.trans hm0, hf2⟩, ?_, ?_⟩
          · rw [he0, hentry]
          · simp only [begin_linking, Linker.transition, Linker.mark_started, hnodes] at hbegin
            simp at hbegin
            subst hbegin
            simp [Linker.status]
          · intro fuel
            have := load_imported_module_started host fuel key st2 e2 he2 hf2
            rw [hm2, hm0] at this
            exact this
  · intro fuel node st1 hload
    unfold load_imported_module at hload
    cases hentry : load_module_entry host key st with
    | mk r sa =>
      cases r with
      | error e => simp [hentry] at hload
      | ok node0 =>
        simp only [hentry] at hload
        cases hlink : link_module host fuel key sa with
        | out_of_fuel => simp [hlink] at hload
        | failed_assertion => simp [hlink] at hload
        | returned value =>
          obtain ⟨r2, s2⟩ := value
          cases r2 with
          | error e => simp [hlink] at hload
          | ok u =>
            simp only [hlink, Outcome.returned.injEq, Prod.mk.injEq, Except.ok.injEq] at hload
            obtain ⟨hnode, hst⟩ := hload
            subst hnode hst
            obtain ⟨e0, he0, hm0, hcase⟩ := load_module_entry_ok host key st sa node0 hentry
            obtain ⟨e, he, hm, hf⟩ :=
              link_module_sets_flag host fuel key sa (Except.ok (), s2) e0 he0 hlink
            have hev := link_module_evolves host fuel key sa (Except.ok (), s2) hlink
            obtain ⟨extra1, hcalls1, hnone1⟩ := hev.2.2.2
            have hnotin : key ∉ extra1 := by
              intro hin
              rw [hnone1 key hin] at he0
              cases he0
            refine ⟨⟨e, he, hm.trans hm0, hf⟩, ?_, ?_⟩
            · intro fuel2
              have := load_imported_module_started host fuel2 key s2 e he hf
              rw [hm, hm0] at this
              exact this
            · rcases hcase with ⟨_, hsame⟩ | ⟨_, _, _, hcalls0, _⟩
              · subst hsame
                exact ⟨extra1, hcalls1, by rw [List.count_eq_zero_of_not_mem hnotin]; omega⟩
              · refine ⟨[key] ++ extra1, ?_, ?_⟩
                · simp only at hcalls1
                  rw [hcalls1, hcalls0, List.append_assoc]
                · rw [List.count_append, List.count_eq_zero_of_not_mem hnotin]
                  simp

/-- Witness for C13: on a fresh state with the two-module cycle as host, `m.js` is
registered unflagged, flagged once linking begins, and served from the cache from
then on; a whole load returns node 0 with the hook invoked for `m.js` and `n.js`. -/
theorem module_load_is_cached_witness :
    (∃ st1 st2,
        load_module_entry (two_cycle_host ModuleKey.m ModuleKey.n) ModuleKey.m Linker.fresh
          = (Except.ok Linker.fresh.nodes.length, st1) ∧
        get_stored_module st1.vm ModuleKey.m
          = some ⟨ModuleKey.m.referrer, ModuleKey.m.filename, ModuleKey.m.type,
              Linker.fresh.nodes.length, false⟩ ∧
        st1.loader_calls = Linker.fresh.loader_calls ++ [ModuleKey.m] ∧
        begin_linking st1 ModuleKey.m Linker.fresh.nodes.length = some st2 ∧
        (∃ e, get_stored_module st2.vm ModuleKey.m = some e ∧
          e.module = Linker.fresh.nodes.length ∧ e.has_once_started_linking = true) ∧
        st2.status Linker.fresh.nodes.length = some ModuleStatus.Linking ∧
        ∀ fuel, load_imported_module (two_cycle_host ModuleKey.m ModuleKey.n) (fuel + 1)
            ModuleKey.m st2
          = Outcome.returned (Except.ok Linker.fresh.nodes.length, st2)) ∧
      ∃ st1, load_imported_module (two_cycle_host ModuleKey.m ModuleKey.n) 3 ModuleKey.m
            Linker.fresh = Outcome.returned (Except.ok 0, st1) ∧
        (∀ fuel2, load_imported_module (two_cycle_host ModuleKey.m ModuleKey.n) (fuel2 + 1)
            ModuleKey.m st1 = Outcome.returned (Except.ok 0, st1)) ∧
        st1.loader_calls = [ModuleKey.m, ModuleKey.n] :=
  ⟨(module_load_is_cached (two_cycle_host ModuleKey.m ModuleKey.n) ModuleKey.m Linker.fresh).1
      ⟨[ModuleKey.n], none⟩ rfl rfl,
    _, rfl,
    ((module_load_is_cached (two_cycle_host ModuleKey.m ModuleKey.n) ModuleKey.m Linker.fresh).2
      3 0 _ rfl).2.1,
    rfl⟩

/-- C15: the status of a module node only moves along `Unlinked -> Linking ->
Linked -> Evaluating -> Evaluated`, `Linking -> Errored` and `Evaluating -> Errored`:
every status change made by a returning `link_and_eval_module`,
`load_imported_module` or evaluation is one of these six steps; none of them leaves
`Errored`, so a node that is `Errored` stays `Errored`; and `Errored` is entered only
from `Linking` or `Evaluating`, never from `Unlinked`, `Linked` or `Evaluated`. -/
theorem module_status_follows_state_machine
    (host : ModuleKey → Except Value ModuleSource) (fuel : Nat) (key : ModuleKey)
    (node : Nat) (st : Linker) :
    (∀ out, link_and_eval_module host fuel key st = Outcome.returned out →
        st.respects_state_machine out.2) ∧
      (∀ out, load_imported_module host fuel key st = Outcome.returned out →
        st.respects_state_machine out.2) ∧
      (∀ out, evaluate_module fuel node st = Outcome.returned out →
        st.respects_state_machine out.2) ∧
      (∀ s t, ModuleStatus.may_step s t = true ↔
        (s, t) ∈ [(ModuleStatus.Unlinked, ModuleStatus.Linking),
          (ModuleStatus.Linking, ModuleStatus.Linked),
          (ModuleStatus.Linked, ModuleStatus.Evaluating),
          (ModuleStatus.Evaluating, ModuleStatus.Evaluated),
          (ModuleStatus.Linking, ModuleStatus.Errored),
          (ModuleStatus.Evaluating, ModuleStatus.Errored)]) ∧
      (∀ t, ModuleStatus.may_step ModuleStatus.Errored t = false) :=
  ⟨fun out h => (link_and_eval_module_evolves host fuel key st out h).respects,
    fun out h => (load_imported_module_evolves host fuel key st out h).respects,
    fun out h => (evaluate_module_evolves fuel node st out h).respects,
    ModuleStatus.may_step_iff,
    fun t => by cases t <;> rfl⟩

/-- Witness for C15: `m.js` imports `n.js`, whose body throws: both nodes end
`Errored`, each entered from `Evaluating`, and every step is one of the six. -/
theorem module_status_follows_state_machine_witness :
    ∃ out, link_and_eval_module throwing_host 3 ModuleKey.m Linker.fresh = Outcome.returned out ∧
      Linker.fresh.respects_state_machine out.2 ∧
      out.1 = Except.error (Value.other 7) ∧
      out.2.status 0 = some ModuleStatus.Errored ∧
      out.2.status 1 = some ModuleStatus.Errored ∧
      out.2.history =
        [(0, ModuleStatus.Unlinked, ModuleStatus.Linking),
         (1, ModuleStatus.Unlinked, ModuleStatus.Linking),
         (1, ModuleStatus.Linking, ModuleStatus.Linked),
         (0, ModuleStatus.Linking, ModuleStatus.Linked),
         (0, ModuleStatus.Linked, ModuleStatus.Evaluating),
         (1, ModuleStatus.Linked, ModuleStatus.Evaluating),
         (1, ModuleStatus.Evaluating, ModuleStatus.Errored),
         (0, ModuleStatus.Evaluating, ModuleStatus.Errored)] :=
  ⟨_, rfl,
    (module_status_follows_state_machine throwing_host 3 ModuleKey.m 0 Linker.fresh).1 _ rfl,
    rfl, rfl, rfl, rfl⟩

/-! ## Stack space limit -/

/-- C21: `did_reach_stack_space_limit()` is true if and only if the free native
stack space is strictly below the low-water mark, which is 96 KiB (98304 bytes) on
macOS address-sanitizer builds and 32 KiB (32768 bytes) on every other build;
exactly 32768 free bytes is not at the limit of an ordinary build; and the
predicate is monotone: if it holds with `f` free bytes it holds with fewer. -/
theorem did_reach_stack_space_limit_spec (b : Build) (vm : VM) :
    (b.AK_OS_MACOS = true ∧ b.HAS_ADDRESS_SANITIZER = true →
        (did_reach_stack_space_limit b vm = true ↔ vm.stack_size_free < 98304)) ∧
      (¬ (b.AK_OS_MACOS = true ∧ b.HAS_ADDRESS_SANITIZER = true) →
        (did_reach_stack_space_limit b vm = true ↔ vm.stack_size_free < 32768)) ∧
      (¬ (b.AK_OS_MACOS = true ∧ b.HAS_ADDRESS_SANITIZER = true) →
        vm.stack_size_free = 32768 → did_reach_stack_space_limit b vm = false) ∧
      (∀ (vm1 : VM), vm1.stack_size_free ≤ vm.stack_size_free →
        did_reach_stack_space_limit b vm = true →
          did_reach_stack_space_limit b vm1 = true) := by
  have hmac : ∀ (v : VM), b.AK_OS_MACOS = true ∧ b.HAS_ADDRESS_SANITIZER = true →
      (did_reach_stack_space_limit b v = true ↔ v.stack_size_free < 98304) := by
    rintro v ⟨hm, ha⟩
    simp [did_reach_stack_space_limit, hm, ha, KiB]
  have hord : ∀ (v : VM), ¬ (b.AK_OS_MACOS = true ∧ b.HAS_ADDRESS_SANITIZER = true) →
      (did_reach_stack_space_limit b v = true ↔ v.stack_size_free < 32768) := by
    intro v h
    have hcond : (b.AK_OS_MACOS && b.HAS_ADDRESS_SANITIZER) = false := by
      cases hm : b.AK_OS_MACOS <;> cases ha : b.HAS_ADDRESS_SANITIZER <;> simp_all
    simp [did_reach_stack_space_limit, hcond, KiB]
  refine ⟨hmac vm, hord vm, ?_, ?_⟩
  · intro h hfree
    cases hlim : did_reach_stack_space_limit b vm with
    | false => rfl
    | true =>
      have := (hord vm h).1 hlim
      omega
  · intro vm1 hle hlim
    by_cases h : b.AK_OS_MACOS = true ∧ b.HAS_ADDRESS_SANITIZER = true
    · have := (hmac vm h).1 hlim
      exact (hmac vm1 h).2 (by omega)
    · have := (hord vm h).1 hlim
      exact (hord vm1 h).2 (by omega)

/-- Witness for C21: on an ordinary build 32767 free bytes is at the limit, 32768
is not, and the limit reached with 32767 bytes is reached with 100; on a macOS
address-sanitizer build 98303 free bytes is at the limit. -/
theorem did_reach_stack_space_limit_spec_witness :
    (did_reach_stack_space_limit Build.ordinary (VM.fresh 32767) = true ↔
        (VM.fresh 32767).stack_size_free < 32768) ∧
      did_reach_stack_space_limit Build.ordinary (VM.fresh 32768) = false ∧
      did_reach_stack_space_limit Build.ordinary (VM.fresh 100) = true ∧
      (did_reach_stack_space_limit ⟨true, true⟩ (VM.fresh 98303) = true ↔
        (VM.fresh 98303).stack_size_free < 98304) :=
  ⟨(did_reach_stack_space_limit_spec Build.ordinary (VM.fresh 32767)).2.1 (by decide),
    (did_reach_stack_space_limit_spec Build.ordinary (VM.fresh 32768)).2.2.1 (by decide) rfl,
    (did_reach_stack_space_limit_spec Build.ordinary (VM.fresh 32767)).2.2.2 (VM.fresh 100)
      (by decide) (by decide),
    (did_reach_stack_space_limit_spec ⟨true, true⟩ (VM.fresh 98303)).1 ⟨rfl, rfl⟩⟩

end JS

namespace Gfx

/-! ## `Color::to_string` -/

theorem hex_digit_spec (n : Nat) (h : n < 16) :
    is_lowercase_hex_digit (hex_digit n) = true ∧ lowercase_hex_value (hex_digit n) = n := by
  interval_cases n <;> exact ⟨by decide, by decide⟩

theorem format_02x_spec (n : Nat) (h : n < 256) :
    ∃ hi lo, format_02x n = [hi, lo] ∧
      is_lowercase_hex_digit hi = true ∧ is_lowercase_hex_digit lo = true ∧
      16 * lowercase_hex_value hi + lowercase_hex_value lo = n := by
  have hhi := hex_digit_spec (n / 16 % 16) (Nat.mod_lt _ (by decide))
  have hlo := hex_digit_spec (n % 16) (Nat.mod_lt _ (by decide))
  refine ⟨_, _, rfl, hhi.1, hlo.1, ?_⟩
  rw [hhi.2, hlo.2]
  omega

/-- C20: for every colour with alpha 255, `to_string(HTMLCompatibleSerialization::Yes)`
is `#` followed by red, green and blue, each as exactly two lowercase hexadecimal
digits (seven characters in all), and equals `to_string_without_alpha()`; without
HTML-compatible serialization an opaque colour serializes as `rgb(r, g, b)` with
decimal components; and a colour with alpha below 255 serializes in the `rgba(`
form whatever serialization is requested. -/
theorem to_string_spec (format_alpha : Nat → String) (c : Color) :
    (c.alpha = 255 →
        (∃ r1 r2 g1 g2 b1 b2,
          c.to_string format_alpha HTMLCompatibleSerialization.Yes
            = String.mk ['#', r1, r2, g1, g2, b1, b2] ∧
          (∀ ch ∈ [r1, r2, g1, g2, b1, b2], is_lowercase_hex_digit ch = true) ∧
          16 * lowercase_hex_value r1 + lowercase_hex_value r2 = c.red ∧
          16 * lowercase_hex_value g1 + lowercase_hex_value g2 = c.green ∧
          16 * lowercase_hex_value b1 + lowercase_hex_value b2 = c.blue) ∧
        (c.to_string format_alpha HTMLCompatibleSerialization.Yes).length = 7 ∧
        c.to_string format_alpha HTMLCompatibleSerialization.Yes = c.to_string_without_alpha ∧
        c.to_string format_alpha HTMLCompatibleSerialization.No
          = "rgb(" ++ format_decimal c.red ++ ", " ++ format_decimal c.green ++ ", "
            ++ format_decimal c.blue ++ ")") ∧
      (c.alpha < 255 → ∀ (h : HTMLCompatibleSerialization),
        c.to_string format_alpha h
          = "rgba(" ++ (format_decimal c.red ++ ", " ++ format_decimal c.green ++ ", "
            ++ format_decimal c.blue ++ ", " ++ format_alpha c.alpha ++ ")")) := by
  constructor
  · intro ha
    obtain ⟨r1, r2, hr, hr1, hr2, hrv⟩ := format_02x_spec c.red (Nat.mod_lt _ (by decide))
    obtain ⟨g1, g2, hg, hg1, hg2, hgv⟩ := format_02x_spec c.green (Nat.mod_lt _ (by decide))
    obtain ⟨b1, b2, hb, hb1, hb2, hbv⟩ := format_02x_spec c.blue (Nat.mod_lt _ (by decide))
    have hyes : c.to_string format_alpha HTMLCompatibleSerialization.Yes
        = String.mk ['#', r1, r2, g1, g2, b1, b2] := by
      simp [Color.to_string, ha, hr, hg, hb]
    refine ⟨⟨r1, r2, g1, g2, b1, b2, hyes, ?_, hrv, hgv, hbv⟩, ?_, ?_, ?_⟩
    · intro ch hch
      simp only [List.mem_cons, List.mem_singleton, List.not_mem_nil, or_false] at hch
      rcases hch with h | h | h | h | h | h <;> subst h <;> assumption
    · rw [hyes]; rfl
    · simp [Color.to_string, Color.to_string_without_alpha, ha]
    · simp [Color.to_string, ha]
  · intro ha h
    have hne : c.alpha ≠ 255 := by omega
    simp [Color.to_string, hne, ha, String.append_assoc]

/-- Witness for C20: opaque `#ff8000` in both serializations, and the same colour
with alpha `0x80`. -/
theorem to_string_spec_witness :
    (Color.orange.to_string (fun _ => "0.5") HTMLCompatibleSerialization.Yes).length = 7 ∧
      Color.orange.to_string (fun _ => "0.5") HTMLCompatibleSerialization.Yes
        = Color.orange.to_string_without_alpha ∧
      Color.orange.to_string (fun _ => "0.5") HTMLCompatibleSerialization.No
        = "rgb(" ++ format_decimal Color.orange.red ++ ", "
          ++ format_decimal Color.orange.green ++ ", "
          ++ format_decimal Color.orange.blue ++ ")" ∧
      Color.translucent_orange.to_string (fun _ => "0.5") HTMLCompatibleSerialization.Yes
        = "rgba(" ++ (format_decimal Color.translucent_orange.red ++ ", "
          ++ format_decimal Color.translucent_orange.green ++ ", "
          ++ format_decimal Color.translucent_orange.blue ++ ", "
          ++ (fun _ => "0.5") Color.translucent_orange.alpha ++ ")") :=
  ⟨((to_string_spec (fun _ => "0.5") Color.orange).1 (by decide)).2.1,
    ((to_string_spec (fun _ => "0.5") Color.orange).1 (by decide)).2.2.1,
    ((to_string_spec (fun _ => "0.5") Color.orange).1 (by decide)).2.2.2,
    (to_string_spec (fun _ => "0.5") Color.translucent_orange).2 (by decide)
      HTMLCompatibleSerialization.Yes⟩

/-! ## `hex_string_to_color` -/

theorem char_eq_of_toNat (ch : Char) (k : Nat) (h : ch.toNat = k) : ch = Char.ofNat k := by
  rw [← h, Char.ofNat_toNat]

theorem isxdigit_mem (ch : Char) (h : isxdigit ch = true) :
    ch ∈ "0123456789abcdefABCDEF".toList := by
  simp only [isxdigit, Bool.or_eq_true, Bool.and_eq_true, decide_eq_true_eq] at h
  generalize hn : ch.toNat = n at h
  have hch := char_eq_of_toNat ch n hn
  rcases h with (⟨h1, h2⟩ | ⟨h1, h2⟩) | ⟨h1, h2⟩ <;>
    interval_cases n <;> (subst hch; decide)

theorem hex_nibble_of_mem :
    ∀ ch ∈ "0123456789abcdefABCDEF".toList,
      ∃ n, n < 16 ∧ hex_nibble_to_u8 ch = some n := by
  decide

theorem hex_nibble_to_u8_some (ch : Char) (h : isxdigit ch = true) :
    ∃ n, n < 16 ∧ hex_nibble_to_u8 ch = some n :=
  hex_nibble_of_mem ch (isxdigit_mem ch h)

theorem hex_nibble_to_u8_none (ch : Char) (h : isxdigit ch = false) :
    hex_nibble_to_u8 ch = none := by
  simp [hex_nibble_to_u8, h]

theorem hex_nibble_to_u8_isSome (ch : Char) :
    (hex_nibble_to_u8 ch).isSome = isxdigit ch := by
  cases h : isxdigit ch with
  | false => simp [hex_nibble_to_u8_none ch h]
  | true =>
    obtain ⟨n, _, hn⟩ := hex_nibble_to_u8_some ch h
    simp [hn]

theorem hex_nibble_to_u8_hex_digit (n : Nat) (h : n < 16) :
    hex_nibble_to_u8 (hex_digit n) = some n := by
  interval_cases n <;> decide

theorem shift_or_eq : ∀ n1, n1 < 16 → ∀ n2, n2 < 16 →
    (n1 <<< 4 ||| n2) % 256 = 16 * n1 + n2 := by
  decide

theorem to_hex_of_nibbles (c1 c2 : Char) (n1 n2 : Nat) (h1 : hex_nibble_to_u8 c1 = some n1)
    (h2 : hex_nibble_to_u8 c2 = some n2) (hn1 : n1 < 16) (hn2 : n2 < 16) :
    to_hex c1 c2 = some (16 * n1 + n2) := by
  simp [to_hex, h1, h2, shift_or_eq n1 hn1 n2 hn2]

theorem to_hex_isSome (c1 c2 : Char) :
    (to_hex c1 c2).isSome = (isxdigit c1 && isxdigit c2) := by
  rw [← hex_nibble_to_u8_isSome, ← hex_nibble_to_u8_isSome]
  cases h1 : hex_nibble_to_u8 c1 <;> cases h2 : hex_nibble_to_u8 c2 <;> simp [to_hex, h1, h2]

theorem Color.mk_rgba_alpha (r g b a : Nat) : (Color.mk_rgba r g b a).alpha = a % 256 := by
  simp only [Color.alpha, Color.mk_rgba]
  omega

theorem Color.mk_rgba_red (r g b a : Nat) : (Color.mk_rgba r g b a).red = r % 256 := by
  simp only [Color.red, Color.mk_rgba]
  omega

theorem Color.mk_rgba_green (r g b a : Nat) : (Color.mk_rgba r g b a).green = g % 256 := by
  simp only [Color.green, Color.mk_rgba]
  omega

theorem Color.mk_rgba_blue (r g b a : Nat) : (Color.mk_rgba r g b a).blue = b % 256 := by
  simp only [Color.blue, Color.mk_rgba]
  omega

theorem Color.mk_rgba_components (c : Color) :
    Color.mk_rgba c.red c.green c.blue c.alpha = c := by
  obtain ⟨m, hm⟩ := c
  simp only [Color.mk_rgba, Color.red, Color.green, Color.blue, Color.alpha, Color.mk.injEq]
  omega

theorem from_string_hash (ak : AK) (rest : StringView) :
    Color.from_string ak ('#' :: rest) = hex_string_to_color ('#' :: rest) := by
  simp [Color.from_string]

/-- C24: hex shorthand expansion. For hexadecimal digits `r`, `g`, `b`, `a`,
`Color::from_string` gives the same on `#rgb` as on `#rrggbb` and the same on `#rgba`
as on `#rrggbbaa`; each nibble `n` becomes the byte `17 * n`, and the colour of the
3-digit form has alpha 255. -/
theorem hex_shorthand_expands (ak : AK) (r g b a : Char) (hr : isxdigit r = true)
    (hg : isxdigit g = true) (hb : isxdigit b = true) (ha : isxdigit a = true) :
    Color.from_string ak ['#', r, g, b] = Color.from_string ak ['#', r, r, g, g, b, b] ∧
      Color.from_string ak ['#', r, g, b, a]
        = Color.from_string ak ['#', r, r, g, g, b, b, a, a] ∧
      ∃ nr ng nb na,
        hex_nibble_to_u8 r = some nr ∧ hex_nibble_to_u8 g = some ng ∧
        hex_nibble_to_u8 b = some nb ∧ hex_nibble_to_u8 a = some na ∧
        Color.from_string ak ['#', r, g, b]
          = some (some (Color.mk_rgba (17 * nr) (17 * ng) (17 * nb) 255)) ∧
        Color.from_string ak ['#', r, g, b, a]
          = some (some (Color.mk_rgba (17 * nr) (17 * ng) (17 * nb) (17 * na))) ∧
        (Color.mk_rgba (17 * nr) (17 * ng) (17 * nb) 255).alpha = 255 := by
  obtain ⟨nr, hnr, er⟩ := hex_nibble_to_u8_some r hr
  obtain ⟨ng, hng, eg⟩ := hex_nibble_to_u8_some g hg
  obtain ⟨nb, hnb, eb⟩ := hex_nibble_to_u8_some b hb
  obtain ⟨na, hna, ea⟩ := hex_nibble_to_u8_some a ha
  have hrr := to_hex_of_nibbles r r nr nr er er hnr hnr
  have hgg := to_hex_of_nibbles g g ng ng eg eg hng hng
  have hbb := to_hex_of_nibbles b b nb nb eb eb hnb hnb
  have haa := to_hex_of_nibbles a a na na ea ea hna hna
  have e3 : Color.from_string ak ['#', r, g, b]
      = some (some (Color.mk_rgba (17 * nr) (17 * ng) (17 * nb) 255)) := by
    simp [from_string_hash, hex_string_to_color, er, eg, eb, Nat.mul_comm]
  have e6 : Color.from_string ak ['#', r, r, g, g, b, b]
      = some (some (Color.mk_rgba (17 * nr) (17 * ng) (17 * nb) 255)) := by
    have h17 : ∀ n, 16 * n + n = 17 * n := fun n => by omega
    simp [from_string_hash, hex_string_to_color, hrr, hgg, hbb, h17]
  have e4 : Color.from_string ak ['#', r, g, b, a]
      = some (some (Color.mk_rgba (17 * nr) (17 * ng) (17 * nb) (17 * na))) := by
    simp [from_string_hash, hex_string_to_color, er, eg, eb, ea, Nat.mul_comm]
  have e8 : Color.from_string ak ['#', r, r, g, g, b, b, a, a]
      = some (some (Color.mk_rgba (17 * nr) (17 * ng) (17 * nb) (17 * na))) := by
    have h17 : ∀ n, 16 * n + n = 17 * n := fun n => by omega
    simp [from_string_hash, hex_string_to_color, hrr, hgg, hbb, haa, h17]
  refine ⟨by rw [e3, e6], by rw [e4, e8], nr, ng, nb, na, er, eg, eb, ea, e3, e4, ?_⟩
  rw [Color.mk_rgba_alpha]

/-- Witness for C24: `#f80` parses as `#ff8800` and `#f80C` as `#ff8800CC`. -/
theorem hex_shorthand_expands_witness :
    Color.from_string AK.example_helpers ['#', 'f', '8', '0']
        = Color.from_string AK.example_helpers ['#', 'f', 'f', '8', '8', '0', '0'] ∧
      Color.from_string AK.example_helpers ['#', 'f', '8', '0', 'C']
        = Color.from_string AK.example_helpers
          ['#', 'f', 'f', '8', '8', '0', '0', 'C', 'C'] :=
  ⟨(hex_shorthand_expands AK.example_helpers 'f' '8' '0' 'C' (by decide) (by decide)
      (by decide) (by decide)).1,
    (hex_shorthand_expands AK.example_helpers 'f' '8' '0' 'C' (by decide) (by decide)
      (by decide) (by decide)).2.1⟩

theorem format_02x_to_hex (n : Nat) (h : n < 256) :
    to_hex (hex_digit (n / 16 % 16)) (hex_digit (n % 16)) = some n := by
  have h1 := hex_nibble_to_u8_hex_digit (n / 16 % 16) (Nat.mod_lt _ (by decide))
  have h2 := hex_nibble_to_u8_hex_digit (n % 16) (Nat.mod_lt _ (by decide))
  rw [to_hex_of_nibbles _ _ _ _ h1 h2 (Nat.mod_lt _ (by decide)) (Nat.mod_lt _ (by decide))]
  congr 1
  omega

theorem from_string_without_alpha (ak : AK) (c : Color) :
    Color.from_string ak c.to_string_without_alpha.toList
      = some (some (Color.mk_rgba c.red c.green c.blue 255)) := by
  have hr := format_02x_to_hex c.red (Nat.mod_lt _ (by decide))
  have hg := format_02x_to_hex c.green (Nat.mod_lt _ (by decide))
  have hb := format_02x_to_hex c.blue (Nat.mod_lt _ (by decide))
  simp [Color.to_string_without_alpha, format_02x, from_string_hash, hex_string_to_color,
    hr, hg, hb]

/-- C22: parsing a serialization gives the colour back. For every colour `c` with
alpha 255, `Color::from_string` of `c.to_string(HTMLCompatibleSerialization::Yes)` is
exactly `c`; and for every colour `c`, `Color::from_string` of
`c.to_string_without_alpha()` is the colour with the red, green and blue of `c` and
alpha 255. -/
theorem from_string_to_string_round_trip (ak : AK) (format_alpha : Nat → String) (c : Color) :
    (c.alpha = 255 →
        Color.from_string ak (c.to_string format_alpha HTMLCompatibleSerialization.Yes).toList
          = some (some c)) ∧
      Color.from_string ak c.to_string_without_alpha.toList
        = some (some (Color.mk_rgba c.red c.green c.blue 255)) ∧
      (Color.mk_rgba c.red c.green c.blue 255).red = c.red ∧
      (Color.mk_rgba c.red c.green c.blue 255).green = c.green ∧
      (Color.mk_rgba c.red c.green c.blue 255).blue = c.blue ∧
      (Color.mk_rgba c.red c.green c.blue 255).alpha = 255 := by
  have hlt : ∀ n, n % 256 % 256 = n % 256 := fun n => Nat.mod_mod _ _
  refine ⟨?_, from_string_without_alpha ak c, ?_, ?_, ?_, ?_⟩
  · intro ha
    have hyes : c.to_string format_alpha HTMLCompatibleSerialization.Yes
        = c.to_string_without_alpha := by
      simp [Color.to_string, Color.to_string_without_alpha, ha]
    rw [hyes, from_string_without_alpha, ← ha, Color.mk_rgba_components]
  · rw [Color.mk_rgba_red]; exact hlt _
  · rw [Color.mk_rgba_green]; exact hlt _
  · rw [Color.mk_rgba_blue]; exact Nat.mod_mod _ _
  · rw [Color.mk_rgba_alpha]

/-- Witness for C22: opaque orange comes back from its serialization `#ff8000`. -/
theorem from_string_to_string_round_trip_witness :
    Color.orange.alpha = 255 ∧
      Color.from_string AK.example_helpers
        (Color.orange.to_string (fun _ => "1") HTMLCompatibleSerialization.Yes).toList
        = some (some Color.orange) :=
  ⟨by decide,
    (from_string_to_string_round_trip AK.example_helpers (fun _ => "1") Color.orange).1
      (by decide)⟩

theorem hex_string_of_length (rest : StringView) :
    (rest = []) ∨ (∃ c1, rest = [c1]) ∨ (∃ c1 c2, rest = [c1, c2]) ∨
      (∃ c1 c2 c3, rest = [c1, c2, c3]) ∨ (∃ c1 c2 c3 c4, rest = [c1, c2, c3, c4]) ∨
      (∃ c1 c2 c3 c4 c5, rest = [c1, c2, c3, c4, c5]) ∨
      (∃ c1 c2 c3 c4 c5 c6, rest = [c1, c2, c3, c4, c5, c6]) ∨
      (∃ c1 c2 c3 c4 c5 c6 c7, rest = [c1, c2, c3, c4, c5, c6, c7]) ∨
      (∃ c1 c2 c3 c4 c5 c6 c7 c8, rest = [c1, c2, c3, c4, c5, c6, c7, c8]) ∨
      (∃ c1 c2 c3 c4 c5 c6 c7 c8 c9 tail,
        rest = c1 :: c2 :: c3 :: c4 :: c5 :: c6 :: c7 :: c8 :: c9 :: tail) := by
  rcases rest with _ | ⟨c1, _ | ⟨c2, _ | ⟨c3, _ | ⟨c4, _ | ⟨c5, _ | ⟨c6, _ | ⟨c7, _ |
    ⟨c8, _ | ⟨c9, tail⟩⟩⟩⟩⟩⟩⟩⟩⟩
  · exact Or.inl rfl
  · exact Or.inr (Or.inl ⟨c1, rfl⟩)
  · exact Or.inr (Or.inr (Or.inl ⟨c1, c2, rfl⟩))
  · exact Or.inr (Or.inr (Or.inr (Or.inl ⟨c1, c2, c3, rfl⟩)))
  · exact Or.inr (Or.inr (Or.inr (Or.inr (Or.inl ⟨c1, c2, c3, c4, rfl⟩))))
  · exact Or.inr (Or.inr (Or.inr (Or.inr (Or.inr (Or.inl ⟨c1, c2, c3, c4, c5, rfl⟩)))))
  · exact Or.inr (Or.inr (Or.inr (Or.inr (Or.inr (Or.inr
      (Or.inl ⟨c1, c2, c3, c4, c5, c6, rfl⟩))))))
  · exact Or.inr (Or.inr (Or.inr (Or.inr (Or.inr (Or.inr (Or.inr
      (Or.inl ⟨c1, c2, c3, c4, c5, c6, c7, rfl⟩)))))))
  · exact Or.inr (Or.inr (Or.inr (Or.inr (Or.inr (Or.inr (Or.inr (Or.inr
      (Or.inl ⟨c1, c2, c3, c4, c5, c6, c7, c8, rfl⟩))))))))
  · exact Or.inr (Or.inr (Or.inr (Or.inr (Or.inr (Or.inr (Or.inr (Or.inr
      (Or.inr ⟨c1, c2, c3, c4, c5, c6, c7, c8, c9, tail, rfl⟩))))))))

theorem hex_string_to_color_eq (first : Char) (rest : StringView) :
    hex_string_to_color (first :: rest) = some (hex_result rest) := by
  rcases hex_string_of_length rest with h | ⟨c1, h⟩ | ⟨c1, c2, h⟩ | ⟨c1, c2, c3, h⟩ |
    ⟨c1, c2, c3, c4, h⟩ | ⟨c1, c2, c3, c4, c5, h⟩ | ⟨c1, c2, c3, c4, c5, c6, h⟩ |
    ⟨c1, c2, c3, c4, c5, c6, c7, h⟩ | ⟨c1, c2, c3, c4, c5, c6, c7, c8, h⟩ |
    ⟨c1, c2, c3, c4, c5, c6, c7, c8, c9, tail, h⟩ <;> subst h
  · simp [hex_string_to_color, hex_result]
  · simp [hex_string_to_color, hex_result]
  · simp [hex_string_to_color, hex_result]
  · cases h1 : hex_nibble_to_u8 c1 <;> cases h2 : hex_nibble_to_u8 c2 <;>
      cases h3 : hex_nibble_to_u8 c3 <;> simp [hex_string_to_color, hex_result, h1, h2, h3]
  · cases h1 : hex_nibble_to_u8 c1 <;> cases h2 : hex_nibble_to_u8 c2 <;>
      cases h3 : hex_nibble_to_u8 c3 <;> cases h4 : hex_nibble_to_u8 c4 <;>
      simp [hex_string_to_color, hex_result, h1, h2, h3, h4]
  · simp [hex_string_to_color, hex_result]
  · cases h1 : to_hex c1 c2 <;> cases h2 : to_hex c3 c4 <;> cases h3 : to_hex c5 c6 <;>
      simp [hex_string_to_color, hex_result, h1, h2, h3]
  · simp [hex_string_to_color, hex_result]
  · cases h1 : to_hex c1 c2 <;> cases h2 : to_hex c3 c4 <;> cases h3 : to_hex c5 c6 <;>
      cases h4 : to_hex c7 c8 <;> simp [hex_string_to_color, hex_result, h1, h2, h3, h4]
  · simp [hex_string_to_color, hex_result]

theorem hex_result_isSome (rest : StringView) :
    (hex_result rest).isSome = true ↔
      ((rest.length + 1 = 4 ∨ rest.length + 1 = 5 ∨ rest.length + 1 = 7 ∨
          rest.length + 1 = 9) ∧ ∀ ch ∈ rest, isxdigit ch = true) := by
  rcases hex_string_of_length rest with h | ⟨c1, h⟩ | ⟨c1, c2, h⟩ | ⟨c1, c2, c3, h⟩ |
    ⟨c1, c2, c3, c4, h⟩ | ⟨c1, c2, c3, c4, c5, h⟩ | ⟨c1, c2, c3, c4, c5, c6, h⟩ |
    ⟨c1, c2, c3, c4, c5, c6, c7, h⟩ | ⟨c1, c2, c3, c4, c5, c6, c7, c8, h⟩ |
    ⟨c1, c2, c3, c4, c5, c6, c7, c8, c9, tail, h⟩ <;> subst h
  · simp [hex_result]
  · simp [hex_result]
  · simp [hex_result]
  · simp only [← hex_nibble_to_u8_isSome]
    cases h1 : hex_nibble_to_u8 c1 <;> cases h2 : hex_nibble_to_u8 c2 <;>
      cases h3 : hex_nibble_to_u8 c3 <;> simp [hex_result, h1, h2, h3]
  · simp only [← hex_nibble_to_u8_isSome]
    cases h1 : hex_nibble_to_u8 c1 <;> cases h2 : hex_nibble_to_u8 c2 <;>
      cases h3 : hex_nibble_to_u8 c3 <;> cases h4 : hex_nibble_to_u8 c4 <;>
      simp [hex_result, h1, h2, h3, h4]
  · simp [hex_result]
  · have e : (hex_result [c1, c2, c3, c4, c5, c6]).isSome
        = ((to_hex c1 c2).isSome && (to_hex c3 c4).isSome && (to_hex c5 c6).isSome) := by
      cases h1 : to_hex c1 c2 <;> cases h2 : to_hex c3 c4 <;> cases h3 : to_hex c5 c6 <;>
        simp [hex_result, h1, h2, h3]
    rw [e, to_hex_isSome, to_hex_isSome, to_hex_isSome]
    simp [and_assoc]
  · simp [hex_result]
  · have e : (hex_result [c1, c2, c3, c4, c5, c6, c7, c8]).isSome
        = ((to_hex c1 c2).isSome && (to_hex c3 c4).isSome && (to_hex c5 c6).isSome
            && (to_hex c7 c8).isSome) := by
      cases h1 : to_hex c1 c2 <;> cases h2 : to_hex c3 c4 <;> cases h3 : to_hex c5 c6 <;>
        cases h4 : to_hex c7 c8 <;> simp [hex_result, h1, h2, h3, h4]
    rw [e, to_hex_isSome, to_hex_isSome, to_hex_isSome, to_hex_isSome]
    simp [and_assoc]
  · simp [hex_result]

/-- C23: on a string that begins with `#`, `Color::from_string` returns, and its
result holds a colour if and only if the total length is 4, 5, 7 or 9 and every
character after `#` is a hexadecimal digit of either case; the 7-character form has
alpha 255 and the 9-character form takes alpha from the last two digits, each byte
being 16 times the high nibble plus the low nibble. -/
theorem hex_string_form_spec (ak : AK) (rest : StringView) :
    ∃ result, Color.from_string ak ('#' :: rest) = some result ∧
      (result.isSome = true ↔
        ((('#' :: rest).length = 4 ∨ ('#' :: rest).length = 5 ∨ ('#' :: rest).length = 7 ∨
            ('#' :: rest).length = 9) ∧ ∀ ch ∈ rest, isxdigit ch = true)) ∧
      (∀ c1 c2 c3 c4 c5 c6 n1 n2 n3 n4 n5 n6, rest = [c1, c2, c3, c4, c5, c6] →
        hex_nibble_to_u8 c1 = some n1 → hex_nibble_to_u8 c2 = some n2 →
        hex_nibble_to_u8 c3 = some n3 → hex_nibble_to_u8 c4 = some n4 →
        hex_nibble_to_u8 c5 = some n5 → hex_nibble_to_u8 c6 = some n6 →
          ∃ color, result = some color ∧ color.alpha = 255 ∧
            color.red = 16 * n1 + n2 ∧ color.green = 16 * n3 + n4 ∧
            color.blue = 16 * n5 + n6) ∧
      (∀ c1 c2 c3 c4 c5 c6 c7 c8 n1 n2 n3 n4 n5 n6 n7 n8,
        rest = [c1, c2, c3, c4, c5, c6, c7, c8] →
        hex_nibble_to_u8 c1 = some n1 → hex_nibble_to_u8 c2 = some n2 →
        hex_nibble_to_u8 c3 = some n3 → hex_nibble_to_u8 c4 = some n4 →
        hex_nibble_to_u8 c5 = some n5 → hex_nibble_to_u8 c6 = some n6 →
        hex_nibble_to_u8 c7 = some n7 → hex_nibble_to_u8 c8 = some n8 →
          ∃ color, result = some color ∧ color.alpha = 16 * n7 + n8 ∧
            color.red = 16 * n1 + n2 ∧ color.green = 16 * n3 + n4 ∧
            color.blue = 16 * n5 + n6) := by
  have hlt : ∀ (c : Char) (n : Nat), hex_nibble_to_u8 c = some n → n < 16 := by
    intro c n hc
    have hx : isxdigit c = true := by rw [← hex_nibble_to_u8_isSome, hc]; rfl
    obtain ⟨m, hm, hcm⟩ := hex_nibble_to_u8_some c hx
    rw [hc] at hcm
    cases hcm
    exact hm
  refine ⟨hex_result rest, ?_, ?_, ?_, ?_⟩
  · rw [from_string_hash, hex_string_to_color_eq]
  · simpa using hex_result_isSome rest
  · intro c1 c2 c3 c4 c5 c6 n1 n2 n3 n4 n5 n6 hrest h1 h2 h3 h4 h5 h6
    subst hrest
    have l1 := hlt _ _ h1; have l2 := hlt _ _ h2; have l3 := hlt _ _ h3
    have l4 := hlt _ _ h4; have l5 := hlt _ _ h5; have l6 := hlt _ _ h6
    refine ⟨Color.mk_rgba (16 * n1 + n2) (16 * n3 + n4) (16 * n5 + n6) 255, ?_, ?_, ?_, ?_, ?_⟩
    · simp [hex_result, to_hex_of_nibbles _ _ _ _ h1 h2 l1 l2,
        to_hex_of_nibbles _ _ _ _ h3 h4 l3 l4, to_hex_of_nibbles _ _ _ _ h5 h6 l5 l6]
    · rw [Color.mk_rgba_alpha]
    · rw [Color.mk_rgba_red]; omega
    · rw [Color.mk_rgba_green]; omega
    · rw [Color.mk_rgba_blue]; omega
  · intro c1 c2 c3 c4 c5 c6 c7 c8 n1 n2 n3 n4 n5 n6 n7 n8 hrest h1 h2 h3 h4 h5 h6 h7 h8
    subst hrest
    have l1 := hlt _ _ h1; have l2 := hlt _ _ h2; have l3 := hlt _ _ h3
    have l4 := hlt _ _ h4; have l5 := hlt _ _ h5; have l6 := hlt _ _ h6
    have l7 := hlt _ _ h7; have l8 := hlt _ _ h8
    refine ⟨Color.mk_rgba (16 * n1 + n2) (16 * n3 + n4) (16 * n5 + n6) (16 * n7 + n8),
      ?_, ?_, ?_, ?_, ?_⟩
    · simp [hex_result, to_hex_of_nibbles _ _ _ _ h1 h2 l1 l2,
        to_hex_of_nibbles _ _ _ _ h3 h4 l3 l4, to_hex_of_nibbles _ _ _ _ h5 h6 l5 l6,
        to_hex_of_nibbles _ _ _ _ h7 h8 l7 l8]
    · rw [Color.mk_rgba_alpha]; omega
    · rw [Color.mk_rgba_red]; omega
    · rw [Color.mk_rgba_green]; omega
    · rw [Color.mk_rgba_blue]; omega

/-- Witness for C23: `#Ff8000` holds a colour with alpha 255, red `0xff`, green
`0x80` and blue 0. -/
theorem hex_string_form_spec_witness :
    ∃ result, Color.from_string AK.example_helpers ['#', 'F', 'f', '8', '0', '0', '0']
        = some result ∧ result.isSome = true ∧
      ∃ color, result = some color ∧ color.alpha = 255 ∧ color.red = 16 * 15 + 15 ∧
        color.green = 16 * 8 + 0 ∧ color.blue = 16 * 0 + 0 := by
  obtain ⟨result, h1, h2, h3, _⟩ :=
    hex_string_form_spec AK.example_helpers ['F', 'f', '8', '0', '0', '0']
  exact ⟨result, h1, h2.mpr ⟨by decide, by decide⟩,
    h3 'F' 'f' '8' '0' '0' '0' 15 15 8 0 0 0 rfl (by decide) (by decide) (by decide)
      (by decide) (by decide!) (by decide!)⟩

/-! ## `parse_rgb_color`, `parse_rgba_color` and the assertions of `Color::from_string` -/

theorem starts_with_rgb (s : StringView)
    (h : starts_with_ignoring_case s "rgb(".toList = true) :
    ∃ c0 c1 c2 c3 tail, s = c0 :: c1 :: c2 :: c3 :: tail ∧
      to_ascii_lowercase c0 = 'r' ∧ to_ascii_lowercase c1 = 'g' ∧
      to_ascii_lowercase c2 = 'b' ∧ to_ascii_lowercase c3 = '(' := by
  rcases s with _ | ⟨c0, _ | ⟨c1, _ | ⟨c2, _ | ⟨c3, tail⟩⟩⟩⟩
  · simp [starts_with_ignoring_case] at h
  · simp [starts_with_ignoring_case] at h
  · simp [starts_with_ignoring_case] at h
  · simp [starts_with_ignoring_case] at h
  · refine ⟨c0, c1, c2, c3, tail, rfl, ?_⟩
    simp only [starts_with_ignoring_case, Bool.and_eq_true, decide_eq_true_eq] at h
    have h2 := h.2
    simp only [String.toList, List.length_cons, List.length_nil, List.take, List.map_cons,
      List.map_nil, List.cons.injEq, and_true] at h2
    have e1 : to_ascii_lowercase 'r' = 'r' := by decide
    have e2 : to_ascii_lowercase 'g' = 'g' := by decide
    have e3 : to_ascii_lowercase 'b' = 'b' := by decide
    have e4 : to_ascii_lowercase '(' = '(' := by decide
    rw [e1, e2, e3, e4] at h2
    exact h2

theorem starts_with_rgba (s : StringView)
    (h : starts_with_ignoring_case s "rgba(".toList = true) :
    ∃ c0 c1 c2 c3 c4 tail, s = c0 :: c1 :: c2 :: c3 :: c4 :: tail ∧
      to_ascii_lowercase c0 = 'r' ∧ to_ascii_lowercase c1 = 'g' ∧
      to_ascii_lowercase c2 = 'b' ∧ to_ascii_lowercase c3 = 'a' ∧
      to_ascii_lowercase c4 = '(' := by
  rcases s with _ | ⟨c0, _ | ⟨c1, _ | ⟨c2, _ | ⟨c3, _ | ⟨c4, tail⟩⟩⟩⟩⟩
  · simp [starts_with_ignoring_case] at h
  · simp [starts_with_ignoring_case] at h
  · simp [starts_with_ignoring_case] at h
  · simp [starts_with_ignoring_case] at h
  · simp [starts_with_ignoring_case] at h
  · refine ⟨c0, c1, c2, c3, c4, tail, rfl, ?_⟩
    simp only [starts_with_ignoring_case, Bool.and_eq_true, decide_eq_true_eq] at h
    have h2 := h.2
    simp only [String.toList, List.length_cons, List.length_nil, List.take, List.map_cons,
      List.map_nil, List.cons.injEq, and_true] at h2
    have e1 : to_ascii_lowercase 'r' = 'r' := by decide
    have e2 : to_ascii_lowercase 'g' = 'g' := by decide
    have e3 : to_ascii_lowercase 'b' = 'b' := by decide
    have e4 : to_ascii_lowercase '(' = '(' := by decide
    have e5 : to_ascii_lowercase 'a' = 'a' := by decide
    rw [e1, e2, e3, e4, e5] at h2
    exact h2

/-- The text between the parentheses: what follows the first `skip` characters,
without the last character. -/
theorem substring_between (head : StringView) (t : Char) (tail : StringView) (skip : Nat)
    (hskip : head.length = skip) :
    substring_view (head ++ t :: tail) skip (size_sub (head ++ t :: tail).length (skip + 1))
      = some ((t :: tail).dropLast) := by
  have hlen : (head ++ t :: tail).length = skip + 1 + tail.length := by
    simp [hskip]; omega
  have hsub : size_sub (head ++ t :: tail).length (skip + 1) = tail.length := by
    rw [hlen]
    simp [size_sub]
  rw [hsub]
  unfold substring_view
  rw [if_pos (by rw [hlen]; omega)]
  congr 1
  rw [← hskip, List.drop_left, List.dropLast_eq_take]
  simp

theorem to_ascii_lowercase_ne (c : Char) (lowered other : Char)
    (h : to_ascii_lowercase c = lowered) (hne : to_ascii_lowercase other ≠ lowered) :
    c ≠ other := by
  intro hc
  subst hc
  exact hne h

theorem rgb_guard_shape (s : StringView)
    (hstart : starts_with_ignoring_case s "rgb(".toList = true)
    (hend : ends_with s ')' = true) :
    ∃ c0 c1 c2 c3 t tail, s = [c0, c1, c2, c3] ++ t :: tail ∧ c0 ≠ '#' := by
  obtain ⟨c0, c1, c2, c3, tail, hs, h0, _, _, h3⟩ := starts_with_rgb s hstart
  subst hs
  rcases tail with _ | ⟨t, tail⟩
  · exfalso
    have : c3 = ')' := by simpa [ends_with] using hend
    subst this
    revert h3
    decide
  · exact ⟨c0, c1, c2, c3, t, tail, rfl, to_ascii_lowercase_ne c0 'r' '#' h0 (by decide)⟩

theorem rgba_guard_shape (s : StringView)
    (hstart : starts_with_ignoring_case s "rgba(".toList = true)
    (hend : ends_with s ')' = true) :
    ∃ c0 c1 c2 c3 c4 t tail, s = [c0, c1, c2, c3, c4] ++ t :: tail ∧ c0 ≠ '#' ∧
      starts_with_ignoring_case s "rgb(".toList = false := by
  obtain ⟨c0, c1, c2, c3, c4, tail, hs, h0, h1, h2, h3, h4⟩ := starts_with_rgba s hstart
  subst hs
  rcases tail with _ | ⟨t, tail⟩
  · exfalso
    have : c4 = ')' := by simpa [ends_with] using hend
    subst this
    revert h4
    decide
  · refine ⟨c0, c1, c2, c3, c4, t, tail, rfl,
      to_ascii_lowercase_ne c0 'r' '#' h0 (by decide), ?_⟩
    cases hrgb : starts_with_ignoring_case (c0 :: c1 :: c2 :: c3 :: c4 :: t :: tail)
      "rgb(".toList
    · rfl
    · exfalso
      obtain ⟨d0, d1, d2, d3, tail2, hs, _, _, _, g3⟩ := starts_with_rgb _ hrgb
      simp only [List.cons.injEq] at hs
      obtain ⟨_, _, _, e3, _⟩ := hs
      subst e3
      rw [h3] at g3
      revert g3
      decide

theorem parse_rgb_color_eq (ak : AK) (s : StringView)
    (hstart : starts_with_ignoring_case s "rgb(".toList = true)
    (hend : ends_with s ')' = true) :
    5 ≤ s.length ∧ 4 + size_sub s.length 5 ≤ s.length ∧
      substring_view s 4 (size_sub s.length 5) = some ((s.drop 4).dropLast) ∧
      parse_rgb_color ak s
        = some (rgb_from_parts ak (ak.split_view ((s.drop 4).dropLast) ',')) := by
  obtain ⟨c0, c1, c2, c3, t, tail, hs, _⟩ := rgb_guard_shape s hstart hend
  have hsub := substring_between [c0, c1, c2, c3] t tail 4 rfl
  rw [← hs] at hsub
  have hdrop : s.drop 4 = t :: tail := by rw [hs]; rfl
  have hlen : s.length = tail.length + 5 := by rw [hs]; simp
  have hsize : size_sub s.length 5 = tail.length := by rw [hlen]; simp [size_sub]
  refine ⟨by omega, by rw [hsize]; omega, by rw [hdrop]; exact hsub, ?_⟩
  unfold parse_rgb_color
  rw [hstart, hend, hsub, hdrop]
  simp only [Bool.not_true, Bool.false_eq_true, if_false]
  generalize ak.split_view ((t :: tail).dropLast) ',' = parts
  rcases parts with _ | ⟨p0, _ | ⟨p1, _ | ⟨p2, _ | ⟨p3, rest⟩⟩⟩⟩
  · simp [rgb_from_parts]
  · simp [rgb_from_parts]
  · simp [rgb_from_parts]
  · simp only [rgb_from_parts, List.length_cons, List.length_nil]
    cases h0 : ak.to_number p0 <;> cases h1 : ak.to_number p1 <;>
      cases h2 : ak.to_number p2 <;> simp [h0, h1, h2]
  · simp [rgb_from_parts]

theorem parse_rgba_color_eq (ak : AK) (s : StringView)
    (hstart : starts_with_ignoring_case s "rgba(".toList = true)
    (hend : ends_with s ')' = true) :
    6 ≤ s.length ∧ 5 + size_sub s.length 6 ≤ s.length ∧
      substring_view s 5 (size_sub s.length 6) = some ((s.drop 5).dropLast) ∧
      parse_rgba_color ak s
        = some (rgba_from_parts ak (ak.split_view ((s.drop 5).dropLast) ',')) := by
  obtain ⟨c0, c1, c2, c3, c4, t, tail, hs, _⟩ := rgba_guard_shape s hstart hend
  have hsub := substring_between [c0, c1, c2, c3, c4] t tail 5 rfl
  rw [← hs] at hsub
  have hdrop : s.drop 5 = t :: tail := by rw [hs]; rfl
  have hlen : s.length = tail.length + 6 := by rw [hs]; simp
  have hsize : size_sub s.length 6 = tail.length := by rw [hlen]; simp [size_sub]
  refine ⟨by omega, by rw [hsize]; omega, by rw [hdrop]; exact hsub, ?_⟩
  unfold parse_rgba_color
  rw [hstart, hend, hsub, hdrop]
  simp only [Bool.not_true, Bool.false_eq_true, if_false]
  generalize ak.split_view ((t :: tail).dropLast) ',' = parts
  rcases parts with _ | ⟨p0, _ | ⟨p1, _ | ⟨p2, _ | ⟨p3, _ | ⟨p4, rest⟩⟩⟩⟩⟩
  · simp [rgba_from_parts]
  · simp [rgba_from_parts]
  · simp [rgba_from_parts]
  · simp [rgba_from_parts]
  · simp only [rgba_from_parts, alpha_of_part, List.length_cons, List.length_nil]
    cases h0 : ak.to_number p0 <;> cases h1 : ak.to_number p1 <;>
      cases h2 : ak.to_number p2 <;> cases h3 : ak.parse_first_number p3 <;>
      simp [h0, h1, h2, h3] <;> split_ifs <;> rfl
  · simp [rgba_from_parts]

theorem from_string_rgb (ak : AK) (s : StringView)
    (hstart : starts_with_ignoring_case s "rgb(".toList = true)
    (hend : ends_with s ')' = true) :
    Color.from_string ak s = parse_rgb_color ak s := by
  obtain ⟨c0, c1, c2, c3, t, tail, hs, h0⟩ := rgb_guard_shape s hstart hend
  unfold Color.from_string
  rw [hstart, hend]
  subst hs
  simp [h0]

theorem from_string_rgba (ak : AK) (s : StringView)
    (hstart : starts_with_ignoring_case s "rgba(".toList = true)
    (hend : ends_with s ')' = true) :
    Color.from_string ak s = parse_rgba_color ak s := by
  obtain ⟨c0, c1, c2, c3, c4, t, tail, hs, h0, hrgb⟩ := rgba_guard_shape s hstart hend
  unfold Color.from_string
  rw [hstart, hend, hrgb]
  subst hs
  simp [h0]

/-- C27: `Color::from_string` returns on every string without a failed assertion,
and so does `hex_string_to_color` (every index it reads is within the string). On a
string that starts with `rgb(` (or `rgba(`) in any case and ends with `)`, which is
what `Color::from_string` checks before the call, the `substring_view` of
`parse_rgb_color` (of `parse_rgba_color`) has `start + length <= length()` and the
parser returns. The empty string and `#` give no colour, and `rgb()` and `rgba()`
give what the parts of the empty text give. -/
theorem from_string_total (ak : AK) (s : StringView) :
    (∃ result, Color.from_string ak s = some result) ∧
    (∃ result, hex_string_to_color s = some result) ∧
    (starts_with_ignoring_case s "rgb(".toList = true → ends_with s ')' = true →
      4 + size_sub s.length 5 ≤ s.length ∧
      (∃ substring, substring_view s 4 (size_sub s.length 5) = some substring) ∧
      (∃ result, parse_rgb_color ak s = some result)) ∧
    (starts_with_ignoring_case s "rgba(".toList = true → ends_with s ')' = true →
      5 + size_sub s.length 6 ≤ s.length ∧
      (∃ substring, substring_view s 5 (size_sub s.length 6) = some substring) ∧
      (∃ result, parse_rgba_color ak s = some result)) ∧
    Color.from_string ak "".toList = some none ∧
    Color.from_string ak "#".toList = some none ∧
    Color.from_string ak "rgb()".toList
      = some (rgb_from_parts ak (ak.split_view [] ',')) ∧
    Color.from_string ak "rgba()".toList
      = some (rgba_from_parts ak (ak.split_view [] ',')) := by
  have hhex : ∃ result, hex_string_to_color s = some result := by
    rcases s with _ | ⟨first, rest⟩
    · exact ⟨none, by simp [hex_string_to_color]⟩
    · exact ⟨_, hex_string_to_color_eq first rest⟩
  have hrgb : starts_with_ignoring_case s "rgb(".toList = true → ends_with s ')' = true →
      4 + size_sub s.length 5 ≤ s.length ∧
      (∃ substring, substring_view s 4 (size_sub s.length 5) = some substring) ∧
      (∃ result, parse_rgb_color ak s = some result) := by
    intro hstart hend
    obtain ⟨_, h2, h3, h4⟩ := parse_rgb_color_eq ak s hstart hend
    exact ⟨h2, ⟨_, h3⟩, ⟨_, h4⟩⟩
  have hrgba : starts_with_ignoring_case s "rgba(".toList = true → ends_with s ')' = true →
      5 + size_sub s.length 6 ≤ s.length ∧
      (∃ substring, substring_view s 5 (size_sub s.length 6) = some substring) ∧
      (∃ result, parse_rgba_color ak s = some result) := by
    intro hstart hend
    obtain ⟨_, h2, h3, h4⟩ := parse_rgba_color_eq ak s hstart hend
    exact ⟨h2, ⟨_, h3⟩, ⟨_, h4⟩⟩
  refine ⟨?_, hhex, hrgb, hrgba, ?_, ?_, ?_, ?_⟩
  · rcases s with _ | ⟨first, rest⟩
    · exact ⟨none, by simp [Color.from_string]⟩
    · by_cases hfirst : first = '#'
      · subst hfirst
        rw [from_string_hash]
        exact hhex
      · by_cases h1 : starts_with_ignoring_case (first :: rest) "rgb(".toList = true ∧
            ends_with (first :: rest) ')' = true
        · rw [from_string_rgb ak _ h1.1 h1.2]
          exact (hrgb h1.1 h1.2).2.2
        · by_cases h2 : starts_with_ignoring_case (first :: rest) "rgba(".toList = true ∧
              ends_with (first :: rest) ')' = true
          · rw [from_string_rgba ak _ h2.1 h2.2]
            exact (hrgba h2.1 h2.2).2.2
          · unfold Color.from_string
            simp only [List.isEmpty_cons, Bool.false_eq_true, if_false, List.getElem?_cons_zero,
              hfirst, Bool.and_eq_true]
            rw [if_neg h1, if_neg h2]
            split_ifs
            · exact ⟨_, rfl⟩
            · cases Color.from_named_css_color_string (first :: rest) <;> exact ⟨_, rfl⟩
  · simp [Color.from_string]
  · exact (from_string_hash ak []).trans (by simp [hex_string_to_color])
  · rw [from_string_rgb ak _ (by decide) (by decide),
      (parse_rgb_color_eq ak _ (by decide) (by decide)).2.2.2]
    rfl
  · rw [from_string_rgba ak _ (by decide) (by decide),
      (parse_rgba_color_eq ak _ (by decide) (by decide)).2.2.2]
    rfl

/-- Witness for C27: `rgb(` returns, and with the example helpers `rgb()` and
`rgba()` give no colour. -/
theorem from_string_total_witness :
    (∃ result, Color.from_string AK.example_helpers "rgb(".toList = some result) ∧
      Color.from_string AK.example_helpers "rgb()".toList = some none ∧
      Color.from_string AK.example_helpers "rgba()".toList = some none :=
  ⟨(from_string_total AK.example_helpers "rgb(".toList).1,
    (from_string_total AK.example_helpers "rgb(".toList).2.2.2.2.2.2.1,
    (from_string_total AK.example_helpers "rgb(".toList).2.2.2.2.2.2.2⟩

theorem web_colors_lookup :
    ∀ w ∈ web_colors,
      (web_colors.find? (fun web_color =>
        equals_ignoring_ascii_case w.name.toList web_color.name.toList)).map WebColor.color
        = some w.color := by
  decide!

theorem web_colors_plain :
    ∀ w ∈ web_colors,
      w.name.toList.isEmpty = false ∧
      starts_with_ignoring_case w.name.toList ['#'] = false ∧
      starts_with_ignoring_case w.name.toList "rgb(".toList = false ∧
      starts_with_ignoring_case w.name.toList "rgba(".toList = false ∧
      equals_ignoring_ascii_case w.name.toList "transparent".toList = false ∧
      w.color < 2 ^ 24 := by
  decide!

theorem transparent_plain :
    starts_with_ignoring_case "transparent".toList ['#'] = false ∧
      starts_with_ignoring_case "transparent".toList "rgb(".toList = false ∧
      starts_with_ignoring_case "transparent".toList "rgba(".toList = false := by
  decide

theorem equals_ignoring_ascii_case_iff (a b : StringView) :
    equals_ignoring_ascii_case a b = true ↔
      a.length = b.length ∧ a.map to_ascii_lowercase = b.map to_ascii_lowercase := by
  simp [equals_ignoring_ascii_case]

theorem equals_ignoring_ascii_case_congr (a b q : StringView)
    (h : equals_ignoring_ascii_case a b = true) :
    equals_ignoring_ascii_case a q = equals_ignoring_ascii_case b q := by
  obtain ⟨hlen, hmap⟩ := (equals_ignoring_ascii_case_iff a b).mp h
  unfold equals_ignoring_ascii_case
  rw [hlen, hmap]

theorem starts_with_ignoring_case_congr (a b q : StringView)
    (h : equals_ignoring_ascii_case a b = true) :
    starts_with_ignoring_case a q = starts_with_ignoring_case b q := by
  obtain ⟨hlen, hmap⟩ := (equals_ignoring_ascii_case_iff a b).mp h
  unfold starts_with_ignoring_case
  rw [hlen, List.map_take, List.map_take, hmap]

theorem to_ascii_lowercase_hash (c : Char) (h : to_ascii_lowercase c = '#') : c = '#' := by
  unfold to_ascii_lowercase at h
  by_cases hc : 65 ≤ c.toNat ∧ c.toNat ≤ 90
  · exfalso
    obtain ⟨h1, h2⟩ := hc
    have hk : ∃ k, c.toNat = k ∧ 65 ≤ k ∧ k ≤ 90 := ⟨_, rfl, h1, h2⟩
    obtain ⟨k, hk, hk1, hk2⟩ := hk
    have hck := char_eq_of_toNat c k hk
    subst hck
    interval_cases k <;> revert h <;> decide
  · rw [if_neg hc] at h
    exact h

theorem first_is_hash_iff (c : Char) (rest : StringView) :
    starts_with_ignoring_case (c :: rest) ['#'] = true ↔ c = '#' := by
  have e : to_ascii_lowercase '#' = '#' := by decide
  constructor
  · intro h
    simp only [starts_with_ignoring_case, List.length_cons, List.length_nil, List.take,
      List.map_cons, List.map_nil, Bool.and_eq_true, decide_eq_true_eq, List.cons.injEq,
      and_true, e] at h
    exact to_ascii_lowercase_hash c h.2
  · intro h
    subst h
    simp [starts_with_ignoring_case, e]

/-- The value of `Color::from_string` on a string that is, ignoring ASCII case, a
string without the marks of the other forms. -/
theorem from_string_plain (ak : AK) (s t : StringView)
    (h : equals_ignoring_ascii_case s t = true) (hempty : t.isEmpty = false)
    (hhash : starts_with_ignoring_case t ['#'] = false)
    (hrgb : starts_with_ignoring_case t "rgb(".toList = false)
    (hrgba : starts_with_ignoring_case t "rgba(".toList = false) :
    Color.from_string ak s =
      if equals_ignoring_ascii_case t "transparent".toList then
        some (some (Color.from_argb 0x00000000))
      else some (Color.from_named_css_color_string s) := by
  obtain ⟨hlen, _⟩ := (equals_ignoring_ascii_case_iff s t).mp h
  rcases s with _ | ⟨c, rest⟩
  · rcases t with _ | ⟨d, rest2⟩
    · simp at hempty
    · simp at hlen
  · have hc : c ≠ '#' := by
      intro hc
      have := (first_is_hash_iff c rest).mpr hc
      rw [starts_with_ignoring_case_congr _ _ _ h, hhash] at this
      exact Bool.false_ne_true this
    unfold Color.from_string
    rw [starts_with_ignoring_case_congr _ _ _ h, hrgb,
      starts_with_ignoring_case_congr _ _ _ h, hrgba,
      equals_ignoring_ascii_case_congr _ _ _ h]
    simp only [List.isEmpty_cons, Bool.false_eq_true, if_false, List.getElem?_cons_zero, hc,
      Bool.false_and]
    split_ifs
    · rfl
    · cases Color.from_named_css_color_string (c :: rest) <;> rfl

theorem to_ascii_lowercase_idem (c : Char) :
    to_ascii_lowercase (to_ascii_lowercase c) = to_ascii_lowercase c := by
  by_cases hc : 65 ≤ c.toNat ∧ c.toNat ≤ 90
  · obtain ⟨h1, h2⟩ := hc
    have hk : ∃ k, c.toNat = k ∧ 65 ≤ k ∧ k ≤ 90 := ⟨_, rfl, h1, h2⟩
    obtain ⟨k, hk, hk1, hk2⟩ := hk
    have hck := char_eq_of_toNat c k hk
    subst hck
    interval_cases k <;> decide
  · have e : to_ascii_lowercase c = c := by
      unfold to_ascii_lowercase
      rw [if_neg hc]
    rw [e, e]

theorem ascii_case_variant_char_lowercase (a b : Char) (h : ascii_case_variant_char a b) :
    to_ascii_lowercase a = to_ascii_lowercase b := by
  rcases h with h | h | h
  · rw [h]
  · rw [← h, to_ascii_lowercase_idem]
  · rw [h, to_ascii_lowercase_idem]

theorem ascii_case_variant_equals (s t : StringView) (h : ascii_case_variant s t) :
    equals_ignoring_ascii_case s t = true := by
  rw [equals_ignoring_ascii_case_iff]
  induction h with
  | nil => exact ⟨rfl, rfl⟩
  | cons hab _ ih =>
    obtain ⟨hlen, hmap⟩ := ih
    refine ⟨by simp [hlen], ?_⟩
    simp only [List.map_cons]
    rw [ascii_case_variant_char_lowercase _ _ hab, hmap]

theorem from_named_congr (s t : StringView) (h : equals_ignoring_ascii_case s t = true) :
    Color.from_named_css_color_string s = Color.from_named_css_color_string t := by
  obtain ⟨hlen, _⟩ := (equals_ignoring_ascii_case_iff s t).mp h
  have hempty : s.isEmpty = t.isEmpty := by
    rcases s with _ | ⟨c, rest⟩ <;> rcases t with _ | ⟨d, rest2⟩ <;> simp at hlen <;> rfl
  have hfun : (fun web_color : WebColor =>
        equals_ignoring_ascii_case s web_color.name.toList)
      = (fun web_color : WebColor => equals_ignoring_ascii_case t web_color.name.toList) := by
    funext web_color
    exact equals_ignoring_ascii_case_congr s t _ h
  unfold Color.from_named_css_color_string
  rw [hempty, hfun]

theorem from_named_of_table (w : WebColor) (hw : w ∈ web_colors) :
    Color.from_named_css_color_string w.name.toList = some (Color.from_rgb w.color) := by
  have hlookup := web_colors_lookup w hw
  have hplain := (web_colors_plain w hw).1
  unfold Color.from_named_css_color_string
  rw [hplain]
  simp only [Bool.false_eq_true, if_false]
  cases hfind : web_colors.find? (fun web_color =>
      equals_ignoring_ascii_case w.name.toList web_color.name.toList) with
  | none => rw [hfind] at hlookup; simp at hlookup
  | some found =>
    rw [hfind] at hlookup
    simp only [Option.map_some', Option.some.injEq] at hlookup
    simp [hlookup]

theorem from_named_none (s : StringView)
    (h : ∀ w ∈ web_colors, equals_ignoring_ascii_case s w.name.toList = false) :
    Color.from_named_css_color_string s = none := by
  have hfind : web_colors.find? (fun web_color =>
      equals_ignoring_ascii_case s web_color.name.toList) = none := by
    rw [List.find?_eq_none]
    intro w hw
    show ¬ equals_ignoring_ascii_case s w.name.toList = true
    rw [h w hw]
    exact Bool.false_ne_true
  unfold Color.from_named_css_color_string
  rw [hfind]
  simp

/-- C25: `Color::from_named_css_color_string` returns none on the empty string; on
a string that equals the name of an entry of `web_colors` ignoring ASCII case it
returns the RGB value of that entry as an opaque colour, and `Color::from_string`
returns the same; it returns none when no name of the table equals the string
ignoring ASCII case; it gives the same on two strings that are equal ignoring ASCII
case; and `Color::from_string` maps every string equal to `transparent` ignoring
ASCII case to ARGB `0x00000000`. Every ASCII-case variant of a string, one that
differs from it place by place at most in the case of a letter, is equal to it
ignoring ASCII case. The table has 148 entries. -/
theorem from_named_css_color_string_spec (ak : AK) (s : StringView) :
    Color.from_named_css_color_string [] = none ∧
    (∀ w ∈ web_colors, equals_ignoring_ascii_case s w.name.toList = true →
      Color.from_named_css_color_string s = some (Color.from_rgb w.color) ∧
      (Color.from_rgb w.color).alpha = 255 ∧
      (Color.from_rgb w.color).m_value = 0xff000000 + w.color ∧
      Color.from_string ak s = some (Color.from_named_css_color_string s)) ∧
    ((∀ w ∈ web_colors, equals_ignoring_ascii_case s w.name.toList = false) →
      Color.from_named_css_color_string s = none) ∧
    (∀ t, equals_ignoring_ascii_case s t = true →
      Color.from_named_css_color_string s = Color.from_named_css_color_string t) ∧
    (equals_ignoring_ascii_case s "transparent".toList = true →
      Color.from_string ak s = some (some (Color.from_argb 0x00000000)) ∧
      (Color.from_argb 0x00000000).m_value = 0) ∧
    (∀ t, ascii_case_variant s t → equals_ignoring_ascii_case s t = true) ∧
    web_colors.length = 148 := by
  refine ⟨by simp [Color.from_named_css_color_string], ?_, from_named_none s,
    from_named_congr s, ?_, ascii_case_variant_equals s, by decide!⟩
  · intro w hw h
    obtain ⟨hempty, hhash, hrgb, hrgba, htransparent, hcolor⟩ := web_colors_plain w hw
    refine ⟨by rw [from_named_congr s _ h, from_named_of_table w hw], ?_, ?_, ?_⟩
    · simp only [Color.alpha, Color.from_rgb]
      omega
    · simp only [Color.from_rgb]
      omega
    · rw [from_string_plain ak s _ h hempty hhash hrgb hrgba, htransparent]
      simp
  · intro h
    refine ⟨?_, rfl⟩
    rw [from_string_plain ak s _ h (by decide) transparent_plain.1 transparent_plain.2.1
      transparent_plain.2.2, if_pos (by decide)]

/-- Witness for C25: `RebeccaPurple` is found as `0x663399` by both functions, and
`TRANSPARENT` is ARGB 0. -/
theorem from_named_css_color_string_spec_witness :
    Color.from_named_css_color_string "RebeccaPurple".toList
        = some (Color.from_rgb 0x663399) ∧
      Color.from_string AK.example_helpers "RebeccaPurple".toList
        = some (Color.from_named_css_color_string "RebeccaPurple".toList) ∧
      Color.from_string AK.example_helpers "TRANSPARENT".toList
        = some (some (Color.from_argb 0x00000000)) :=
  ⟨((from_named_css_color_string_spec AK.example_helpers "RebeccaPurple".toList).2.1
      (WebColor.mk 0x663399 "rebeccapurple") (by decide!) (by decide)).1,
    ((from_named_css_color_string_spec AK.example_helpers "RebeccaPurple".toList).2.1
      (WebColor.mk 0x663399 "rebeccapurple") (by decide!) (by decide)).2.2.2,
    ((from_named_css_color_string_spec AK.example_helpers "TRANSPARENT".toList).2.2.2.2.1
      (by decide)).1⟩

/-! ## `Color::from_lab` -/

/-- C28 (the code at the failing input): at `t = 16/116` the helper `f_inv` of
`from_lab` takes its linear branch and returns `-22275/24389`, not `0`, where the
CIE function returns `0`; at the threshold `t = 24/116` its linear branch gives
`-22059/24389` while the cubic branch gives `216/24389`; and `from_lab(0, 0, 0)`, which
calls `f_inv` at `16/116` three times, hands negative `x`, `y`, `z` to `from_xyz50`. -/
theorem f_inv_misses_cie_at_sixteen :
    f_inv (16 / 116) = -22275 / 24389 ∧
      f_inv (16 / 116) ≠ 0 ∧
      cie_f_inv (16 / 116) = 0 ∧
      (108 / 841 : ℚ) * (24 / 116 - 116 / 16) = -22059 / 24389 ∧
      (24 / 116 : ℚ) ^ 3 = 216 / 24389 ∧
      (108 / 841 : ℚ) * (24 / 116 - 16 / 116) = (24 / 116 : ℚ) ^ 3 ∧
      from_lab_xyz 0 0 0
        = (0.96422 * (-22275 / 24389), -22275 / 24389, 0.82521 * (-22275 / 24389)) := by
  refine ⟨?_, ?_, ?_, ?_, ?_, ?_, ?_⟩ <;> norm_num [f_inv, cie_f_inv, from_lab_xyz]

end Gfx

namespace Crypto

/-! ## `RSAPrivateKey::export_as_der` -/

/-- C29: `export_as_der` returns the error "Cannot export private key without prime
factors" whenever `prime1` or `prime2` is zero, whatever the encoder would do (so
before anything is encoded); every key built by the default constructor or by the
`(n, d, e)` constructor fails to export in this way; and for a key with both primes
non-zero the result is the encoder's result for the SEQUENCE of version 0, n, e, d,
p, q, dp, dq, qinv, in that order. -/
theorem export_as_der_spec (encode : ASN1 → Except String (List Nat)) (key : RSAPrivateKey) :
    (key.m_prime_1 = 0 ∨ key.m_prime_2 = 0 →
        key.export_as_der encode
          = Except.error "Cannot export private key without prime factors") ∧
      RSAPrivateKey.default_key.export_as_der encode
        = Except.error "Cannot export private key without prime factors" ∧
      (∀ (byte_length : Nat → Nat) (n d e : UnsignedBigInteger),
        (RSAPrivateKey.of_n_d_e byte_length n d e).export_as_der encode
          = Except.error "Cannot export private key without prime factors") ∧
      (key.m_prime_1 ≠ 0 → key.m_prime_2 ≠ 0 →
        key.export_as_der encode
          = encode (ASN1.sequence
              [ASN1.integer 0,
               ASN1.integer key.m_modulus,
               ASN1.integer key.m_public_exponent,
               ASN1.integer key.m_private_exponent,
               ASN1.integer key.m_prime_1,
               ASN1.integer key.m_prime_2,
               ASN1.integer key.m_exponent_1,
               ASN1.integer key.m_exponent_2,
               ASN1.integer key.m_coefficient])) := by
  refine ⟨?_, rfl, fun _ _ _ _ => rfl, ?_⟩
  · intro h
    rcases h with h | h <;>
      simp [RSAPrivateKey.export_as_der, UnsignedBigInteger.is_zero, h]
  · intro hp hq
    simp [RSAPrivateKey.export_as_der, UnsignedBigInteger.is_zero, hp, hq]

/-- Witness for C29: a key with `q = 0` is refused even by an encoder that would
succeed, and the key `n = 3233, e = 17, d = 413, p = 61, q = 53` reaches the
encoder with nine items. -/
theorem export_as_der_spec_witness :
    (RSAPrivateKey.of_all (fun _ => 2) 3233 413 17 61 0 53 49 38).export_as_der
          counting_encoder
        = Except.error "Cannot export private key without prime factors" ∧
      (RSAPrivateKey.of_all (fun _ => 2) 3233 413 17 61 53 53 49 38).export_as_der
          counting_encoder
        = counting_encoder (ASN1.sequence
            [ASN1.integer 0,
             ASN1.integer (RSAPrivateKey.of_all (fun _ => 2) 3233 413 17 61 53 53 49 38).m_modulus,
             ASN1.integer
               (RSAPrivateKey.of_all (fun _ => 2) 3233 413 17 61 53 53 49 38).m_public_exponent,
             ASN1.integer
               (RSAPrivateKey.of_all (fun _ => 2) 3233 413 17 61 53 53 49 38).m_private_exponent,
             ASN1.integer (RSAPrivateKey.of_all (fun _ => 2) 3233 413 17 61 53 53 49 38).m_prime_1,
             ASN1.integer (RSAPrivateKey.of_all (fun _ => 2) 3233 413 17 61 53 53 49 38).m_prime_2,
             ASN1.integer
               (RSAPrivateKey.of_all (fun _ => 2) 3233 413 17 61 53 53 49 38).m_exponent_1,
             ASN1.integer
               (RSAPrivateKey.of_all (fun _ => 2) 3233 413 17 61 53 53 49 38).m_exponent_2,
             ASN1.integer
               (RSAPrivateKey.of_all (fun _ => 2) 3233 413 17 61 53 53 49 38).m_coefficient]) :=
  ⟨(export_as_der_spec counting_encoder
      (RSAPrivateKey.of_all (fun _ => 2) 3233 413 17 61 0 53 49 38)).1 (Or.inr rfl),
    (export_as_der_spec counting_encoder
      (RSAPrivateKey.of_all (fun _ => 2) 3233 413 17 61 53 53 49 38)).2.2.2
      (by decide) (by decide)⟩

end Crypto
